import Mathlib

/-!
# Path tracer (subt_ign): a shallow embedding of `path_tracer.cc` / `path_tracer.hh`

The processor replays a recorded pose stream into a time-indexed event model
(`logData`) and then walks that model, issuing visualization markers.

Modelling conventions.

* `double` values are exact rationals (`ℚ`); rounding is not modelled.  The test
  `a.Distance(b) > 1.0` is the exact comparison of the squared distance with 1.
* `int` is `Int`; the marker counter and the narrowing of the 64-bit message
  stamp wrap to 32 bits (`wrapInt32`).
* `std::map` is an association list kept in ascending key order by `mapSet`;
  `operator[]` is `mapIndex` (it inserts a default value for an absent key).
* Everything the processor sends or prints is appended to the trace `out`.
* Undefined behaviour (`back()` of an empty vector, `% 0`, the conversion of a
  non-finite `double` to `int`) is the result `none`.
* The callbacks of the playback arrive one at a time, in the order of a list.
* The constructor is `Processor.construct`, its configuration part
  `Processor.init`, its event loop `Processor.addEvent`.
-/

namespace PathTracer

/-! ## Scalars, strings and geometry -/

/-- Two's complement reduction of an integer to a 32-bit `int`. -/
def wrapInt32 (x : Int) : Int := (x + 2147483648) % 4294967296 - 2147483648

/-- Conversion of a `double` to `int`: truncation toward zero. -/
def truncToInt (q : ℚ) : Int := if 0 ≤ q then ⌊q⌋ else ⌈q⌉

/-- Whether the text starts with the pattern. -/
def startsWithChars : List Char → List Char → Bool
  | [], _ => true
  | _ :: _, [] => false
  | a :: as, b :: bs => if a = b then startsWithChars as bs else false

/-- Whether the pattern occurs somewhere in the text. -/
def containsChars (pat : List Char) : List Char → Bool
  | [] => startsWithChars pat []
  | c :: cs => startsWithChars pat (c :: cs) || containsChars pat cs

/-- The test `s.find(pat) != std::string::npos`. -/
def strContains (s pat : String) : Bool := containsChars pat.data s.data

/-- The test `s.find(pat) == 0`. -/
def strStartsWith (s pat : String) : Bool := startsWithChars pat.data s.data

/-- Lexicographic order on character sequences (the order of `std::string`). -/
def ltChars : List Char → List Char → Bool
  | [], [] => false
  | [], _ :: _ => true
  | _ :: _, [] => false
  | a :: as, b :: bs =>
    if a.toNat < b.toNat then true
    else if b.toNat < a.toNat then false
    else ltChars as bs

/-- Strict key order used by `std::map`. -/
class MapKey (κ : Type) where
  keyLt : κ → κ → Bool

instance : MapKey Int := ⟨fun a b => decide (a < b)⟩

instance : MapKey String := ⟨fun a b => ltChars a.data b.data⟩

/-- The class ignition::math::Vector3d. -/
structure Vector3d where
  X : ℚ
  Y : ℚ
  Z : ℚ
deriving DecidableEq

/-- The constant Vector3d::Zero. -/
def Vector3d.Zero : Vector3d := ⟨0, 0, 0⟩

instance : Add Vector3d := ⟨fun a b => ⟨a.X + b.X, a.Y + b.Y, a.Z + b.Z⟩⟩

/-- Square of the Euclidean distance between two points. -/
def Vector3d.SquaredDistance (a b : Vector3d) : ℚ :=
  (a.X - b.X) * (a.X - b.X) + (a.Y - b.Y) * (a.Y - b.Y) + (a.Z - b.Z) * (a.Z - b.Z)

/-- The test `a.Distance(b) > 1.0`, decided on the squared distance. -/
def Vector3d.DistanceGt1 (a b : Vector3d) : Bool := decide (1 < a.SquaredDistance b)

/-- The class ignition::math::Quaterniond. -/
structure Quaterniond where
  W : ℚ
  X : ℚ
  Y : ℚ
  Z : ℚ
deriving DecidableEq

/-- The identity rotation. -/
def Quaterniond.Identity : Quaterniond := ⟨1, 0, 0, 0⟩

/-- The class ignition::math::Pose3d: a position and an orientation. -/
structure Pose3d where
  Pos : Vector3d
  Rot : Quaterniond
deriving DecidableEq

instance : Inhabited Pose3d := ⟨⟨Vector3d.Zero, Quaterniond.Identity⟩⟩

/-- The class ignition::math::Color; the default colour is opaque black. -/
structure Color where
  R : ℚ
  G : ℚ
  B : ℚ
  A : ℚ
deriving DecidableEq

instance : Inhabited Color := ⟨⟨0, 0, 0, 1⟩⟩

/-- Color properties for a marker. -/
structure MarkerColor where
  ambient : Color
  diffuse : Color
  emissive : Color
deriving DecidableEq

instance : Inhabited MarkerColor := ⟨⟨default, default, default⟩⟩

/-! ## `std::map` -/

/-- An ordered map, as the list of its entries in iteration order. -/
abbrev StdMap (κ α : Type) := List (κ × α)

/-- The lookup `m.find(k)`. -/
def mapFind {κ α : Type} [DecidableEq κ] : StdMap κ α → κ → Option α
  | [], _ => none
  | (k1, v) :: rest, k => if k = k1 then some v else mapFind rest k

/-- The assignment `m[k] = v`: overwrite, or insert at the ordered position. -/
def mapSet {κ α : Type} [DecidableEq κ] [MapKey κ] : StdMap κ α → κ → α → StdMap κ α
  | [], k, v => [(k, v)]
  | (k1, v1) :: rest, k, v =>
    if k = k1 then (k, v) :: rest
    else if MapKey.keyLt k k1 then (k, v) :: (k1, v1) :: rest
    else (k1, v1) :: mapSet rest k v

/-- The access `m[k]`: the value, and the map with a default entry inserted
when the key was absent. -/
def mapIndex {κ α : Type} [DecidableEq κ] [MapKey κ] [Inhabited α]
    (m : StdMap κ α) (k : κ) : α × StdMap κ α :=
  match mapFind m k with
  | some v => (v, m)
  | none => (default, mapSet m k default)

/-- The keys of a map, in iteration order. -/
def mapKeys {κ α : Type} (m : StdMap κ α) : List κ := m.map Prod.fst

/-! ## Messages and markers -/

/-- One named pose of a pose-stream message. -/
structure PoseMsg where
  name : String
  pose : Pose3d

/-- A pose-stream message: the header stamp (seconds) and the named poses. -/
structure Pose_V where
  sec : Int
  pose : List PoseMsg

/-- Marker geometry. -/
inductive MarkerType
  | NONE
  | BOX
  | SPHERE
deriving DecidableEq

/-- Marker action. -/
inductive MarkerAction
  | ADD_MODIFY
  | DELETE_ALL
deriving DecidableEq

/-- Orientation of a marker: the identity, or `Quaterniond(0, 0, q.Yaw())`
for a pose orientation `q` (kept symbolic). -/
inductive MarkerRot
  | Identity
  | YawOf (q : Quaterniond)
deriving DecidableEq

/-- The marker request sent to the rendering service. -/
structure Marker where
  ns : String
  id : Int
  action : MarkerAction
  type : MarkerType
  material : MarkerColor
  scale : Vector3d
  pos : Vector3d
  rot : MarkerRot
deriving DecidableEq

/-- What the processor sends and prints, in order. -/
inductive Output
  | Request (m : Marker)
  | RobotNr (nr : Nat) (name : String) (color : Color)
  | Progress (cur last : Int)
  | Wait (sleepTime : Int)
  | BreadcrumbNotFound (sec : Int)
  | Parsed (numReports numBreadcrumbs : Nat)
  | MissingEvents
  | EventsError
deriving DecidableEq

/-! ## The event model -/

/-- Type of data, which is used to determine how to visualize the data. -/
inductive DataType
  | ROBOT
  | REPORT
  | BREADCRUMB
deriving DecidableEq

/-- The three event classes derived from `Data`. -/
inductive Data
  | RobotPoseData (poses : StdMap String (List Pose3d))
  | ReportData (pos : Vector3d) (score : Int)
  | BreadcrumbData (robot : String) (sec : Int)
deriving DecidableEq

/-- The `type` field, as set where each event is created. -/
def Data.type : Data → DataType
  | .RobotPoseData _ => .ROBOT
  | .ReportData _ _ => .REPORT
  | .BreadcrumbData _ _ => .BREADCRUMB

/-- The log file processor. -/
structure Processor where
  robots : StdMap String MarkerColor
  artifactColors : StdMap String MarkerColor
  robotColors : List MarkerColor
  breadcrumbColor : MarkerColor
  robotMarkers : StdMap String Int
  prevPose : StdMap String Pose3d
  artifacts : StdMap String Pose3d
  markerId : Int
  logData : StdMap Int (List Data)
  rtf : ℚ
  out : List Output

/-- Append one entry to the trace. -/
def Processor.emit (p : Processor) (o : Output) : Processor :=
  { p with out := p.out ++ [o] }

/-! ## Marker sink adapter -/

/-- Processor::SpawnMarker: the marker takes the given id when it is
non-negative and the counter value otherwise, which is then incremented. -/
def Processor.SpawnMarker (p : Processor) (_color : MarkerColor) (_pos : Vector3d)
    (_type : MarkerType) (_scale : Vector3d) (_markerId : Int) (_rot : MarkerRot) :
    Processor × Marker :=
  let id := if _markerId ≥ 0 then _markerId else p.markerId
  let p1 := if _markerId ≥ 0 then p else { p with markerId := wrapInt32 (p.markerId + 1) }
  let markerMsg : Marker :=
    { ns := "default", id := id, action := .ADD_MODIFY, type := _type,
      material := _color, scale := _scale, pos := _pos, rot := _rot }
  (p1.emit (.Request markerMsg), markerMsg)

/-- Processor::ClearMarkers: one DELETE_ALL request (the pause that follows
is not recorded). -/
def Processor.ClearMarkers (p : Processor) : Processor :=
  p.emit (.Request
    { ns := "default", id := 0, action := .DELETE_ALL, type := .NONE,
      material := default, scale := Vector3d.Zero, pos := Vector3d.Zero,
      rot := .Identity })

/-! ## Capture -/

/-- The names skipped by Processor::Cb. -/
def isExcluded (name : String) : Bool :=
  strContains name "_wheel" || strContains name "breadcrumb_" ||
  strContains name "rotor_" || strContains name "Rock_" || name == "base_link"

/-- The registration block of Processor::Cb, run for a name absent from
`robots`.  The right operand of the colour assignment is evaluated first, so
the index uses the size before the insertion. -/
def Processor.registerRobot (p : Processor) (name : String) (pose : Pose3d) :
    Option Processor :=
  if p.robotColors.length = 0 then none
  else
    match p.robotColors[p.robots.length % p.robotColors.length]? with
    | none => none
    | some c =>
      let p1 := { p with robots := mapSet p.robots name c,
                         prevPose := mapSet p.prevPose name pose }
      let p2 := { p1 with markerId := wrapInt32 (p1.markerId + 1) }
      let p3 := { p2 with robotMarkers := mapSet p2.robotMarkers name p2.markerId }
      let r := mapIndex p3.robots name
      let p4 := ({ p3 with robots := r.2 }.SpawnMarker r.1 Vector3d.Zero .SPHERE
                  ⟨10, 10, 10⟩ (-1) .Identity).1
      let r2 := mapIndex p4.robots name
      let p5 := { p4 with robots := r2.2 }
      some (p5.emit (.RobotNr p5.robots.length name r2.1.ambient))

/-- One iteration of the loop of Processor::Cb over the poses of a message;
`data` is the batch under construction. -/
def Processor.CbPose (st : Processor × StdMap String (List Pose3d)) (pm : PoseMsg) :
    Option (Processor × StdMap String (List Pose3d)) :=
  let p := st.1
  let data := st.2
  let name := pm.name
  if isExcluded name then some (p, data)
  else
    let pose := pm.pose
    match (if mapFind p.robots name = none then p.registerRobot name pose else some p) with
    | none => none
    | some p1 =>
      let prev := mapIndex p1.prevPose name
      let p2 := { p1 with prevPose := prev.2 }
      if prev.1.Pos.DistanceGt1 pose.Pos then
        let seq := mapIndex data name
        some ({ p2 with prevPose := mapSet p2.prevPose name pose },
              mapSet seq.2 name (seq.1 ++ [pose]))
      else some (p2, data)

/-- The loop of Processor::Cb over the poses of a message. -/
def Processor.CbLoop : Processor × StdMap String (List Pose3d) → List PoseMsg →
    Option (Processor × StdMap String (List Pose3d))
  | st, [] => some st
  | st, pm :: rest =>
    match Processor.CbPose st pm with
    | none => none
    | some st1 => Processor.CbLoop st1 rest

/-- The statement `logData[sec].push_back(data)`. -/
def pushEvent (logData : StdMap Int (List Data)) (sec : Int) (d : Data) :
    StdMap Int (List Data) :=
  let bucket := mapIndex logData sec
  mapSet bucket.2 sec (bucket.1 ++ [d])

/-- Processor::Cb: this callback is triggered on every pose message. -/
def Processor.Cb (p : Processor) (_msg : Pose_V) : Option Processor :=
  match Processor.CbLoop (p, []) _msg.pose with
  | none => none
  | some (p1, data) =>
    let sec := wrapInt32 _msg.sec
    if data ≠ [] then some { p1 with logData := pushEvent p1.logData sec (.RobotPoseData data) }
    else some p1

/-- Processor::ArtifactCb: keep the latest pose of every artifact. -/
def Processor.ArtifactCb (p : Processor) (_msg : Pose_V) : Processor :=
  _msg.pose.foldl (fun q pm =>
    let name := pm.name
    if strStartsWith name "rescue" || strStartsWith name "backpack" ||
       strStartsWith name "vent" || strStartsWith name "gas" ||
       strStartsWith name "drill" || strStartsWith name "extinguisher" ||
       strStartsWith name "phone" || strStartsWith name "rope" ||
       strStartsWith name "helmet"
    then { q with artifacts := mapSet q.artifacts name pm.pose }
    else q) p

/-- One callback made while the log is played back: Processor::Cb for a
message of the pose stream, Processor::ArtifactCb for a message of the
artifact pose stream. -/
inductive Callback
  | Pose (msg : Pose_V)
  | Artifact (msg : Pose_V)

/-- All pose messages handled by Processor::Cb, in order. -/
def Processor.CbAll : Processor → List Pose_V → Option Processor
  | p, [] => some p
  | p, m :: rest =>
    match p.Cb m with
    | none => none
    | some p1 => Processor.CbAll p1 rest

/-- The callbacks of one playback, in order of arrival. -/
def Processor.capture : Processor → List Callback → Option Processor
  | p, [] => some p
  | p, .Pose m :: rest =>
    match p.Cb m with
    | none => none
    | some p1 => Processor.capture p1 rest
  | p, .Artifact m :: rest => Processor.capture (p.ArtifactCb m) rest

/-! ## Rendering -/

/-- The body of the outer loop of RobotPoseData::Render for one robot: a
sphere per pose, then the robot's box, moved by its stable marker id. -/
def RobotPoseData.renderRobot (p : Processor) (name : String) (seq : List Pose3d) :
    Option Processor :=
  let p1 := seq.foldl (fun q pose =>
    let c := mapIndex q.robots name
    ({ q with robots := c.2 }.SpawnMarker c.1 (pose.Pos + Vector3d.mk 0 0 0.5) .SPHERE
      ⟨1, 1, 1⟩ (-1) .Identity).1) p
  match seq.getLast? with
  | none => none
  | some back =>
    let z := back.Pos.Z
    let scale := 1.0 + (((z + 100.0) / 200.0) - 0.5) * 1.5
    let c := mapIndex p1.robots name
    let i := mapIndex p1.robotMarkers name
    some ({ p1 with robots := c.2, robotMarkers := i.2 }.SpawnMarker c.1
      (back.Pos + Vector3d.mk 0 0 5) .BOX ⟨scale * 10, scale * 5, 10⟩ i.1 (.YawOf back.Rot)).1

/-- RobotPoseData::Render. -/
def RobotPoseData.Render : StdMap String (List Pose3d) → Processor → Option Processor
  | [], p => some p
  | (name, seq) :: rest, p =>
    match RobotPoseData.renderRobot p name seq with
    | none => none
    | some p1 => RobotPoseData.Render rest p1

/-- ReportData::Render. -/
def ReportData.Render (pos : Vector3d) (score : Int) (p : Processor) : Processor :=
  if score > 0 then
    let c := mapIndex p.artifactColors "correct_report_color"
    ({ p with artifactColors := c.2 }.SpawnMarker c.1 pos .SPHERE ⟨10, 10, 10⟩
      (-1) .Identity).1
  else
    let c := mapIndex p.artifactColors "incorrect_report_color"
    ({ p with artifactColors := c.2 }.SpawnMarker c.1 pos .BOX ⟨4, 4, 4⟩
      (-1) .Identity).1

/-- The inner loop of BreadcrumbData::Render over one bucket: the pose
sequence of the robot in the first ROBOT event that has the robot. -/
def BreadcrumbData.scanBucket (robot : String) : List Data → Option (List Pose3d)
  | [] => none
  | .RobotPoseData poses :: rest =>
    match mapFind poses robot with
    | none => BreadcrumbData.scanBucket robot rest
    | some seq => some seq
  | _ :: rest => BreadcrumbData.scanBucket robot rest

/-- The body of the outer loop of BreadcrumbData::Render for one second. -/
def BreadcrumbData.scanSecond (logData : StdMap Int (List Data)) (robot : String)
    (sec : Int) : Option (List Pose3d) :=
  match mapFind logData sec with
  | none => none
  | some bucket => BreadcrumbData.scanBucket robot bucket

/-- The outer loop of BreadcrumbData::Render, from second `n` down to 0. -/
def BreadcrumbData.search (logData : StdMap Int (List Data)) (robot : String) :
    Nat → Option (List Pose3d)
  | 0 => BreadcrumbData.scanSecond logData robot 0
  | n + 1 =>
    match BreadcrumbData.scanSecond logData robot ((n : Int) + 1) with
    | some seq => some seq
    | none => BreadcrumbData.search logData robot n

/-- BreadcrumbData::Render. -/
def BreadcrumbData.Render (robot : String) (sec : Int) (p : Processor) : Option Processor :=
  if sec < 0 then some (p.emit (.BreadcrumbNotFound sec))
  else
    match BreadcrumbData.search p.logData robot sec.toNat with
    | none => some (p.emit (.BreadcrumbNotFound sec))
    | some seq =>
      match seq.getLast? with
      | none => none
      | some pose =>
        some (p.SpawnMarker p.breadcrumbColor (pose.Pos + Vector3d.mk 0 0 0.5) .BOX
          ⟨6, 6, 20⟩ (-1) .Identity).1

/-- The virtual call `data->Render(_p)`. -/
def Data.Render : Data → Processor → Option Processor
  | .RobotPoseData poses, p => RobotPoseData.Render poses p
  | .ReportData pos score, p => some (ReportData.Render pos score p)
  | .BreadcrumbData robot sec, p => BreadcrumbData.Render robot sec p

/-- The loop over the events of one bucket. -/
def renderBucket : List Data → Processor → Option Processor
  | [], p => some p
  | d :: rest, p =>
    match d.Render p with
    | none => none
    | some p1 => renderBucket rest p1

/-- The nominal wait before the next bucket, in milliseconds:
`((next - cur) / rtf) * 1000` converted to `int`.  With a zero realtime factor
the quotient is not a finite number and its conversion is undefined.  The
difference of the two keys and the range of the conversion are exact. -/
def sleepTime (cur next : Int) (rtf : ℚ) : Option Int :=
  if rtf = 0 then none
  else some (truncToInt ((((next - cur : Int) : ℚ) / rtf) * 1000))

/-- The loop of Processor::DisplayPoses over the buckets in iteration order;
`last` is the greatest key, printed with the progress (the percentage, which
is computed from the same two numbers, is not recorded).  The wait that is
recorded is the nominal one, before the time spent rendering is deducted. -/
def DisplayPosesLoop (last : Int) : StdMap Int (List Data) → Processor → Option Processor
  | [], p => some p
  | (sec, bucket) :: rest, p =>
    match renderBucket bucket (p.emit (.Progress sec last)) with
    | none => none
    | some p1 =>
      match rest with
      | [] => some p1
      | (next, _) :: _ =>
        match sleepTime sec next p1.rtf with
        | none => none
        | some t => DisplayPosesLoop last rest (p1.emit (.Wait t))

/-- Processor::DisplayPoses.  The walk is over the buckets of the timeline at
entry; no Render changes the timeline. -/
def Processor.DisplayPoses (p : Processor) : Option Processor :=
  DisplayPosesLoop ((p.logData.getLast?.map Prod.fst).getD 0) p.logData p

/-- Processor::DisplayArtifacts. -/
def Processor.DisplayArtifacts (p : Processor) : Processor :=
  p.artifacts.foldl (fun q artifact =>
    let c := mapIndex q.artifactColors "artifact_location_color"
    ({ q with artifactColors := c.2 }.SpawnMarker c.1 artifact.2.Pos .SPHERE
      ⟨8, 8, 8⟩ (-1) .Identity).1) p

/-! ## Construction -/

/-- The recognised keys of the configuration document, already parsed. -/
structure Config where
  rtf : Option ℚ
  incorrect_report_color : Option MarkerColor
  correct_report_color : Option MarkerColor
  artifact_location_color : Option MarkerColor
  breadcrumb_color : Option MarkerColor
  robot_colors : Option (List MarkerColor)

/-- A marker colour with the same value in its three components. -/
def MarkerColor.uniform (c : Color) : MarkerColor := ⟨c, c, c⟩

/-- The built-in robot palette. -/
def defaultRobotColors : List MarkerColor :=
  [ MarkerColor.uniform ⟨0.6, 0.0, 1.0, 1.0⟩,
    MarkerColor.uniform ⟨0.678, 0.2, 1.0, 1.0⟩,
    MarkerColor.uniform ⟨0.761, 0.4, 1.0, 1.0⟩,
    MarkerColor.uniform ⟨0.839, 0.6, 1.0, 1.0⟩,
    MarkerColor.uniform ⟨1.0, 0.6, 0.0, 1.0⟩,
    MarkerColor.uniform ⟨1.0, 0.678, 0.2, 1.0⟩,
    MarkerColor.uniform ⟨1.0, 0.761, 0.4, 1.0⟩ ]

/-- The configuration part of Processor::Processor: every field before the
first marker request. -/
def Processor.init (cfg : Option Config) : Processor :=
  let incorrect : MarkerColor := ((cfg.bind (·.incorrect_report_color)).getD
    ⟨⟨1.0, 0.0, 0.0, 0.5⟩, ⟨1.0, 0.0, 0.0, 0.5⟩, ⟨0.2, 0.0, 0.0, 0.1⟩⟩)
  let correct : MarkerColor := ((cfg.bind (·.correct_report_color)).getD
    ⟨⟨0.0, 1.0, 0.0, 1.0⟩, ⟨0.0, 1.0, 0.0, 1.0⟩, ⟨0.0, 1.0, 0.0, 1.0⟩⟩)
  let location : MarkerColor := ((cfg.bind (·.artifact_location_color)).getD
    ⟨⟨0.0, 1.0, 1.0, 0.5⟩, ⟨0.0, 1.0, 1.0, 0.5⟩, ⟨0.0, 0.2, 0.2, 0.5⟩⟩)
  { robots := [],
    artifactColors :=
      mapSet (mapSet (mapSet [] "incorrect_report_color" incorrect)
        "correct_report_color" correct) "artifact_location_color" location,
    robotColors := (cfg.bind (·.robot_colors)).getD defaultRobotColors,
    breadcrumbColor := (cfg.bind (·.breadcrumb_color)).getD
      ⟨⟨1.0, 1.0, 0.0, 0.5⟩, ⟨1.0, 1.0, 0.0, 0.5⟩, ⟨1.0, 1.0, 0.0, 0.5⟩⟩,
    robotMarkers := [],
    prevPose := [],
    artifacts := [],
    markerId := 0,
    logData := [],
    rtf := (cfg.bind (·.rtf)).getD 1.0,
    out := [] }

/-- One entry of the parsed event document. -/
structure EventEntry where
  type : String
  time_sec : Int
  reported_pose : Vector3d
  points_scored : Int
  robot : String

/-- One iteration of the event loop of Processor::Processor. -/
def Processor.addEvent (p : Processor) (e : EventEntry) : Processor :=
  if e.type = "artifact_report_attempt" then
    { p with logData := pushEvent p.logData e.time_sec
               (.ReportData e.reported_pose e.points_scored) }
  else if e.type = "breadcrumb_deploy" then
    { p with logData := pushEvent p.logData e.time_sec
               (.BreadcrumbData e.robot e.time_sec) }
  else p

/-- The file events.yml as the constructor finds it: missing, not parsable
even after the textual repair, or parsed into its entries. -/
inductive EventsFile
  | Missing
  | Unparsable
  | Entries (events : List EventEntry)

/-- The event loop of Processor::Processor and the two counts it prints. -/
def Processor.addEvents (p : Processor) (events : List EventEntry) : Processor :=
  (events.foldl Processor.addEvent p).emit
    (.Parsed (events.filter (fun e => e.type = "artifact_report_attempt")).length
      (events.filter (fun e => e.type ≠ "artifact_report_attempt" ∧
        e.type = "breadcrumb_deploy")).length)

/-- The event part of Processor::Processor.  A file that cannot be parsed
leaves the document empty: the loop runs over no entry. -/
def Processor.processEvents (p : Processor) : EventsFile → Processor
  | .Missing => p.emit .MissingEvents
  | .Unparsable => (p.emit .EventsError).addEvents []
  | .Entries events => p.addEvents events

/-- The inputs of one run: the configuration, the callbacks of the playback
and the event document. -/
structure Session where
  config : Option Config
  playback : List Callback
  events : EventsFile

/-- The constructor Processor::Processor: configure, clear the markers,
capture the playback, merge the events, then display artifacts and poses. -/
def Processor.construct (s : Session) : Option Processor :=
  match (Processor.init s.config).ClearMarkers.capture s.playback with
  | none => none
  | some p => (p.processEvents s.events).DisplayArtifacts.DisplayPoses

/-! ## Calls that touch the fresh-id counter -/

/-- A call of Processor::SpawnMarker, or a run of the registration block of
Processor::Cb: the two places where `markerId` changes. -/
inductive MarkerCall
  | SpawnMarker (color : MarkerColor) (pos : Vector3d) (type : MarkerType)
      (scale : Vector3d) (markerId : Int) (rot : MarkerRot)
  | Register (name : String) (pose : Pose3d)

/-- The ids of the marker requests of a trace, in order. -/
def requestIds : List Output → List Int
  | [] => []
  | .Request m :: rest => m.id :: requestIds rest
  | _ :: rest => requestIds rest

/-- Run the calls in order; the second component lists the ids issued to the
SpawnMarker calls made with the marker id unset (the call inside a
registration is one of them), in order. -/
def runMarkerCalls : Processor → List MarkerCall → Option (Processor × List Int)
  | p, [] => some (p, [])
  | p, .SpawnMarker c pos t s id r :: rest =>
    match runMarkerCalls (p.SpawnMarker c pos t s id r).1 rest with
    | none => none
    | some (q, ids) =>
      some (q, if id < 0 then (p.SpawnMarker c pos t s id r).2.id :: ids else ids)
  | p, .Register name pose :: rest =>
    match p.registerRobot name pose with
    | none => none
    | some p1 =>
      match runMarkerCalls p1 rest with
      | none => none
      | some (q, ids) => some (q, requestIds (p1.out.drop p.out.length) ++ ids)

/-- How many times a call increments `markerId`. -/
def MarkerCall.increments : MarkerCall → Nat
  | .SpawnMarker _ _ _ _ id _ => if id < 0 then 1 else 0
  | .Register _ _ => 2

/-! ## Reading the trace and the timeline -/

/-- The nominal waits of a trace, in order. -/
def waitsOf : List Output → List Int
  | [] => []
  | .Wait t :: rest => t :: waitsOf rest
  | _ :: rest => waitsOf rest

/-- One wait per pair of adjacent seconds: `((next - cur) / rtf) * 1000`
truncated to an integer. -/
def nominalWaits (rtf : ℚ) : List Int → List Int
  | cur :: next :: rest =>
    truncToInt ((((next : ℚ) - (cur : ℚ)) / rtf) * 1000) :: nominalWaits rtf (next :: rest)
  | _ => []

/-- Every pose sequence of every pose batch of the timeline is non-empty. -/
def timelineNonempty (logData : StdMap Int (List Data)) : Prop :=
  ∀ e ∈ logData, ∀ poses, Data.RobotPoseData poses ∈ e.2 → ∀ r ∈ poses, r.2 ≠ []

/-- The seconds of the progress lines of a trace, in order. -/
def progressOf : List Output → List Int
  | [] => []
  | .Progress cur _ :: rest => cur :: progressOf rest
  | _ :: rest => progressOf rest

/-- The second processor has the timeline, the realtime factor, the waits and
the progress lines of the first. -/
def Processor.sameSchedule (p q : Processor) : Prop :=
  q.logData = p.logData ∧ q.rtf = p.rtf ∧ waitsOf q.out = waitsOf p.out ∧
  progressOf q.out = progressOf p.out

/-- The events inserted at a second, in insertion order. -/
def eventsAt (ins : List (Int × Data)) (sec : Int) : List Data :=
  (ins.filter (fun e => e.1 = sec)).map Prod.snd

/-- The timeline after the insertions `logData[sec].push_back(data)`, made in
the order of the list. -/
def insertEvents (logData : StdMap Int (List Data)) (ins : List (Int × Data)) :
    StdMap Int (List Data) :=
  ins.foldl (fun m e => pushEvent m e.1 e.2) logData

/-- No key of the list is an excluded name. -/
def namesAllowed (keys : List String) : Prop := ∀ k ∈ keys, isExcluded k = false

/-- No registry of the processor and no pose batch of its timeline has an
excluded name as a key. -/
def Processor.noExcludedNames (p : Processor) : Prop :=
  namesAllowed (mapKeys p.robots) ∧ namesAllowed (mapKeys p.prevPose) ∧
  namesAllowed (mapKeys p.robotMarkers) ∧
  ∀ e ∈ p.logData, ∀ poses, Data.RobotPoseData poses ∈ e.2 → namesAllowed (mapKeys poses)

/-- The names of all poses delivered to Processor::Cb, in order of arrival. -/
def poseNames : List Callback → List String
  | [] => []
  | .Pose m :: rest => m.pose.map (fun pm => pm.name) ++ poseNames rest
  | .Artifact _ :: rest => poseNames rest

/-- Add a name to the names seen so far, unless it is excluded or known. -/
def seenStep (seen : List String) (name : String) : List String :=
  if isExcluded name = true ∨ name ∈ seen then seen else seen ++ [name]

/-- The distinct non-excluded names of a list, in first-seen order. -/
def firstSeen (names : List String) : List String := names.foldl seenStep []

/-- The registry `robots` holds exactly the names of `seen`, and the name at
index `i` has the palette colour of index `i` modulo the palette size. -/
def Processor.registryMatches (p : Processor) (seen : List String) : Prop :=
  p.robots.length = seen.length ∧
  (∀ name, mapFind p.robots name = none ↔ name ∉ seen) ∧
  ∀ i name, seen[i]? = some name →
    mapFind p.robots name = p.robotColors[i % p.robotColors.length]?

/-- All poses delivered to Processor::Cb, in order of arrival. -/
def posesDelivered : List Callback → List PoseMsg
  | [] => []
  | .Pose m :: rest => m.pose ++ posesDelivered rest
  | .Artifact _ :: rest => posesDelivered rest

/-- The poses of one robot among the delivered poses, in order. -/
def posesOf (name : String) (pms : List PoseMsg) : List Pose3d :=
  (pms.filter (fun pm => pm.name = name)).map (fun pm => pm.pose)

/-- The reference pose moves to a pose that is farther than 1.0 from it. -/
def referenceStep (ref x : Pose3d) : Pose3d :=
  if ref.Pos.DistanceGt1 x.Pos then x else ref

/-- The reference pose of a robot after its poses were processed in order:
the first-seen pose, replaced by each later pose that was farther than 1.0
from the reference of its time (the most recently retained pose). -/
def referencePose : List Pose3d → Option Pose3d
  | [] => none
  | first :: rest => some (rest.foldl referenceStep first)

/-- For every name that is not excluded, `prevPose` holds the reference pose
of the poses processed so far, and a name is in `prevPose` exactly when it is
in `robots`. -/
def Processor.prevPoseMatches (p : Processor) (hist : List PoseMsg) : Prop :=
  ∀ name, isExcluded name = false →
    mapFind p.prevPose name = referencePose (posesOf name hist) ∧
    (mapFind p.robots name = none ↔ mapFind p.prevPose name = none)

/-- The poses of a robot in the pose batches of one bucket. -/
def retainedInBucket (name : String) : List Data → List Pose3d
  | [] => []
  | .RobotPoseData poses :: rest =>
    (mapFind poses name).getD [] ++ retainedInBucket name rest
  | _ :: rest => retainedInBucket name rest

/-- The poses of a robot in the pose batches of the timeline. -/
def retainedInTimeline (name : String) : StdMap Int (List Data) → List Pose3d
  | [] => []
  | (_, bucket) :: rest => retainedInBucket name bucket ++ retainedInTimeline name rest

/-- The poses of a robot retained so far: those in the pose batches of the
timeline and those in the batch under construction. -/
def retainedPoses (name : String) (logData : StdMap Int (List Data))
    (data : StdMap String (List Pose3d)) : List Pose3d :=
  retainedInTimeline name logData ++ (mapFind data name).getD []

/-! ## Sample inputs -/

/-- A pose at the given position, with the identity orientation. -/
def poseAt (x y z : ℚ) : Pose3d := ⟨⟨x, y, z⟩, Quaterniond.Identity⟩

/-- A processor whose timeline has robot `A` at second 4, robot `B` at second
5, and a breadcrumb deployment of `A` at second 7. -/
def sampleTimeline : Processor :=
  { Processor.init none with
    logData :=
      [ (4, [Data.RobotPoseData [("A", [poseAt 1 2 3, poseAt 4 5 6])]]),
        (5, [Data.RobotPoseData [("B", [poseAt 9 9 9])]]),
        (7, [Data.BreadcrumbData "A" 7]) ] }

/-- A session without pose messages whose event document has one scored
report. -/
def sessionWithoutRobots : Session :=
  { config := none,
    playback := [],
    events := EventsFile.Entries [⟨"artifact_report_attempt", 5, ⟨1, 2, 3⟩, 1, ""⟩] }

/-- A registration followed by three SpawnMarker calls, the second of which
moves the marker with id 1. -/
def sampleCalls : List MarkerCall :=
  [ MarkerCall.Register "X1" (poseAt 0 0 0),
    MarkerCall.SpawnMarker default Vector3d.Zero MarkerType.SPHERE ⟨1, 1, 1⟩ (-1)
      MarkerRot.Identity,
    MarkerCall.SpawnMarker default Vector3d.Zero MarkerType.BOX ⟨1, 1, 1⟩ 1
      MarkerRot.Identity,
    MarkerCall.SpawnMarker default Vector3d.Zero MarkerType.SPHERE ⟨1, 1, 1⟩ (-1)
      MarkerRot.Identity ]

/-- A playback with two robots, a wheel link, an artifact and the fixed
base link: `X1` is seen at the origin and then five units away. -/
def samplePlayback : List Callback :=
  [ Callback.Pose ⟨0, [⟨"X1", poseAt 0 0 0⟩, ⟨"X1/left_wheel", poseAt 0 0 0⟩,
      ⟨"X2", poseAt 9 0 0⟩]⟩,
    Callback.Artifact ⟨0, [⟨"backpack_1", poseAt 3 3 3⟩]⟩,
    Callback.Pose ⟨1, [⟨"X1", poseAt 5 0 0⟩, ⟨"base_link", poseAt 5 0 0⟩]⟩ ]

/-- The first sighting of robot `X1`, at the origin. -/
def firstSighting : List Callback := [Callback.Pose ⟨0, [⟨"X1", poseAt 0 0 0⟩]⟩]

/-- Insertions that arrive out of order of their seconds. -/
def sampleInsertions : List (Int × Data) :=
  [ (7, Data.BreadcrumbData "A" 7),
    (4, Data.RobotPoseData [("A", [poseAt 1 2 3])]),
    (5, Data.ReportData ⟨1, 1, 1⟩ 0),
    (4, Data.ReportData ⟨2, 2, 2⟩ 3) ]

/-- A processor whose timeline was built by the sample insertions. -/
def sampleInserted : Processor :=
  { Processor.init none with logData := insertEvents [] sampleInsertions }

/-- A processor with realtime factor 2 and buckets at seconds 10 and 14. -/
def samplePacing : Processor :=
  { Processor.init (some ⟨some 2, none, none, none, none, none⟩) with
    logData :=
      [ (10, [Data.ReportData ⟨1, 1, 1⟩ 1]),
        (14, [Data.RobotPoseData [("A", [poseAt 1 2 3])]]) ] }

/-- A processor whose second 4 holds two pose batches with robot `A`: the
earlier one ends at (4, 5, 6), the later one at (7, 8, 9). -/
def sampleTwoBatches : Processor :=
  { Processor.init none with
    logData :=
      [ (4, [ Data.ReportData ⟨0, 0, 0⟩ 1,
              Data.RobotPoseData [("B", [poseAt 9 9 9])],
              Data.RobotPoseData [("A", [poseAt 1 2 3, poseAt 4 5 6])],
              Data.RobotPoseData [("A", [poseAt 7 8 9])] ]),
        (6, [Data.BreadcrumbData "A" 6]) ] }

/-! ## Reading the event document -/

/-- The event that an entry of the document stands for, with its second: a
report for `artifact_report_attempt`, a deployment for `breadcrumb_deploy`,
nothing for any other type. -/
def eventOf (e : EventEntry) : Option (Int × Data) :=
  if e.type = "artifact_report_attempt" then
    some (e.time_sec, Data.ReportData e.reported_pose e.points_scored)
  else if e.type = "breadcrumb_deploy" then
    some (e.time_sec, Data.BreadcrumbData e.robot e.time_sec)
  else none

/-- The events of a document, in document order. -/
def documentEvents (events : List EventEntry) : List (Int × Data) :=
  events.filterMap eventOf

/-- The entries of the events file; none when it is missing or unparsable. -/
def EventsFile.entries : EventsFile → List EventEntry
  | .Missing => []
  | .Unparsable => []
  | .Entries events => events

/-- Two pose messages with negative stamps: `X1` at the origin, then five
units away. -/
def negativeStamps : List Callback :=
  [ Callback.Pose ⟨-2, [⟨"X1", poseAt 0 0 0⟩]⟩,
    Callback.Pose ⟨-1, [⟨"X1", poseAt 5 0 0⟩]⟩ ]

/-- Every pose batch of the timeline has a non-empty poses map whose pose
sequences are all non-empty. -/
def batchesNonempty (logData : StdMap Int (List Data)) : Prop :=
  ∀ e ∈ logData, ∀ poses, Data.RobotPoseData poses ∈ e.2 →
    poses ≠ [] ∧ ∀ r ∈ poses, r.2 ≠ []

/-- The second processor has the timeline, the colour registry and the
stable marker ids of the first. -/
def Processor.sameRegistries (p q : Processor) : Prop :=
  q.logData = p.logData ∧ q.robots = p.robots ∧ q.robotMarkers = p.robotMarkers

/-- A name is in `robots` exactly when it is in `robotMarkers`, and every
name of every pose batch of the timeline is in `robots`. -/
def Processor.batchesRegistered (p : Processor) : Prop :=
  (∀ name, mapFind p.robots name = none ↔ mapFind p.robotMarkers name = none) ∧
  ∀ e ∈ p.logData, ∀ poses, Data.RobotPoseData poses ∈ e.2 →
    ∀ k ∈ mapKeys poses, mapFind p.robots k ≠ none

/-! ## Counting fresh markers -/

/-- One increment of the fresh-id counter. -/
def nextMarkerId (x : Int) : Int := wrapInt32 (x + 1)

/-- How many markers the rendering of an event spawns with the id unset: one
per pose of a pose batch, one for a report, one for a breadcrumb whose robot
position is found. -/
def Data.freshMarkers (logData : StdMap Int (List Data)) : Data → Nat
  | .RobotPoseData poses => (poses.map (fun r => r.2.length)).sum
  | .ReportData _ _ => 1
  | .BreadcrumbData robot sec =>
    if sec < 0 then 0
    else if (BreadcrumbData.search logData robot sec.toNat).isSome then 1 else 0

/-- How many markers the rendering of the whole timeline spawns with the id
unset. -/
def timelineFreshMarkers (logData : StdMap Int (List Data)) : Nat :=
  (logData.map (fun e => (e.2.map (Data.freshMarkers logData)).sum)).sum

/-- No stable marker id is negative. -/
def stableIdsNonneg (m : StdMap String Int) : Prop :=
  ∀ name id, mapFind m name = some id → 0 ≤ id

/-- A configuration document whose `robot_colors` list has no element. -/
def emptyPaletteConfig : Config := ⟨none, none, none, none, none, some []⟩

/-! ## The graph export tool (`dot_generator.cc`)

The tables of ConnectionHelper and the test ConnectionHelper::ComputePoint
are parameters: `connectionType t` is `connectionTypes[t]`, `isTunnel t` says
that `circuitTypes` holds `t` with the value TUNNEL, and `connected` says that
ComputePoint finds a connection point. -/

/-- The two connection types that printGraph names. -/
inductive ConnectionType
  | STRAIGHT
  | TURN
deriving DecidableEq

/-- The fields of VertexData that printGraph reads. -/
structure VertexData where
  id : Int
  tileType : String
  tileName : String
deriving DecidableEq

/-- What printGraph writes, line by line. -/
inductive DotLine
  | BaseStationVertexComment
  | Vertex (id : Int) (type name : String)
  | BaseStationEdgeComment
  | Edge (src dst : Int) (cost : Int)
deriving DecidableEq

/-- The vertex loop of printGraph: blockers are skipped and the three
starting areas are printed as `base_station`. -/
def printVertices : List VertexData → List DotLine
  | [] => []
  | vd :: rest =>
    if strContains vd.tileType "Blocker" then printVertices rest
    else if vd.tileType = "Cave Starting Area Type B" ∨
        vd.tileType = "Urban Starting Area" ∨
        vd.tileType = "Finals Staging Area" then
      DotLine.BaseStationVertexComment ::
        DotLine.Vertex vd.id "base_station" "BaseStation" :: printVertices rest
    else DotLine.Vertex vd.id vd.tileType vd.tileName :: printVertices rest

/-- The flag `connectsToStaging` of printGraph for the tile types at
positions `i` and `j`. -/
def connectsToStaging (ti tj : String) : Bool :=
  ti = "Cave Starting Area Type B" ∨ ti = "Urban Starting Area" ∨
  tj = "Cave Starting Area Type B" ∨ tj = "Urban Starting Area" ∨
  tj = "Finals Staging Area"

/-- The cost that printGraph prints for a connected pair of tiles. -/
def edgeCost (connectionType : String → ConnectionType) (isTunnel : String → Bool)
    (_circuit : String) (ti tj : String) : Int :=
  let tp1 := connectionType ti
  let tp2 := connectionType tj
  let bothTunnels : Bool := _circuit = "--finals" ∧ isTunnel ti = true ∧ isTunnel tj = true
  if (tp1 = ConnectionType.STRAIGHT ∧ tp2 = ConnectionType.STRAIGHT) ∨
      connectsToStaging ti tj = true then 1
  else if tp1 = ConnectionType.TURN ∧ tp2 = ConnectionType.STRAIGHT then
    (if bothTunnels then 2 else 3)
  else if tp1 = ConnectionType.STRAIGHT ∧ tp2 = ConnectionType.TURN then
    (if bothTunnels then 2 else 3)
  else (if bothTunnels then 3 else 6)

/-- The inner loop of the edge part of printGraph: tile `vi` against every
later tile. -/
def printEdgesFrom (connected : VertexData → VertexData → Bool)
    (connectionType : String → ConnectionType) (isTunnel : String → Bool)
    (_circuit : String) (vi : VertexData) : List VertexData → List DotLine
  | [] => []
  | vj :: rest =>
    (if connected vi vj then
      (if connectsToStaging vi.tileType vj.tileType then [DotLine.BaseStationEdgeComment]
       else []) ++
      [DotLine.Edge vi.id vj.id
        (edgeCost connectionType isTunnel _circuit vi.tileType vj.tileType)]
     else []) ++
    printEdgesFrom connected connectionType isTunnel _circuit vi rest

/-- The edge part of printGraph: every pair of positions `i < j`. -/
def printEdges (connected : VertexData → VertexData → Bool)
    (connectionType : String → ConnectionType) (isTunnel : String → Bool)
    (_circuit : String) : List VertexData → List DotLine
  | [] => []
  | vi :: rest =>
    printEdgesFrom connected connectionType isTunnel _circuit vi rest ++
    printEdges connected connectionType isTunnel _circuit rest

/-- The function printGraph: the vertices, then the edges. -/
def printGraph (connected : VertexData → VertexData → Bool)
    (connectionType : String → ConnectionType) (isTunnel : String → Bool)
    (_vertexData : List VertexData) (_circuit : String) : List DotLine :=
  printVertices _vertexData ++
    printEdges connected connectionType isTunnel _circuit _vertexData

/-- A sample connection table: bends are turns, everything else is straight. -/
def sampleConnectionType (t : String) : ConnectionType :=
  if strContains t "Bend" then ConnectionType.TURN else ConnectionType.STRAIGHT

/-- The finals staging area, as a tile. -/
def stagingTile (id : Int) : VertexData := ⟨id, "Finals Staging Area", "staging_area"⟩

/-- A bend, as a tile. -/
def bendTile (id : Int) : VertexData := ⟨id, "Urban Bend Right", "tile_1"⟩

/-! ## Reading marker ids off the trace -/

/-- A marker that is neither the DELETE_ALL request nor a robot box: the
robot boxes are the only markers sent with a yaw rotation. -/
def Marker.isPlain (m : Marker) : Bool :=
  m.action = MarkerAction.ADD_MODIFY ∧ m.rot = MarkerRot.Identity

/-- The number of increments of `markerId` that a trace shows: one for each
plain marker (Processor::SpawnMarker with the id unset) and one more for each
announcement of a robot (the `++markerId` of the registration). -/
def incrementCount : List Output → Nat
  | [] => 0
  | .Request m :: rest => incrementCount rest + (if m.isPlain then 1 else 0)
  | .RobotNr _ _ _ :: rest => incrementCount rest + 1
  | _ :: rest => incrementCount rest

/-- The ids read so far, with the last request appended when it is plain. -/
def flushPending (st : Option Marker × List Int) : List Int :=
  match st.1 with
  | some m => if m.isPlain then st.2 ++ [m.id] else st.2
  | none => st.2

/-- Read one entry of the trace.  A request waits for the entry that follows
it: when that is the announcement of a robot, the request was the sphere of
the registration of that robot and is left out. -/
def readStep (st : Option Marker × List Int) (o : Output) : Option Marker × List Int :=
  match o with
  | .Request m => (some m, flushPending st)
  | .RobotNr _ _ _ => (none, st.2)
  | _ => (none, flushPending st)

/-- The ids of the plain markers of a trace other than the registration
spheres: path spheres, reports, breadcrumbs and artifact locations. -/
def otherFreshIds (out : List Output) : List Int :=
  flushPending (out.foldl readStep (none, []))

/-- Read one entry of the trace for the registrations: the announcement of
a robot pairs the name with the id of the request right before it. -/
def registrationStep (st : Option Marker × List (String × Int)) (o : Output) :
    Option Marker × List (String × Int) :=
  match o with
  | .Request m => (some m, st.2)
  | .RobotNr _ name _ =>
    (none, match st.1 with
           | some m => st.2 ++ [(name, m.id)]
           | none => st.2)
  | _ => (none, st.2)

/-- The registrations of a trace: each robot name with the id of the sphere
spawned at its registration. -/
def registrationIds (out : List Output) : List (String × Int) :=
  (out.foldl registrationStep (none, [])).2

/-- The 32-bit counter, which starts at 0, did not overflow during a run
with this trace: it was incremented at most 2^31 - 1 times. -/
def noOverflow (out : List Output) : Prop :=
  (incrementCount out : Int) ≤ 2147483647

/-- The counter equals the number of increments that the trace shows, the
stable ids are at least 1, below the counter and pairwise distinct, no other
fresh marker of the trace carries one of them, and the sphere of
every registration of the trace carries the stable id of its robot. -/
def Processor.idsSound (p : Processor) : Prop :=
  0 ≤ p.markerId ∧ p.markerId = (incrementCount p.out : Int) ∧
  (∀ name sid, mapFind p.robotMarkers name = some sid → 1 ≤ sid ∧ sid < p.markerId) ∧
  (∀ n1 n2 sid, mapFind p.robotMarkers n1 = some sid →
    mapFind p.robotMarkers n2 = some sid → n1 = n2) ∧
  (∀ id ∈ otherFreshIds p.out, id < p.markerId ∧
    ∀ name sid, mapFind p.robotMarkers name = some sid → id ≠ sid) ∧
  (∀ e ∈ registrationIds p.out, mapFind p.robotMarkers e.1 = some e.2)

/-- The processor is sound as far as its counter did not overflow. -/
def Processor.idsSoundIf (p : Processor) : Prop := noOverflow p.out → p.idsSound

/-- A session with the sample playback, a scored report and a breadcrumb
deployment of `X1`. -/
def sampleSession : Session :=
  { config := none,
    playback := samplePlayback,
    events := EventsFile.Entries
      [ ⟨"artifact_report_attempt", 1, ⟨1, 2, 3⟩, 1, ""⟩,
        ⟨"breadcrumb_deploy", 1, ⟨0, 0, 0⟩, 0, "X1"⟩ ] }

/-! ## Facts about `std::map` -/

theorem mapFind_mapSet_self {κ α : Type} [DecidableEq κ] [MapKey κ]
    (m : StdMap κ α) (k : κ) (v : α) : mapFind (mapSet m k v) k = some v := by
  induction m with
  | nil => simp [mapSet, mapFind]
  | cons e rest ih =>
    obtain ⟨k1, v1⟩ := e
    unfold mapSet
    by_cases h : k = k1
    · simp [h, mapFind]
    · by_cases h2 : MapKey.keyLt k k1 = true
      · simp [h, h2, mapFind]
      · simp [h, h2, mapFind, ih]

theorem mapFind_mapSet_ne {κ α : Type} [DecidableEq κ] [MapKey κ]
    (m : StdMap κ α) (k k2 : κ) (v : α) (hne : k2 ≠ k) :
    mapFind (mapSet m k v) k2 = mapFind m k2 := by
  induction m with
  | nil => simp [mapSet, mapFind, hne]
  | cons e rest ih =>
    obtain ⟨k1, v1⟩ := e
    unfold mapSet
    by_cases h : k = k1
    · subst h
      simp [mapFind, hne]
    · by_cases h2 : MapKey.keyLt k k1 = true
      · simp [h, h2, mapFind, hne]
      · simp only [h, h2, if_false, mapFind, ih]

theorem mem_mapSet {κ α : Type} [DecidableEq κ] [MapKey κ]
    (m : StdMap κ α) (k : κ) (v : α) (e : κ × α) (he : e ∈ mapSet m k v) :
    e = (k, v) ∨ e ∈ m := by
  induction m with
  | nil => simpa [mapSet] using he
  | cons e1 rest ih =>
    obtain ⟨k1, v1⟩ := e1
    unfold mapSet at he
    by_cases h : k = k1
    · rw [if_pos h] at he
      rcases List.mem_cons.mp he with he | he
      · left; exact he
      · right; exact List.mem_cons_of_mem _ he
    · rw [if_neg h] at he
      by_cases h2 : MapKey.keyLt k k1 = true
      · rw [if_pos h2] at he
        rcases List.mem_cons.mp he with he | he
        · left; exact he
        · right; exact he
      · rw [if_neg h2] at he
        rcases List.mem_cons.mp he with he | he
        · right; rw [he]; exact List.mem_cons_self _ _
        · rcases ih he with h3 | h3
          · left; exact h3
          · right; exact List.mem_cons_of_mem _ h3

theorem mem_mapKeys_mapSet {κ α : Type} [DecidableEq κ] [MapKey κ]
    (m : StdMap κ α) (k : κ) (v : α) (x : κ) (hx : x ∈ mapKeys (mapSet m k v)) :
    x = k ∨ x ∈ mapKeys m := by
  unfold mapKeys at hx ⊢
  rw [List.mem_map] at hx
  obtain ⟨e, he, hfst⟩ := hx
  rcases mem_mapSet m k v e he with h | h
  · left; rw [← hfst, h]
  · right; exact List.mem_map.mpr ⟨e, h, hfst⟩

theorem mapFind_eq_none_iff {κ α : Type} [DecidableEq κ]
    (m : StdMap κ α) (k : κ) : mapFind m k = none ↔ k ∉ mapKeys m := by
  induction m with
  | nil => simp [mapFind, mapKeys]
  | cons e rest ih =>
    obtain ⟨k1, v1⟩ := e
    by_cases h : k = k1
    · simp [mapFind, mapKeys, h]
    · simp only [mapFind, h, if_false, ih, mapKeys, List.map_cons, List.mem_cons, false_or]

theorem mapFind_mem {κ α : Type} [DecidableEq κ]
    (m : StdMap κ α) (k : κ) (v : α) (h : mapFind m k = some v) : (k, v) ∈ m := by
  induction m with
  | nil => simp [mapFind] at h
  | cons e rest ih =>
    obtain ⟨k1, v1⟩ := e
    by_cases hk : k = k1
    · simp only [mapFind, hk, if_true, Option.some.injEq] at h
      rw [hk, h]; exact List.mem_cons_self _ _
    · simp only [mapFind, hk, if_false] at h
      exact List.mem_cons_of_mem _ (ih h)

theorem mapSet_length_of_absent {κ α : Type} [DecidableEq κ] [MapKey κ]
    (m : StdMap κ α) (k : κ) (v : α) (h : mapFind m k = none) :
    (mapSet m k v).length = m.length + 1 := by
  induction m with
  | nil => simp [mapSet]
  | cons e rest ih =>
    obtain ⟨k1, v1⟩ := e
    by_cases hk : k = k1
    · simp [mapFind, hk] at h
    · simp only [mapFind, hk, if_false] at h
      unfold mapSet
      by_cases h2 : MapKey.keyLt k k1 = true
      · simp [hk, h2]
      · simp [hk, h2, ih h]

theorem mapIndex_of_present {κ α : Type} [DecidableEq κ] [MapKey κ] [Inhabited α]
    (m : StdMap κ α) (k : κ) (v : α) (h : mapFind m k = some v) :
    mapIndex m k = (v, m) := by
  simp [mapIndex, h]

theorem mapIndex_of_absent {κ α : Type} [DecidableEq κ] [MapKey κ] [Inhabited α]
    (m : StdMap κ α) (k : κ) (h : mapFind m k = none) :
    mapIndex m k = (default, mapSet m k default) := by
  simp [mapIndex, h]

theorem mapKeys_mapSet_sorted (m : StdMap Int (List Data)) (k : Int) (v : List Data)
    (hs : (mapKeys m).Pairwise (· < ·)) : (mapKeys (mapSet m k v)).Pairwise (· < ·) := by
  induction m with
  | nil => simp [mapSet, mapKeys]
  | cons e rest ih =>
    obtain ⟨k1, v1⟩ := e
    have hs2 : (∀ x ∈ mapKeys rest, k1 < x) ∧ (mapKeys rest).Pairwise (· < ·) := by
      simpa [mapKeys] using hs
    unfold mapSet
    by_cases h : k = k1
    · subst h
      simpa [mapKeys] using hs
    · by_cases h2 : k < k1
      · have h3 : MapKey.keyLt k k1 = true := by simp [MapKey.keyLt, h2]
        rw [if_neg h, if_pos h3]
        simp only [mapKeys, List.map_cons, List.pairwise_cons]
        refine ⟨?_, ?_⟩
        · intro x hx
          rcases List.mem_cons.mp hx with hx | hx
          · rw [hx]; exact h2
          · exact lt_trans h2 (hs2.1 x hx)
        · simpa [mapKeys] using hs
      · have h3 : ¬ MapKey.keyLt k k1 = true := by simp [MapKey.keyLt, h2]
        rw [if_neg h, if_neg h3]
        simp only [mapKeys, List.map_cons, List.pairwise_cons]
        refine ⟨?_, ih hs2.2⟩
        intro x hx
        rcases mem_mapKeys_mapSet rest k v x hx with hx | hx
        · rw [hx]; omega
        · exact hs2.1 x hx

/-! ## Facts about the breadcrumb resolver -/

theorem scanBucket_eq_none (robot : String) (bucket : List Data) :
    BreadcrumbData.scanBucket robot bucket = none ↔
      ∀ poses, Data.RobotPoseData poses ∈ bucket → mapFind poses robot = none := by
  induction bucket with
  | nil => simp [BreadcrumbData.scanBucket]
  | cons d rest ih =>
    cases d with
    | RobotPoseData poses0 =>
      cases hf : mapFind poses0 robot with
      | none =>
        simp only [BreadcrumbData.scanBucket, hf, ih, List.mem_cons]
        constructor
        · intro h poses hp
          rcases hp with hp | hp
          · cases hp; exact hf
          · exact h poses hp
        · intro h poses hp
          exact h poses (Or.inr hp)
      | some seq =>
        simp only [BreadcrumbData.scanBucket, hf, List.mem_cons]
        constructor
        · intro h; cases h
        · intro h
          have := h poses0 (Or.inl rfl)
          rw [hf] at this; cases this
    | ReportData pos score =>
      simp [BreadcrumbData.scanBucket, ih]
    | BreadcrumbData r sec =>
      simp [BreadcrumbData.scanBucket, ih]

theorem scanBucket_eq_some (robot : String) (bucket : List Data) (seq : List Pose3d)
    (h : BreadcrumbData.scanBucket robot bucket = some seq) :
    ∃ poses, Data.RobotPoseData poses ∈ bucket ∧ mapFind poses robot = some seq := by
  induction bucket with
  | nil => simp [BreadcrumbData.scanBucket] at h
  | cons d rest ih =>
    cases d with
    | RobotPoseData poses0 =>
      cases hf : mapFind poses0 robot with
      | none =>
        simp only [BreadcrumbData.scanBucket, hf] at h
        obtain ⟨poses, hp, hq⟩ := ih h
        exact ⟨poses, List.mem_cons_of_mem _ hp, hq⟩
      | some seq0 =>
        simp only [BreadcrumbData.scanBucket, hf, Option.some.injEq] at h
        exact ⟨poses0, List.mem_cons_self _ _, by rw [hf, h]⟩
    | ReportData pos score =>
      simp only [BreadcrumbData.scanBucket] at h
      obtain ⟨poses, hp, hq⟩ := ih h
      exact ⟨poses, List.mem_cons_of_mem _ hp, hq⟩
    | BreadcrumbData r sec =>
      simp only [BreadcrumbData.scanBucket] at h
      obtain ⟨poses, hp, hq⟩ := ih h
      exact ⟨poses, List.mem_cons_of_mem _ hp, hq⟩

theorem search_eq_none (logData : StdMap Int (List Data)) (robot : String) (n : Nat)
    (h : ∀ s : Nat, s ≤ n → BreadcrumbData.scanSecond logData robot (s : Int) = none) :
    BreadcrumbData.search logData robot n = none := by
  induction n with
  | zero => simpa [BreadcrumbData.search] using h 0 (Nat.le_refl 0)
  | succ n ih =>
    have h1 := h (n + 1) (Nat.le_refl _)
    simp only [Nat.cast_add, Nat.cast_one] at h1
    simp only [BreadcrumbData.search, h1]
    exact ih (fun s hs => h s (Nat.le_succ_of_le hs))

theorem search_eq_some (logData : StdMap Int (List Data)) (robot : String) (n s : Nat)
    (seq : List Pose3d) (hs : s ≤ n)
    (hfound : BreadcrumbData.scanSecond logData robot (s : Int) = some seq)
    (hlater : ∀ t : Nat, s < t → t ≤ n →
      BreadcrumbData.scanSecond logData robot (t : Int) = none) :
    BreadcrumbData.search logData robot n = some seq := by
  induction n with
  | zero =>
    have : s = 0 := Nat.le_zero.mp hs
    subst this
    simpa [BreadcrumbData.search] using hfound
  | succ n ih =>
    by_cases hsn : s = n + 1
    · subst hsn
      simp only [Nat.cast_add, Nat.cast_one] at hfound
      simp only [BreadcrumbData.search, hfound]
    · have hs2 : s ≤ n := by omega
      have h1 := hlater (n + 1) (by omega) (Nat.le_refl _)
      simp only [Nat.cast_add, Nat.cast_one] at h1
      simp only [BreadcrumbData.search, h1]
      exact ih hs2 (fun t ht htn => hlater t ht (Nat.le_succ_of_le htn))

/-! ## Rendering of reports and breadcrumbs -/

/-- C8: ReportData::Render sends exactly one marker, at the reported position,
whose id is the value of the fresh-id counter (which is then advanced): a
SPHERE in `artifactColors["correct_report_color"]` when the score is positive,
a BOX in `artifactColors["incorrect_report_color"]` otherwise. -/
theorem ReportData_Render_one_marker (p : Processor) (pos : Vector3d) (score : Int) :
    ∃ m : Marker,
      (ReportData.Render pos score p).out = p.out ++ [Output.Request m] ∧
      m.pos = pos ∧ m.action = MarkerAction.ADD_MODIFY ∧
      m.id = p.markerId ∧
      (ReportData.Render pos score p).markerId = wrapInt32 (p.markerId + 1) ∧
      m.type = (if score > 0 then MarkerType.SPHERE else MarkerType.BOX) ∧
      m.material = (mapIndex p.artifactColors
        (if score > 0 then "correct_report_color" else "incorrect_report_color")).1 := by
  by_cases h : score > 0
  · simp [ReportData.Render, h, Processor.SpawnMarker, Processor.emit]
  · simp [ReportData.Render, h, Processor.SpawnMarker, Processor.emit]

/-- C5: when no second from 0 to the deployment second holds a pose batch
with the robot (in particular for a negative deployment second),
BreadcrumbData::Render returns normally, having sent no marker and printed
exactly one diagnostic. -/
theorem BreadcrumbData_Render_not_found (p : Processor) (robot : String) (sec : Int)
    (h : ∀ s : Int, 0 ≤ s → s ≤ sec → ∀ bucket, mapFind p.logData s = some bucket →
      ∀ poses, Data.RobotPoseData poses ∈ bucket → mapFind poses robot = none) :
    BreadcrumbData.Render robot sec p =
      some { p with out := p.out ++ [Output.BreadcrumbNotFound sec] } := by
  unfold BreadcrumbData.Render
  by_cases hneg : sec < 0
  · simp [hneg, Processor.emit]
  · have hsearch : BreadcrumbData.search p.logData robot sec.toNat = none := by
      apply search_eq_none
      intro s hs
      unfold BreadcrumbData.scanSecond
      cases hb : mapFind p.logData (s : Int) with
      | none => rfl
      | some bucket =>
        simp only
        rw [scanBucket_eq_none]
        exact h s (by omega) (by omega) bucket hb
    simp [hneg, hsearch, Processor.emit]

/-- C4: when second `s` (0 ≤ s ≤ deployment second) holds a pose batch with
the robot and no later second up to the deployment second does,
BreadcrumbData::Render sends exactly one marker: a BOX of scale (6, 6, 20) in
the breadcrumb colour at the robot's last pose of a batch of second `s`,
raised by 0.5 in z.  With `s` three seconds before the deployment second this
is the T-3 case. -/
theorem BreadcrumbData_Render_found (p : Processor) (robot : String) (sec s : Int)
    (bucket : List Data) (h0 : 0 ≤ s) (hs : s ≤ sec)
    (hb : mapFind p.logData s = some bucket)
    (hR : ∃ poses, Data.RobotPoseData poses ∈ bucket ∧ mapFind poses robot ≠ none)
    (hlater : ∀ t : Int, s < t → t ≤ sec → ∀ b, mapFind p.logData t = some b →
      ∀ poses, Data.RobotPoseData poses ∈ b → mapFind poses robot = none)
    (hne : ∀ poses seq, Data.RobotPoseData poses ∈ bucket →
      mapFind poses robot = some seq → seq ≠ []) :
    ∃ poses seq pose, Data.RobotPoseData poses ∈ bucket ∧
      mapFind poses robot = some seq ∧ seq.getLast? = some pose ∧
      BreadcrumbData.Render robot sec p =
        some { p with
          markerId := wrapInt32 (p.markerId + 1),
          out := p.out ++ [Output.Request
            { ns := "default", id := p.markerId, action := MarkerAction.ADD_MODIFY,
              type := MarkerType.BOX, material := p.breadcrumbColor,
              scale := Vector3d.mk 6 6 20,
              pos := Vector3d.mk pose.Pos.X pose.Pos.Y (pose.Pos.Z + 0.5),
              rot := MarkerRot.Identity }] } := by
  have hscan : ∃ seq, BreadcrumbData.scanBucket robot bucket = some seq := by
    cases hsc : BreadcrumbData.scanBucket robot bucket with
    | some seq => exact ⟨seq, rfl⟩
    | none =>
      obtain ⟨poses, hp, hq⟩ := hR
      exact absurd ((scanBucket_eq_none robot bucket).mp hsc poses hp) hq
  obtain ⟨seq, hseq⟩ := hscan
  obtain ⟨poses, hp, hq⟩ := scanBucket_eq_some robot bucket seq hseq
  have hseqne : seq ≠ [] := hne poses seq hp hq
  obtain ⟨pose, hpose⟩ : ∃ pose, seq.getLast? = some pose := by
    cases hl : seq.getLast? with
    | some pose => exact ⟨pose, rfl⟩
    | none => exact absurd (List.getLast?_eq_none_iff.mp hl) hseqne
  refine ⟨poses, seq, pose, hp, hq, hpose, ?_⟩
  have hsearch : BreadcrumbData.search p.logData robot sec.toNat = some seq := by
    apply search_eq_some p.logData robot sec.toNat s.toNat seq
    · omega
    · have : ((s.toNat : Nat) : Int) = s := Int.toNat_of_nonneg h0
      rw [this]
      simp [BreadcrumbData.scanSecond, hb, hseq]
    · intro t ht hts
      unfold BreadcrumbData.scanSecond
      cases hbt : mapFind p.logData (t : Int) with
      | none => rfl
      | some b =>
        simp only
        rw [scanBucket_eq_none]
        exact hlater t (by omega) (by omega) b hbt
  have hneg : ¬ sec < 0 := by omega
  unfold BreadcrumbData.Render
  simp only [hneg, if_false, hsearch, hpose, Processor.SpawnMarker, Processor.emit]
  simp
  show Vector3d.mk (pose.Pos.X + 0) (pose.Pos.Y + 0) (pose.Pos.Z + 0.5) = _
  simp

/-! ## The fresh-id counter -/

theorem wrapInt32_of_range (x : Int) (hlo : -2147483648 ≤ x) (hhi : x ≤ 2147483647) :
    wrapInt32 x = x := by
  unfold wrapInt32
  omega

theorem registerRobot_eq (p p1 : Processor) (name : String) (pose : Pose3d)
    (h : p.registerRobot name pose = some p1) :
    ∃ c, p.robotColors[p.robots.length % p.robotColors.length]? = some c ∧
      p1 = { p with
        robots := mapSet p.robots name c,
        prevPose := mapSet p.prevPose name pose,
        markerId := wrapInt32 (wrapInt32 (p.markerId + 1) + 1),
        robotMarkers := mapSet p.robotMarkers name (wrapInt32 (p.markerId + 1)),
        out := p.out ++ [Output.Request
            { ns := "default", id := wrapInt32 (p.markerId + 1),
              action := MarkerAction.ADD_MODIFY, type := MarkerType.SPHERE,
              material := c, scale := Vector3d.mk 10 10 10, pos := Vector3d.Zero,
              rot := MarkerRot.Identity },
          Output.RobotNr (mapSet p.robots name c).length name c.ambient] } := by
  unfold Processor.registerRobot at h
  by_cases hz : p.robotColors.length = 0
  · simp [hz] at h
  · rw [if_neg hz] at h
    cases hc : p.robotColors[p.robots.length % p.robotColors.length]? with
    | none => simp [hc] at h
    | some c =>
      refine ⟨c, rfl, ?_⟩
      simp [hc, mapIndex, mapFind_mapSet_self, Processor.SpawnMarker,
        Processor.emit] at h
      rw [← h]

theorem runMarkerCalls_bounds (calls : List MarkerCall) :
    ∀ (p q : Processor) (ids : List Int),
      runMarkerCalls p calls = some (q, ids) →
      -2147483648 ≤ p.markerId →
      p.markerId + ((calls.map MarkerCall.increments).sum : Nat) ≤ 2147483647 →
      q.markerId = p.markerId + ((calls.map MarkerCall.increments).sum : Nat) ∧
      (∀ i ∈ ids, p.markerId ≤ i) ∧ ids.Pairwise (· < ·) := by
  induction calls with
  | nil =>
    intro p q ids hrun _ _
    simp only [runMarkerCalls, Option.some.injEq, Prod.mk.injEq] at hrun
    obtain ⟨hq, hids⟩ := hrun
    subst hq; subst hids
    simp
  | cons call rest ih =>
    intro p q ids hrun hlo hhi
    cases call with
    | SpawnMarker c pos t s id r =>
      simp only [runMarkerCalls] at hrun
      cases hrest : runMarkerCalls (p.SpawnMarker c pos t s id r).1 rest with
      | none => simp [hrest] at hrun
      | some res =>
        obtain ⟨q1, ids1⟩ := res
        simp only [hrest, Option.some.injEq, Prod.mk.injEq] at hrun
        obtain ⟨hq, hids⟩ := hrun
        subst hq
        simp only [List.map_cons, List.sum_cons, MarkerCall.increments, Nat.cast_add] at hhi ⊢
        by_cases hid : id < 0
        · have hge : ¬ id ≥ 0 := by omega
          simp only [hid, if_true, Nat.cast_one] at hhi hids ⊢
          have hm : (p.SpawnMarker c pos t s id r).1.markerId = p.markerId + 1 := by
            simp only [Processor.SpawnMarker, hge, if_false, Processor.emit]
            exact wrapInt32_of_range _ (by omega) (by omega)
          have hi : (p.SpawnMarker c pos t s id r).2.id = p.markerId := by
            simp [Processor.SpawnMarker, hge]
          obtain ⟨h1, h2, h3⟩ := ih _ q1 ids1 hrest (by rw [hm]; omega) (by rw [hm]; omega)
          rw [hm] at h1 h2
          rw [← hids, hi]
          refine ⟨by omega, ?_, ?_⟩
          · intro i hi2
            rcases List.mem_cons.mp hi2 with hi2 | hi2
            · omega
            · have := h2 i hi2; omega
          · refine List.pairwise_cons.mpr ⟨?_, h3⟩
            intro i hi2
            have := h2 i hi2; omega
        · have hge : id ≥ 0 := by omega
          simp only [hid, if_false, Nat.cast_zero] at hhi hids ⊢
          have hm : (p.SpawnMarker c pos t s id r).1.markerId = p.markerId := by
            simp [Processor.SpawnMarker, hge, Processor.emit]
          obtain ⟨h1, h2, h3⟩ := ih _ q1 ids1 hrest (by rw [hm]; omega) (by rw [hm]; omega)
          rw [hm] at h1 h2
          rw [← hids]
          exact ⟨by omega, h2, h3⟩
    | Register name pose =>
      simp only [runMarkerCalls] at hrun
      cases hreg : p.registerRobot name pose with
      | none => simp [hreg] at hrun
      | some p1 =>
        simp only [hreg] at hrun
        cases hrest : runMarkerCalls p1 rest with
        | none => simp [hrest] at hrun
        | some res =>
          obtain ⟨q1, ids1⟩ := res
          simp only [hrest, Option.some.injEq, Prod.mk.injEq] at hrun
          obtain ⟨hq, hids⟩ := hrun
          subst hq
          simp only [List.map_cons, List.sum_cons, MarkerCall.increments, Nat.cast_add,
            Nat.cast_ofNat] at hhi ⊢
          obtain ⟨c, _, hp1⟩ := registerRobot_eq p p1 name pose hreg
          have hw1 : wrapInt32 (p.markerId + 1) = p.markerId + 1 :=
            wrapInt32_of_range _ (by omega) (by omega)
          have hm : p1.markerId = p.markerId + 2 := by
            rw [hp1]
            simp only [hw1]
            rw [wrapInt32_of_range _ (by omega) (by omega)]
            omega
          have hnew : requestIds (p1.out.drop p.out.length) = [p.markerId + 1] := by
            rw [hp1]
            simp [requestIds, hw1]
          obtain ⟨h1, h2, h3⟩ := ih _ q1 ids1 hrest (by rw [hm]; omega) (by rw [hm]; omega)
          rw [hm] at h1 h2
          rw [← hids, hnew]
          refine ⟨by omega, ?_, ?_⟩
          · intro i hi2
            rcases List.mem_append.mp hi2 with hi2 | hi2
            · simp only [List.mem_singleton] at hi2; omega
            · have := h2 i hi2; omega
          · simp only [List.singleton_append, List.pairwise_cons]
            refine ⟨?_, h3⟩
            intro i hi2
            have := h2 i hi2; omega

/-- C9: over any sequence of SpawnMarker calls and robot registrations during
which the 32-bit counter does not overflow, the ids issued to the calls made
with the marker id unset are strictly increasing in call order. -/
theorem fresh_ids_strictly_increasing (p q : Processor) (calls : List MarkerCall)
    (ids : List Int) (hrun : runMarkerCalls p calls = some (q, ids))
    (hlo : -2147483648 ≤ p.markerId)
    (hhi : p.markerId + ((calls.map MarkerCall.increments).sum : Nat) ≤ 2147483647) :
    ids.Pairwise (· < ·) :=
  (runMarkerCalls_bounds calls p q ids hrun hlo hhi).2.2

/-- Witness of C9: a registration, then fresh markers around a move of marker
1, issue the ids 1, 2, 3. -/
theorem fresh_ids_strictly_increasing_witness :
    (runMarkerCalls (Processor.init none) sampleCalls).map Prod.snd = some [1, 2, 3] ∧
    [(1 : Int), 2, 3].Pairwise (· < ·) := by
  have hrun : (runMarkerCalls (Processor.init none) sampleCalls).map Prod.snd
      = some [1, 2, 3] := by decide!
  refine ⟨hrun, ?_⟩
  cases hr : runMarkerCalls (Processor.init none) sampleCalls with
  | none => rw [hr] at hrun; cases hrun
  | some res =>
    obtain ⟨q, ids⟩ := res
    rw [hr] at hrun
    simp only [Option.map_some', Option.some.injEq] at hrun
    rw [← hrun]
    exact fresh_ids_strictly_increasing (Processor.init none) q sampleCalls ids hr
      (by decide) (by decide)

/-- C10 (failing input): in a session without pose messages the marker of the
first report is issued through SpawnMarker with the id unset and carries id 0
(the first request of the trace is the DELETE_ALL of ClearMarkers). -/
theorem report_marker_gets_id_zero :
    (Processor.construct sessionWithoutRobots).map (fun p => p.out) =
      some [ Output.Request
               { ns := "default", id := 0, action := MarkerAction.DELETE_ALL,
                 type := MarkerType.NONE, material := default, scale := Vector3d.Zero,
                 pos := Vector3d.Zero, rot := MarkerRot.Identity },
             Output.Parsed 1 0,
             Output.Progress 5 5,
             Output.Request
               { ns := "default", id := 0, action := MarkerAction.ADD_MODIFY,
                 type := MarkerType.SPHERE,
                 material := ⟨⟨0, 1, 0, 1⟩, ⟨0, 1, 0, 1⟩, ⟨0, 1, 0, 1⟩⟩,
                 scale := Vector3d.mk 10 10 10, pos := Vector3d.mk 1 2 3,
                 rot := MarkerRot.Identity } ] := by
  decide!

/-- Witness of C5: robot `B` was never seen up to second 4. -/
theorem BreadcrumbData_Render_not_found_witness :
    BreadcrumbData.Render "B" 4 sampleTimeline =
      some { sampleTimeline with
        out := sampleTimeline.out ++ [Output.BreadcrumbNotFound 4] } := by
  apply BreadcrumbData_Render_not_found
  intro s h0 h4 bucket hb poses hp
  have hs : s = 0 ∨ s = 1 ∨ s = 2 ∨ s = 3 ∨ s = 4 := by omega
  rcases hs with h | h | h | h | h <;> subst h <;>
    simp [sampleTimeline, mapFind] at hb
  subst hb
  simp at hp
  subst hp
  decide

/-- Witness of C4: robot `A` deploys at second 7 and was last seen at second
4; the box is placed at its last pose of second 4. -/
theorem BreadcrumbData_Render_found_witness :
    ∃ poses seq pose,
      Data.RobotPoseData poses ∈
        [Data.RobotPoseData [("A", [poseAt 1 2 3, poseAt 4 5 6])]] ∧
      mapFind poses "A" = some seq ∧ seq.getLast? = some pose ∧
      BreadcrumbData.Render "A" 7 sampleTimeline =
        some { sampleTimeline with
          markerId := wrapInt32 (sampleTimeline.markerId + 1),
          out := sampleTimeline.out ++ [Output.Request
            { ns := "default", id := sampleTimeline.markerId,
              action := MarkerAction.ADD_MODIFY,
              type := MarkerType.BOX, material := sampleTimeline.breadcrumbColor,
              scale := Vector3d.mk 6 6 20,
              pos := Vector3d.mk pose.Pos.X pose.Pos.Y (pose.Pos.Z + 0.5),
              rot := MarkerRot.Identity }] } := by
  apply BreadcrumbData_Render_found sampleTimeline "A" 7 4
    [Data.RobotPoseData [("A", [poseAt 1 2 3, poseAt 4 5 6])]] (by decide) (by decide)
  · decide!
  · exact ⟨[("A", [poseAt 1 2 3, poseAt 4 5 6])], List.mem_cons_self _ _, by decide⟩
  · intro t h4 h7 b hb poses hp
    have ht : t = 5 ∨ t = 6 ∨ t = 7 := by omega
    rcases ht with h | h | h <;> subst h <;>
      simp [sampleTimeline, mapFind] at hb <;> subst hb <;> simp at hp
    subst hp
    decide
  · intro poses seq hp hq
    simp at hp
    subst hp
    simp [mapFind] at hq
    subst hq
    simp

/-! ## Render pacing -/

theorem waitsOf_append (a b : List Output) : waitsOf (a ++ b) = waitsOf a ++ waitsOf b := by
  induction a with
  | nil => rfl
  | cons o rest ih => cases o <;> simp [waitsOf, ih]

theorem progressOf_append (a b : List Output) :
    progressOf (a ++ b) = progressOf a ++ progressOf b := by
  induction a with
  | nil => rfl
  | cons o rest ih => cases o <;> simp [progressOf, ih]

theorem sameSchedule_refl (p : Processor) : p.sameSchedule p := ⟨rfl, rfl, rfl, rfl⟩

theorem sameSchedule_trans {p q r : Processor} (h1 : p.sameSchedule q)
    (h2 : q.sameSchedule r) : p.sameSchedule r :=
  ⟨h2.1.trans h1.1, h2.2.1.trans h1.2.1, h2.2.2.1.trans h1.2.2.1,
    h2.2.2.2.trans h1.2.2.2⟩

theorem SpawnMarker_sameSchedule (p q : Processor) (c : MarkerColor) (pos : Vector3d)
    (t : MarkerType) (s : Vector3d) (id : Int) (r : MarkerRot)
    (hq : q.logData = p.logData ∧ q.rtf = p.rtf ∧ q.out = p.out) :
    p.sameSchedule (q.SpawnMarker c pos t s id r).1 := by
  obtain ⟨h1, h2, h3⟩ := hq
  by_cases hid : id ≥ 0 <;>
    simp [Processor.sameSchedule, Processor.SpawnMarker, Processor.emit, hid,
      waitsOf_append, waitsOf, progressOf_append, progressOf, h1, h2, h3]

theorem renderRobot_spheres_sameSchedule (name : String) (seq : List Pose3d) :
    ∀ p : Processor, p.sameSchedule (seq.foldl (fun q pose =>
      ({ q with robots := (mapIndex q.robots name).2 }.SpawnMarker
        (mapIndex q.robots name).1 (pose.Pos + Vector3d.mk 0 0 0.5) MarkerType.SPHERE
        ⟨1, 1, 1⟩ (-1) MarkerRot.Identity).1) p) := by
  induction seq with
  | nil => intro p; exact sameSchedule_refl p
  | cons pose rest ih =>
    intro p
    simp only [List.foldl_cons]
    refine sameSchedule_trans ?_ (ih _)
    exact SpawnMarker_sameSchedule p _ _ _ _ _ _ _ ⟨rfl, rfl, rfl⟩

theorem renderRobot_total (p : Processor) (name : String) (seq : List Pose3d)
    (hne : seq ≠ []) :
    ∃ q, RobotPoseData.renderRobot p name seq = some q ∧ p.sameSchedule q := by
  obtain ⟨back, hback⟩ : ∃ back, seq.getLast? = some back := by
    cases hl : seq.getLast? with
    | some back => exact ⟨back, rfl⟩
    | none => exact absurd (List.getLast?_eq_none_iff.mp hl) hne
  unfold RobotPoseData.renderRobot
  simp only [hback]
  refine ⟨_, rfl, ?_⟩
  exact sameSchedule_trans (renderRobot_spheres_sameSchedule name seq p)
    (SpawnMarker_sameSchedule _ _ _ _ _ _ _ _ ⟨rfl, rfl, rfl⟩)

theorem RobotPoseData_Render_total (poses : StdMap String (List Pose3d)) :
    ∀ p : Processor, (∀ r ∈ poses, r.2 ≠ []) →
      ∃ q, RobotPoseData.Render poses p = some q ∧ p.sameSchedule q := by
  induction poses with
  | nil => intro p _; exact ⟨p, rfl, sameSchedule_refl p⟩
  | cons e rest ih =>
    intro p hne
    obtain ⟨name, seq⟩ := e
    obtain ⟨p1, hp1, hs1⟩ := renderRobot_total p name seq (hne (name, seq) (List.mem_cons_self _ _))
    obtain ⟨q, hq, hs2⟩ := ih p1 (fun r hr => hne r (List.mem_cons_of_mem _ hr))
    exact ⟨q, by simp only [RobotPoseData.Render, hp1, hq], sameSchedule_trans hs1 hs2⟩

theorem ReportData_Render_sameSchedule (p : Processor) (pos : Vector3d) (score : Int) :
    p.sameSchedule (ReportData.Render pos score p) := by
  unfold ReportData.Render
  by_cases h : score > 0
  · simp only [h, if_true]
    exact SpawnMarker_sameSchedule p _ _ _ _ _ _ _ ⟨rfl, rfl, rfl⟩
  · simp only [h, if_false]
    exact SpawnMarker_sameSchedule p _ _ _ _ _ _ _ ⟨rfl, rfl, rfl⟩

theorem search_origin (logData : StdMap Int (List Data)) (robot : String) (n : Nat)
    (seq : List Pose3d) (h : BreadcrumbData.search logData robot n = some seq) :
    ∃ s : Nat, s ≤ n ∧ BreadcrumbData.scanSecond logData robot (s : Int) = some seq := by
  induction n with
  | zero => exact ⟨0, Nat.le_refl 0, by simpa [BreadcrumbData.search] using h⟩
  | succ n ih =>
    simp only [BreadcrumbData.search] at h
    cases hsc : BreadcrumbData.scanSecond logData robot ((n : Int) + 1) with
    | some seq1 =>
      rw [hsc] at h
      simp only [Option.some.injEq] at h
      refine ⟨n + 1, Nat.le_refl _, ?_⟩
      simp only [Nat.cast_add, Nat.cast_one, hsc, h]
    | none =>
      rw [hsc] at h
      obtain ⟨s, hs, hfound⟩ := ih h
      exact ⟨s, Nat.le_succ_of_le hs, hfound⟩

theorem search_nonempty (logData : StdMap Int (List Data)) (robot : String) (n : Nat)
    (seq : List Pose3d) (hne : timelineNonempty logData)
    (h : BreadcrumbData.search logData robot n = some seq) : seq ≠ [] := by
  obtain ⟨s, _, hfound⟩ := search_origin logData robot n seq h
  unfold BreadcrumbData.scanSecond at hfound
  cases hb : mapFind logData (s : Int) with
  | none => simp [hb] at hfound
  | some bucket =>
    simp only [hb] at hfound
    obtain ⟨poses, hp, hq⟩ := scanBucket_eq_some robot bucket seq hfound
    exact hne _ (mapFind_mem logData _ bucket hb) poses hp _ (mapFind_mem poses robot seq hq)

theorem BreadcrumbData_Render_total (p : Processor) (robot : String) (sec : Int)
    (hne : timelineNonempty p.logData) :
    ∃ q, BreadcrumbData.Render robot sec p = some q ∧ p.sameSchedule q := by
  have hemit : p.sameSchedule (p.emit (Output.BreadcrumbNotFound sec)) := by
    simp [Processor.sameSchedule, Processor.emit, waitsOf_append, waitsOf,
      progressOf_append, progressOf]
  unfold BreadcrumbData.Render
  by_cases hneg : sec < 0
  · exact ⟨p.emit (Output.BreadcrumbNotFound sec), by simp only [hneg, if_true], hemit⟩
  · simp only [hneg, if_false]
    cases hsearch : BreadcrumbData.search p.logData robot sec.toNat with
    | none => exact ⟨p.emit (Output.BreadcrumbNotFound sec), rfl, hemit⟩
    | some seq =>
      have hseq := search_nonempty p.logData robot sec.toNat seq hne hsearch
      cases hl : seq.getLast? with
      | none => exact absurd (List.getLast?_eq_none_iff.mp hl) hseq
      | some pose =>
        exact ⟨(p.SpawnMarker p.breadcrumbColor (pose.Pos + Vector3d.mk 0 0 0.5)
            MarkerType.BOX ⟨6, 6, 20⟩ (-1) MarkerRot.Identity).1, by simp only [hl],
          SpawnMarker_sameSchedule p _ _ _ _ _ _ _ ⟨rfl, rfl, rfl⟩⟩

theorem Data_Render_total (d : Data) (p : Processor)
    (hne : timelineNonempty p.logData)
    (hd : ∀ poses, d = Data.RobotPoseData poses → ∀ r ∈ poses, r.2 ≠ []) :
    ∃ q, d.Render p = some q ∧ p.sameSchedule q := by
  cases d with
  | RobotPoseData poses => exact RobotPoseData_Render_total poses p (hd poses rfl)
  | ReportData pos score =>
    exact ⟨_, rfl, ReportData_Render_sameSchedule p pos score⟩
  | BreadcrumbData robot sec => exact BreadcrumbData_Render_total p robot sec hne

theorem renderBucket_total (bucket : List Data) :
    ∀ p : Processor, timelineNonempty p.logData →
      (∀ poses, Data.RobotPoseData poses ∈ bucket → ∀ r ∈ poses, r.2 ≠ []) →
      ∃ q, renderBucket bucket p = some q ∧ p.sameSchedule q := by
  induction bucket with
  | nil => intro p _ _; exact ⟨p, rfl, sameSchedule_refl p⟩
  | cons d rest ih =>
    intro p hne hb
    obtain ⟨p1, hp1, hs1⟩ := Data_Render_total d p hne
      (fun poses hd => hb poses (by rw [hd]; exact List.mem_cons_self _ _))
    obtain ⟨q, hq, hs2⟩ := ih p1 (by rw [hs1.1]; exact hne)
      (fun poses hp => hb poses (List.mem_cons_of_mem _ hp))
    exact ⟨q, by simp only [renderBucket, hp1, hq], sameSchedule_trans hs1 hs2⟩

theorem DisplayPosesLoop_waits (last : Int) (buckets : StdMap Int (List Data)) :
    ∀ p : Processor, p.rtf ≠ 0 → timelineNonempty p.logData →
      (∀ e ∈ buckets, ∀ poses, Data.RobotPoseData poses ∈ e.2 → ∀ r ∈ poses, r.2 ≠ []) →
      ∃ q, DisplayPosesLoop last buckets p = some q ∧ q.logData = p.logData ∧
        q.rtf = p.rtf ∧
        waitsOf q.out = waitsOf p.out ++ nominalWaits p.rtf (mapKeys buckets) ∧
        progressOf q.out = progressOf p.out ++ mapKeys buckets := by
  induction buckets with
  | nil =>
    intro p _ _ _
    exact ⟨p, rfl, rfl, rfl, by simp [mapKeys, nominalWaits], by simp [mapKeys]⟩
  | cons e rest ih =>
    intro p hrtf hne hb
    obtain ⟨sec, bucket⟩ := e
    obtain ⟨p1, hp1, hl1, hr1, hw1, hg1⟩ := renderBucket_total bucket
      (p.emit (Output.Progress sec last)) hne
      (fun poses hp => hb (sec, bucket) (List.mem_cons_self _ _) poses hp)
    have hw1b : waitsOf p1.out = waitsOf p.out := by
      rw [hw1]; simp [Processor.emit, waitsOf_append, waitsOf]
    have hg1b : progressOf p1.out = progressOf p.out ++ [sec] := by
      rw [hg1]; simp [Processor.emit, progressOf_append, progressOf]
    have hl1b : p1.logData = p.logData := hl1
    have hr1b : p1.rtf = p.rtf := hr1
    cases rest with
    | nil =>
      refine ⟨p1, by simp only [DisplayPosesLoop, hp1], hl1b, hr1b, ?_, ?_⟩
      · simp [mapKeys, nominalWaits, hw1b]
      · simp [mapKeys, hg1b]
    | cons e2 rest2 =>
      obtain ⟨next, bucket2⟩ := e2
      have hst : sleepTime sec next p1.rtf =
          some (truncToInt ((((next : ℚ) - (sec : ℚ)) / p.rtf) * 1000)) := by
        simp [sleepTime, hr1b, hrtf]
      obtain ⟨q, hq, hl2, hr2, hw2, hg2⟩ := ih
        (p1.emit (Output.Wait (truncToInt ((((next : ℚ) - (sec : ℚ)) / p.rtf) * 1000))))
        (by simpa [Processor.emit, hr1b] using hrtf)
        (by simpa [Processor.emit, hl1b] using hne)
        (fun e he => hb e (List.mem_cons_of_mem _ he))
      refine ⟨q, ?_, ?_, ?_, ?_, ?_⟩
      · simp only [DisplayPosesLoop, hp1, hst]
        exact hq
      · rw [hl2]; exact hl1b
      · rw [hr2]; exact hr1b
      · rw [hw2]
        simp only [Processor.emit, waitsOf_append, waitsOf, hw1b, hr1b, mapKeys,
          List.map_cons, nominalWaits, List.append_assoc, List.singleton_append,
          List.nil_append]
      · rw [hg2]
        simp only [Processor.emit, progressOf_append, progressOf, hg1b, mapKeys,
          List.map_cons, List.append_assoc, List.singleton_append, List.nil_append,
          List.append_nil]

theorem renderRobot_sameSchedule (p q : Processor) (name : String) (seq : List Pose3d)
    (h : RobotPoseData.renderRobot p name seq = some q) : p.sameSchedule q := by
  unfold RobotPoseData.renderRobot at h
  cases hl : seq.getLast? with
  | none => simp [hl] at h
  | some back =>
    simp only [hl, Option.some.injEq] at h
    rw [← h]
    exact sameSchedule_trans (renderRobot_spheres_sameSchedule name seq p)
      (SpawnMarker_sameSchedule _ _ _ _ _ _ _ _ ⟨rfl, rfl, rfl⟩)

theorem RobotPoseData_Render_sameSchedule (poses : StdMap String (List Pose3d)) :
    ∀ p q : Processor, RobotPoseData.Render poses p = some q → p.sameSchedule q := by
  induction poses with
  | nil =>
    intro p q h
    simp only [RobotPoseData.Render, Option.some.injEq] at h
    rw [← h]
    exact sameSchedule_refl p
  | cons e rest ih =>
    intro p q h
    obtain ⟨name, seq⟩ := e
    simp only [RobotPoseData.Render] at h
    cases h1 : RobotPoseData.renderRobot p name seq with
    | none => simp [h1] at h
    | some p1 =>
      simp only [h1] at h
      exact sameSchedule_trans (renderRobot_sameSchedule p p1 name seq h1) (ih p1 q h)

theorem BreadcrumbData_Render_sameSchedule (p q : Processor) (robot : String) (sec : Int)
    (h : BreadcrumbData.Render robot sec p = some q) : p.sameSchedule q := by
  have hemit : p.sameSchedule (p.emit (Output.BreadcrumbNotFound sec)) := by
    simp [Processor.sameSchedule, Processor.emit, waitsOf_append, waitsOf,
      progressOf_append, progressOf]
  unfold BreadcrumbData.Render at h
  by_cases hneg : sec < 0
  · simp only [hneg, if_true, Option.some.injEq] at h
    rw [← h]
    exact hemit
  · simp only [hneg, if_false] at h
    cases hsearch : BreadcrumbData.search p.logData robot sec.toNat with
    | none =>
      simp only [hsearch, Option.some.injEq] at h
      rw [← h]
      exact hemit
    | some seq =>
      simp only [hsearch] at h
      cases hl : seq.getLast? with
      | none => simp [hl] at h
      | some pose =>
        simp only [hl, Option.some.injEq] at h
        rw [← h]
        exact SpawnMarker_sameSchedule p _ _ _ _ _ _ _ ⟨rfl, rfl, rfl⟩

theorem Data_Render_sameSchedule (d : Data) (p q : Processor) (h : d.Render p = some q) :
    p.sameSchedule q := by
  cases d with
  | RobotPoseData poses => exact RobotPoseData_Render_sameSchedule poses p q h
  | ReportData pos score =>
    simp only [Data.Render, Option.some.injEq] at h
    rw [← h]
    exact ReportData_Render_sameSchedule p pos score
  | BreadcrumbData robot sec => exact BreadcrumbData_Render_sameSchedule p q robot sec h

theorem renderBucket_sameSchedule (bucket : List Data) :
    ∀ p q : Processor, renderBucket bucket p = some q → p.sameSchedule q := by
  induction bucket with
  | nil =>
    intro p q h
    simp only [renderBucket, Option.some.injEq] at h
    rw [← h]
    exact sameSchedule_refl p
  | cons d rest ih =>
    intro p q h
    simp only [renderBucket] at h
    cases h1 : d.Render p with
    | none => simp [h1] at h
    | some p1 =>
      simp only [h1] at h
      exact sameSchedule_trans (Data_Render_sameSchedule d p p1 h1) (ih p1 q h)

/-- Whenever the walk over the buckets returns, the waits it added are the
nominal waits of the adjacent keys and its progress lines are the keys. -/
theorem DisplayPosesLoop_trace (last : Int) (buckets : StdMap Int (List Data)) :
    ∀ p q : Processor, DisplayPosesLoop last buckets p = some q →
      q.logData = p.logData ∧ q.rtf = p.rtf ∧
      waitsOf q.out = waitsOf p.out ++ nominalWaits p.rtf (mapKeys buckets) ∧
      progressOf q.out = progressOf p.out ++ mapKeys buckets := by
  induction buckets with
  | nil =>
    intro p q h
    simp only [DisplayPosesLoop, Option.some.injEq] at h
    rw [← h]
    exact ⟨rfl, rfl, by simp [mapKeys, nominalWaits], by simp [mapKeys]⟩
  | cons e rest ih =>
    intro p q h
    obtain ⟨sec, bucket⟩ := e
    simp only [DisplayPosesLoop] at h
    cases hp1 : renderBucket bucket (p.emit (Output.Progress sec last)) with
    | none => simp [hp1] at h
    | some p1 =>
      simp only [hp1] at h
      obtain ⟨hl1, hr1, hw1, hg1⟩ := renderBucket_sameSchedule bucket _ p1 hp1
      have hw1b : waitsOf p1.out = waitsOf p.out := by
        rw [hw1]; simp [Processor.emit, waitsOf_append, waitsOf]
      have hg1b : progressOf p1.out = progressOf p.out ++ [sec] := by
        rw [hg1]; simp [Processor.emit, progressOf_append, progressOf]
      have hl1b : p1.logData = p.logData := hl1
      have hr1b : p1.rtf = p.rtf := hr1
      cases rest with
      | nil =>
        simp only [Option.some.injEq] at h
        rw [← h]
        exact ⟨hl1b, hr1b, by simp [mapKeys, nominalWaits, hw1b], by simp [mapKeys, hg1b]⟩
      | cons e2 rest2 =>
        obtain ⟨next, bucket2⟩ := e2
        simp only at h
        by_cases hrtf : p.rtf = 0
        · simp [sleepTime, hr1b, hrtf] at h
        · have hst : sleepTime sec next p1.rtf =
              some (truncToInt ((((next : ℚ) - (sec : ℚ)) / p.rtf) * 1000)) := by
            simp [sleepTime, hr1b, hrtf]
          simp only [hst] at h
          obtain ⟨hl2, hr2, hw2, hg2⟩ := ih _ q h
          refine ⟨?_, ?_, ?_, ?_⟩
          · rw [hl2]; exact hl1b
          · rw [hr2]; exact hr1b
          · rw [hw2]
            simp only [Processor.emit, waitsOf_append, waitsOf, hw1b, hr1b, mapKeys,
              List.map_cons, nominalWaits, List.append_assoc, List.singleton_append,
              List.nil_append]
          · rw [hg2]
            simp only [Processor.emit, progressOf_append, progressOf, hg1b, mapKeys,
              List.map_cons, List.append_assoc, List.singleton_append, List.nil_append,
              List.append_nil]

/-- C7: for a positive realtime factor, whenever Processor::DisplayPoses
returns it has computed exactly one nominal wait per pair of adjacent buckets,
`((next - cur) / rtf) * 1000` truncated to an integer: none after the final
bucket, none for an empty timeline; it does return when the pose sequences of
the timeline are non-empty (each Render is then defined); seconds 10 and 14
at factor 2 give 2000. -/
theorem DisplayPoses_nominal_waits (p : Processor) (hrtf : 0 < p.rtf) :
    (∀ q, p.DisplayPoses = some q →
      waitsOf q.out = waitsOf p.out ++ nominalWaits p.rtf (mapKeys p.logData)) ∧
    (timelineNonempty p.logData → ∃ q, p.DisplayPoses = some q) ∧
    (nominalWaits p.rtf (mapKeys p.logData)).length = (mapKeys p.logData).length - 1 ∧
    sleepTime 10 14 2 = some 2000 := by
  refine ⟨?_, ?_, ?_, ?_⟩
  · intro q hq
    exact (DisplayPosesLoop_trace _ p.logData p q hq).2.2.1
  · intro hne
    obtain ⟨q, hq, _⟩ := DisplayPosesLoop_waits
      ((p.logData.getLast?.map Prod.fst).getD 0) p.logData p (ne_of_gt hrtf) hne
      (fun e he => hne e he)
    exact ⟨q, hq⟩
  · generalize mapKeys p.logData = keys
    induction keys with
    | nil => rfl
    | cons k rest ih =>
      cases rest with
      | nil => rfl
      | cons k2 rest2 =>
        simp only [nominalWaits, List.length_cons] at ih ⊢
        omega
  · norm_num [sleepTime, truncToInt]

/-! ## Order of the render walk -/

theorem pushEvent_sorted (m : StdMap Int (List Data)) (sec : Int) (d : Data)
    (hs : (mapKeys m).Pairwise (· < ·)) : (mapKeys (pushEvent m sec d)).Pairwise (· < ·) := by
  unfold pushEvent mapIndex
  cases hf : mapFind m sec with
  | none =>
    simp only
    exact mapKeys_mapSet_sorted _ _ _ (mapKeys_mapSet_sorted _ _ _ hs)
  | some v =>
    simp only
    exact mapKeys_mapSet_sorted _ _ _ hs

theorem mapFind_pushEvent (m : StdMap Int (List Data)) (sec k : Int) (d : Data) :
    mapFind (pushEvent m sec d) k =
      if k = sec then some ((mapFind m sec).getD [] ++ [d]) else mapFind m k := by
  unfold pushEvent mapIndex
  by_cases hk : k = sec
  · subst hk
    simp only [if_true, mapFind_mapSet_self]
    cases hf : mapFind m k with
    | none => rfl
    | some v => rfl
  · simp only [hk, if_false]
    rw [mapFind_mapSet_ne _ _ _ _ hk]
    cases hf : mapFind m sec with
    | none => simp only; rw [mapFind_mapSet_ne _ _ _ _ hk]
    | some v => rfl

theorem insertEvents_append (m : StdMap Int (List Data)) (ins : List (Int × Data))
    (e : Int × Data) : insertEvents m (ins ++ [e]) = pushEvent (insertEvents m ins) e.1 e.2 := by
  simp [insertEvents, List.foldl_append]

theorem eventsAt_append (ins : List (Int × Data)) (e : Int × Data) (k : Int) :
    eventsAt (ins ++ [e]) k = eventsAt ins k ++ (if e.1 = k then [e.2] else []) := by
  unfold eventsAt
  by_cases h : e.1 = k <;> simp [List.filter_append, List.filter_cons, h]

theorem insertEvents_sorted (ins : List (Int × Data)) :
    (mapKeys (insertEvents [] ins)).Pairwise (· < ·) := by
  induction ins using List.reverseRecOn with
  | nil => simp [insertEvents, mapKeys]
  | append_singleton ins e ih =>
    rw [insertEvents_append]
    exact pushEvent_sorted _ _ _ ih

theorem mapFind_insertEvents (ins : List (Int × Data)) (k : Int) :
    mapFind (insertEvents [] ins) k =
      if eventsAt ins k = [] then none else some (eventsAt ins k) := by
  induction ins using List.reverseRecOn generalizing k with
  | nil => simp [insertEvents, mapFind, eventsAt]
  | append_singleton ins e ih =>
    rw [insertEvents_append, mapFind_pushEvent, eventsAt_append]
    by_cases hk : k = e.1
    · subst hk
      simp only [if_true, ih]
      by_cases h0 : eventsAt ins e.1 = []
      · simp [h0]
      · simp [h0]
    · have hk2 : ¬ e.1 = k := fun h => hk h.symm
      simp only [hk, hk2, if_false, List.append_nil, ih]

theorem mapFind_of_mem_sorted (m : StdMap Int (List Data)) (k : Int) (v : List Data)
    (hs : (mapKeys m).Pairwise (· < ·)) (hm : (k, v) ∈ m) : mapFind m k = some v := by
  induction m with
  | nil => cases hm
  | cons e rest ih =>
    obtain ⟨k1, v1⟩ := e
    have hs2 : (∀ x ∈ mapKeys rest, k1 < x) ∧ (mapKeys rest).Pairwise (· < ·) := by
      simpa [mapKeys] using hs
    rcases List.mem_cons.mp hm with h | h
    · cases h
      simp [mapFind]
    · have hlt : k1 < k := hs2.1 k (List.mem_map.mpr ⟨(k, v), h, rfl⟩)
      have hne : ¬ k = k1 := by omega
      simp only [mapFind, hne, if_false]
      exact ih hs2.2 h

theorem insertEvents_shape (ins : List (Int × Data)) :
    insertEvents [] ins =
      (mapKeys (insertEvents [] ins)).map (fun sec => (sec, eventsAt ins sec)) := by
  have hval : ∀ e ∈ insertEvents [] ins, (e.1, eventsAt ins e.1) = e := by
    intro e he
    obtain ⟨k, v⟩ := e
    have hf := mapFind_of_mem_sorted _ k v (insertEvents_sorted ins) he
    rw [mapFind_insertEvents] at hf
    by_cases h0 : eventsAt ins k = []
    · simp [h0] at hf
    · simp only [h0, if_false, Option.some.injEq] at hf
      simp only [hf]
  unfold mapKeys
  rw [List.map_map]
  conv_lhs => rw [← List.map_id (insertEvents [] ins)]
  apply List.map_congr_left
  intro e he
  simp only [id, Function.comp]
  exact (hval e he).symm

/-- C6: whatever the order of the insertions `logData[sec].push_back(data)`,
the keys of the timeline are strictly ascending and are exactly the inserted
seconds, each bucket holds the events inserted at its second in insertion
order, and Processor::DisplayPoses is the walk over these buckets in that
order: whenever it returns, its progress lines name the seconds in strictly
ascending order, each once (and it returns when every event renders). -/
theorem DisplayPoses_ascending_order (p : Processor) (ins : List (Int × Data))
    (hlog : p.logData = insertEvents [] ins) :
    (mapKeys p.logData).Pairwise (· < ·) ∧
    (∀ sec, sec ∈ mapKeys p.logData ↔ ∃ d, (sec, d) ∈ ins) ∧
    p.logData = (mapKeys p.logData).map (fun sec => (sec, eventsAt ins sec)) ∧
    p.DisplayPoses =
      DisplayPosesLoop ((p.logData.getLast?.map Prod.fst).getD 0)
        ((mapKeys p.logData).map (fun sec => (sec, eventsAt ins sec))) p ∧
    (∀ q, p.DisplayPoses = some q →
      progressOf q.out = progressOf p.out ++ mapKeys p.logData) ∧
    (p.rtf ≠ 0 → timelineNonempty p.logData → ∃ q, p.DisplayPoses = some q) := by
  have hshape : p.logData = (mapKeys p.logData).map (fun sec => (sec, eventsAt ins sec)) := by
    rw [hlog]; exact insertEvents_shape ins
  refine ⟨by rw [hlog]; exact insertEvents_sorted ins, ?_, hshape, ?_, ?_, ?_⟩
  · intro sec
    rw [← not_iff_not, ← mapFind_eq_none_iff, hlog, mapFind_insertEvents]
    by_cases h0 : eventsAt ins sec = []
    · simp only [h0, if_true, true_iff]
      rintro ⟨d, hd⟩
      have : d ∈ eventsAt ins sec := by
        unfold eventsAt
        exact List.mem_map.mpr ⟨(sec, d), List.mem_filter.mpr ⟨hd, by simp⟩, rfl⟩
      rw [h0] at this
      cases this
    · simp only [h0, if_false, false_iff, not_not, reduceCtorEq]
      obtain ⟨d, hd⟩ := List.exists_mem_of_ne_nil _ h0
      unfold eventsAt at hd
      obtain ⟨e, he, hed⟩ := List.mem_map.mp hd
      obtain ⟨hmem, hsec⟩ := List.mem_filter.mp he
      have hsec2 : e.1 = sec := by simpa using hsec
      exact ⟨d, by rw [← hsec2, ← hed]; exact hmem⟩
  · unfold Processor.DisplayPoses
    exact congrArg (fun l => DisplayPosesLoop ((p.logData.getLast?.map Prod.fst).getD 0) l p)
      hshape
  · intro q hq
    exact (DisplayPosesLoop_trace _ p.logData p q hq).2.2.2
  · intro hrtf hne
    obtain ⟨q, hq, _⟩ := DisplayPosesLoop_waits
      ((p.logData.getLast?.map Prod.fst).getD 0) p.logData p hrtf hne
      (fun e he => hne e he)
    exact ⟨q, hq⟩

/-! ## The capture loop, step by step -/

theorem DistanceGt1_self (a : Vector3d) : a.DistanceGt1 a = false := by
  simp [Vector3d.DistanceGt1, Vector3d.SquaredDistance]

theorem registerRobot_total (p : Processor) (name : String) (pose : Pose3d)
    (hpal : p.robotColors ≠ []) : ∃ p1, p.registerRobot name pose = some p1 := by
  unfold Processor.registerRobot
  have hlen : 0 < p.robotColors.length := List.length_pos_of_ne_nil hpal
  have hz : ¬ p.robotColors.length = 0 := by omega
  rw [if_neg hz]
  have hidx : p.robots.length % p.robotColors.length < p.robotColors.length :=
    Nat.mod_lt _ hlen
  rw [List.getElem?_eq_getElem hidx]
  exact ⟨_, rfl⟩

/-- The two outcomes of one pose of Processor::Cb for a name that is not
excluded: `p1` is the processor after the registration, if there was one. -/
theorem CbPose_cases (p p2 : Processor) (data data2 : StdMap String (List Pose3d))
    (pm : PoseMsg) (hne : isExcluded pm.name = false)
    (h : Processor.CbPose (p, data) pm = some (p2, data2)) :
    ∃ p1, ((mapFind p.robots pm.name = none ∧ p.registerRobot pm.name pm.pose = some p1) ∨
        (mapFind p.robots pm.name ≠ none ∧ p1 = p)) ∧
      (((mapIndex p1.prevPose pm.name).1.Pos.DistanceGt1 pm.pose.Pos = true ∧
          p2 = { p1 with prevPose := mapSet (mapIndex p1.prevPose pm.name).2 pm.name pm.pose } ∧
          data2 = mapSet (mapIndex data pm.name).2 pm.name
            ((mapIndex data pm.name).1 ++ [pm.pose])) ∨
        ((mapIndex p1.prevPose pm.name).1.Pos.DistanceGt1 pm.pose.Pos = false ∧
          p2 = { p1 with prevPose := (mapIndex p1.prevPose pm.name).2 } ∧ data2 = data)) := by
  unfold Processor.CbPose at h
  simp only [hne, Bool.false_eq_true, if_false] at h
  by_cases hreg : mapFind p.robots pm.name = none
  · simp only [hreg, if_true] at h
    cases hr : p.registerRobot pm.name pm.pose with
    | none => simp [hr] at h
    | some p1 =>
      simp only [hr] at h
      refine ⟨p1, Or.inl ⟨hreg, rfl⟩, ?_⟩
      by_cases hd : (mapIndex p1.prevPose pm.name).1.Pos.DistanceGt1 pm.pose.Pos = true
      · simp only [hd, if_true, Option.some.injEq, Prod.mk.injEq] at h
        exact Or.inl ⟨hd, h.1.symm, h.2.symm⟩
      · simp only [hd, Bool.false_eq_true, if_false, Option.some.injEq, Prod.mk.injEq] at h
        exact Or.inr ⟨by simpa using hd, h.1.symm, h.2.symm⟩
  · simp only [hreg, if_false] at h
    refine ⟨p, Or.inr ⟨hreg, rfl⟩, ?_⟩
    by_cases hd : (mapIndex p.prevPose pm.name).1.Pos.DistanceGt1 pm.pose.Pos = true
    · simp only [hd, if_true, Option.some.injEq, Prod.mk.injEq] at h
      exact Or.inl ⟨hd, h.1.symm, h.2.symm⟩
    · simp only [hd, Bool.false_eq_true, if_false, Option.some.injEq, Prod.mk.injEq] at h
      exact Or.inr ⟨by simpa using hd, h.1.symm, h.2.symm⟩

theorem CbPose_excluded (st : Processor × StdMap String (List Pose3d)) (pm : PoseMsg)
    (hex : isExcluded pm.name = true) : Processor.CbPose st pm = some st := by
  unfold Processor.CbPose
  simp [hex]

theorem CbPose_total (st : Processor × StdMap String (List Pose3d)) (pm : PoseMsg)
    (hpal : st.1.robotColors ≠ []) :
    ∃ st2, Processor.CbPose st pm = some st2 ∧ st2.1.robotColors = st.1.robotColors := by
  by_cases hex : isExcluded pm.name = true
  · exact ⟨st, CbPose_excluded st pm hex, rfl⟩
  · have hne : isExcluded pm.name = false := by simpa using hex
    obtain ⟨p, data⟩ := st
    unfold Processor.CbPose
    simp only [hne, Bool.false_eq_true, if_false]
    by_cases hreg : mapFind p.robots pm.name = none
    · simp only [hreg, if_true]
      obtain ⟨p1, hp1⟩ := registerRobot_total p pm.name pm.pose hpal
      obtain ⟨c, _, hp1eq⟩ := registerRobot_eq p p1 pm.name pm.pose hp1
      have hpal1 : p1.robotColors = p.robotColors := by rw [hp1eq]
      simp only [hp1]
      by_cases hd : (mapIndex p1.prevPose pm.name).1.Pos.DistanceGt1 pm.pose.Pos = true
      · simp only [hd, if_true]
        exact ⟨_, rfl, hpal1⟩
      · simp only [hd, Bool.false_eq_true, if_false]
        exact ⟨_, rfl, hpal1⟩
    · simp only [hreg, if_false]
      by_cases hd : (mapIndex p.prevPose pm.name).1.Pos.DistanceGt1 pm.pose.Pos = true
      · simp only [hd, if_true]
        exact ⟨_, rfl, rfl⟩
      · simp only [hd, Bool.false_eq_true, if_false]
        exact ⟨_, rfl, rfl⟩

theorem CbLoop_total (poses : List PoseMsg) :
    ∀ st : Processor × StdMap String (List Pose3d), st.1.robotColors ≠ [] →
      ∃ st2, Processor.CbLoop st poses = some st2 ∧
        st2.1.robotColors = st.1.robotColors := by
  induction poses with
  | nil => intro st _; exact ⟨st, rfl, rfl⟩
  | cons pm rest ih =>
    intro st hpal
    obtain ⟨st1, h1, hc1⟩ := CbPose_total st pm hpal
    obtain ⟨st2, h2, hc2⟩ := ih st1 (by rw [hc1]; exact hpal)
    exact ⟨st2, by simp only [Processor.CbLoop, h1, h2], by rw [hc2, hc1]⟩

theorem Cb_total (p : Processor) (msg : Pose_V) (hpal : p.robotColors ≠ []) :
    ∃ q, p.Cb msg = some q ∧ q.robotColors = p.robotColors := by
  obtain ⟨st2, h2, hc2⟩ := CbLoop_total msg.pose (p, []) hpal
  obtain ⟨p1, data⟩ := st2
  unfold Processor.Cb
  simp only [h2]
  by_cases hd : data ≠ []
  · simp only [hd, if_true, ne_eq, not_false_eq_true]
    exact ⟨_, rfl, hc2⟩
  · simp only [hd, if_false]
    exact ⟨_, rfl, hc2⟩

theorem ArtifactCb_frame (msg : Pose_V) (p : Processor) :
    (p.ArtifactCb msg).robots = p.robots ∧ (p.ArtifactCb msg).prevPose = p.prevPose ∧
    (p.ArtifactCb msg).robotMarkers = p.robotMarkers ∧
    (p.ArtifactCb msg).logData = p.logData ∧
    (p.ArtifactCb msg).robotColors = p.robotColors ∧
    (p.ArtifactCb msg).markerId = p.markerId ∧ (p.ArtifactCb msg).out = p.out := by
  unfold Processor.ArtifactCb
  generalize msg.pose = poses
  induction poses generalizing p with
  | nil => simp
  | cons pm rest ih =>
    simp only [List.foldl_cons]
    split
    · have := ih { p with artifacts := mapSet p.artifacts pm.name pm.pose }
      simpa using this
    · exact ih p

theorem capture_total (cbs : List Callback) :
    ∀ p : Processor, p.robotColors ≠ [] → ∃ q, p.capture cbs = some q := by
  induction cbs with
  | nil => intro p _; exact ⟨p, rfl⟩
  | cons cb rest ih =>
    intro p hpal
    cases cb with
    | Pose m =>
      obtain ⟨p1, h1, hc1⟩ := Cb_total p m hpal
      obtain ⟨q, hq⟩ := ih p1 (by rw [hc1]; exact hpal)
      exact ⟨q, by simp only [Processor.capture, h1, hq]⟩
    | Artifact m =>
      obtain ⟨q, hq⟩ := ih (p.ArtifactCb m)
        (by rw [(ArtifactCb_frame m p).2.2.2.2.1]; exact hpal)
      exact ⟨q, by simp only [Processor.capture, hq]⟩

/-! ## Excluded names -/

theorem namesAllowed_mapSet {α : Type} (m : StdMap String α) (k : String) (v : α)
    (hm : namesAllowed (mapKeys m)) (hk : isExcluded k = false) :
    namesAllowed (mapKeys (mapSet m k v)) := by
  intro x hx
  rcases mem_mapKeys_mapSet m k v x hx with h | h
  · rw [h]; exact hk
  · exact hm x h

theorem namesAllowed_mapIndex {α : Type} [Inhabited α] (m : StdMap String α) (k : String)
    (hm : namesAllowed (mapKeys m)) (hk : isExcluded k = false) :
    namesAllowed (mapKeys (mapIndex m k).2) := by
  unfold mapIndex
  cases mapFind m k with
  | none => exact namesAllowed_mapSet m k default hm hk
  | some v => exact hm

theorem mem_pushEvent (m : StdMap Int (List Data)) (sec : Int) (d : Data)
    (e : Int × List Data) (he : e ∈ pushEvent m sec d) (x : Data) (hx : x ∈ e.2) :
    x = d ∨ ∃ e0 ∈ m, x ∈ e0.2 := by
  unfold pushEvent mapIndex at he
  cases hf : mapFind m sec with
  | none =>
    simp only [hf] at he
    rcases mem_mapSet _ _ _ _ he with h | h
    · rw [h] at hx
      simp only [show (default : List Data) = [] from rfl, List.nil_append,
        List.mem_singleton] at hx
      exact Or.inl hx
    · rcases mem_mapSet _ _ _ _ h with h2 | h2
      · rw [h2] at hx
        cases hx
      · exact Or.inr ⟨e, h2, hx⟩
  | some bucket =>
    simp only [hf] at he
    rcases mem_mapSet _ _ _ _ he with h | h
    · rw [h] at hx
      rcases List.mem_append.mp hx with h2 | h2
      · exact Or.inr ⟨(sec, bucket), mapFind_mem m sec bucket hf, h2⟩
      · exact Or.inl (List.mem_singleton.mp h2)
    · exact Or.inr ⟨e, h, hx⟩

theorem registerRobot_noExcluded (p p1 : Processor) (name : String) (pose : Pose3d)
    (hk : isExcluded name = false) (hinv : p.noExcludedNames)
    (h : p.registerRobot name pose = some p1) : p1.noExcludedNames := by
  obtain ⟨c, _, hp1⟩ := registerRobot_eq p p1 name pose h
  obtain ⟨h1, h2, h3, h4⟩ := hinv
  rw [hp1]
  exact ⟨namesAllowed_mapSet _ _ _ h1 hk, namesAllowed_mapSet _ _ _ h2 hk,
    namesAllowed_mapSet _ _ _ h3 hk, h4⟩

theorem CbPose_noExcluded (p p2 : Processor) (data data2 : StdMap String (List Pose3d))
    (pm : PoseMsg) (hinv : p.noExcludedNames) (hdata : namesAllowed (mapKeys data))
    (h : Processor.CbPose (p, data) pm = some (p2, data2)) :
    p2.noExcludedNames ∧ namesAllowed (mapKeys data2) := by
  by_cases hex : isExcluded pm.name = true
  · rw [CbPose_excluded (p, data) pm hex] at h
    simp only [Option.some.injEq, Prod.mk.injEq] at h
    rw [← h.1, ← h.2]
    exact ⟨hinv, hdata⟩
  · have hne : isExcluded pm.name = false := by simpa using hex
    obtain ⟨p1, hreg, hout⟩ := CbPose_cases p p2 data data2 pm hne h
    have hinv1 : p1.noExcludedNames := by
      rcases hreg with ⟨_, hr⟩ | ⟨_, hr⟩
      · exact registerRobot_noExcluded p p1 pm.name pm.pose hne hinv hr
      · rw [hr]; exact hinv
    obtain ⟨h1, h2, h3, h4⟩ := hinv1
    rcases hout with ⟨_, hp2, hd2⟩ | ⟨_, hp2, hd2⟩
    · rw [hp2, hd2]
      exact ⟨⟨h1, namesAllowed_mapSet _ _ _ (namesAllowed_mapIndex _ _ h2 hne) hne, h3, h4⟩,
        namesAllowed_mapSet _ _ _ (namesAllowed_mapIndex _ _ hdata hne) hne⟩
    · rw [hp2, hd2]
      exact ⟨⟨h1, namesAllowed_mapIndex _ _ h2 hne, h3, h4⟩, hdata⟩

theorem CbLoop_noExcluded (poses : List PoseMsg) :
    ∀ (p p2 : Processor) (data data2 : StdMap String (List Pose3d)),
      p.noExcludedNames → namesAllowed (mapKeys data) →
      Processor.CbLoop (p, data) poses = some (p2, data2) →
      p2.noExcludedNames ∧ namesAllowed (mapKeys data2) := by
  induction poses with
  | nil =>
    intro p p2 data data2 hinv hdata h
    simp only [Processor.CbLoop, Option.some.injEq, Prod.mk.injEq] at h
    rw [← h.1, ← h.2]
    exact ⟨hinv, hdata⟩
  | cons pm rest ih =>
    intro p p2 data data2 hinv hdata h
    simp only [Processor.CbLoop] at h
    cases h1 : Processor.CbPose (p, data) pm with
    | none => simp [h1] at h
    | some st1 =>
      obtain ⟨p1, data1⟩ := st1
      simp only [h1] at h
      obtain ⟨hinv1, hdata1⟩ := CbPose_noExcluded p p1 data data1 pm hinv hdata h1
      exact ih p1 p2 data1 data2 hinv1 hdata1 h

theorem Cb_noExcluded (p q : Processor) (msg : Pose_V) (hinv : p.noExcludedNames)
    (h : p.Cb msg = some q) : q.noExcludedNames := by
  unfold Processor.Cb at h
  cases hl : Processor.CbLoop (p, []) msg.pose with
  | none => simp [hl] at h
  | some st =>
    obtain ⟨p1, data⟩ := st
    simp only [hl] at h
    obtain ⟨⟨h1, h2, h3, h4⟩, hdata⟩ := CbLoop_noExcluded msg.pose p p1 [] data hinv
      (by intro k hk; cases hk) hl
    by_cases hd : data ≠ []
    · simp only [hd, if_true, ne_eq, not_false_eq_true, Option.some.injEq] at h
      rw [← h]
      refine ⟨h1, h2, h3, ?_⟩
      intro e he poses hp
      rcases mem_pushEvent _ _ _ e he _ hp with hx | ⟨e0, he0, hx⟩
      · cases hx; exact hdata
      · exact h4 e0 he0 poses hx
    · simp only [hd, if_false, Option.some.injEq] at h
      rw [← h]
      exact ⟨h1, h2, h3, h4⟩

theorem capture_noExcluded (cbs : List Callback) :
    ∀ p q : Processor, p.noExcludedNames → p.capture cbs = some q → q.noExcludedNames := by
  induction cbs with
  | nil =>
    intro p q hinv h
    simp only [Processor.capture, Option.some.injEq] at h
    rw [← h]; exact hinv
  | cons cb rest ih =>
    intro p q hinv h
    cases cb with
    | Pose m =>
      simp only [Processor.capture] at h
      cases h1 : p.Cb m with
      | none => simp [h1] at h
      | some p1 =>
        simp only [h1] at h
        exact ih p1 q (Cb_noExcluded p p1 m hinv h1) h
    | Artifact m =>
      simp only [Processor.capture] at h
      obtain ⟨f1, f2, f3, f4, _⟩ := ArtifactCb_frame m p
      refine ih (p.ArtifactCb m) q ?_ h
      unfold Processor.noExcludedNames
      rw [f1, f2, f3, f4]
      exact hinv

/-- C1: whatever callbacks the playback delivers, a name that contains
"_wheel", "breadcrumb_", "rotor_" or "Rock_", or equals "base_link", is never
a key of `robots`, `prevPose` or `robotMarkers`, nor of the poses map of any
RobotPoseData stored in `logData`; and with a non-empty palette the capture
does return a processor. -/
theorem Cb_never_stores_excluded_names (cfg : Option Config) (cbs : List Callback)
    (name : String) (hex : isExcluded name = true) :
    ((Processor.init cfg).robotColors ≠ [] →
      ∃ p, (Processor.init cfg).ClearMarkers.capture cbs = some p) ∧
    ∀ p, (Processor.init cfg).ClearMarkers.capture cbs = some p →
      name ∉ mapKeys p.robots ∧ name ∉ mapKeys p.prevPose ∧
      name ∉ mapKeys p.robotMarkers ∧
      ∀ e ∈ p.logData, ∀ poses, Data.RobotPoseData poses ∈ e.2 →
        name ∉ mapKeys poses := by
  refine ⟨fun hpal => capture_total cbs _ hpal, ?_⟩
  intro p hp
  have hinit : (Processor.init cfg).ClearMarkers.noExcludedNames := by
    refine ⟨?_, ?_, ?_, ?_⟩ <;> intro k hk <;> cases hk
  obtain ⟨h1, h2, h3, h4⟩ := capture_noExcluded cbs _ p hinit hp
  have hcontra : ∀ keys : List String, namesAllowed keys → name ∉ keys := by
    intro keys hk hmem
    have := hk name hmem
    rw [hex] at this
    cases this
  exact ⟨hcontra _ h1, hcontra _ h2, hcontra _ h3,
    fun e he poses hposes => hcontra _ (h4 e he poses hposes)⟩

/-! ## Robot colours -/

theorem registryMatches_congr (p q : Processor) (seen : List String)
    (h1 : q.robots = p.robots) (h2 : q.robotColors = p.robotColors)
    (h : p.registryMatches seen) : q.registryMatches seen := by
  unfold Processor.registryMatches
  rw [h1, h2]
  exact h

theorem registerRobot_registry (p p1 : Processor) (name : String) (pose : Pose3d)
    (seen : List String) (hinv : p.registryMatches seen)
    (habs : mapFind p.robots name = none)
    (h : p.registerRobot name pose = some p1) :
    p1.registryMatches (seen ++ [name]) ∧ p1.robotColors = p.robotColors := by
  obtain ⟨c, hc, hp1⟩ := registerRobot_eq p p1 name pose h
  obtain ⟨hlen, hnone, hidx⟩ := hinv
  have hnotin : name ∉ seen := (hnone name).mp habs
  have hrob : p1.robots = mapSet p.robots name c := by rw [hp1]
  have hpal : p1.robotColors = p.robotColors := by rw [hp1]
  refine ⟨⟨?_, ?_, ?_⟩, hpal⟩
  · rw [hrob, mapSet_length_of_absent _ _ _ habs, hlen]
    simp
  · intro x
    rw [hrob]
    by_cases hx : x = name
    · subst hx
      simp [mapFind_mapSet_self]
    · rw [mapFind_mapSet_ne _ _ _ _ hx, hnone x]
      simp [hx]
  · intro i x hix
    rw [hrob, hpal]
    by_cases hi : i < seen.length
    · rw [List.getElem?_append_left hi] at hix
      have hxmem : x ∈ seen := List.getElem?_mem hix
      have hx : x ≠ name := fun hxn => hnotin (hxn ▸ hxmem)
      rw [mapFind_mapSet_ne _ _ _ _ hx]
      exact hidx i x hix
    · rw [List.getElem?_append_right (by omega)] at hix
      have hi0 : i - seen.length = 0 := by
        by_contra hne0
        have : [name][i - seen.length]? = none :=
          List.getElem?_eq_none (by simp; omega)
        rw [this] at hix
        cases hix
      rw [hi0] at hix
      simp only [List.getElem?_cons_zero, Option.some.injEq] at hix
      have hieq : i = seen.length := by omega
      rw [← hix, mapFind_mapSet_self, hieq, ← hlen, hc]

theorem CbPose_registry (p p2 : Processor) (data data2 : StdMap String (List Pose3d))
    (pm : PoseMsg) (seen : List String) (hinv : p.registryMatches seen)
    (h : Processor.CbPose (p, data) pm = some (p2, data2)) :
    p2.registryMatches (seenStep seen pm.name) ∧ p2.robotColors = p.robotColors := by
  by_cases hex : isExcluded pm.name = true
  · rw [CbPose_excluded (p, data) pm hex] at h
    simp only [Option.some.injEq, Prod.mk.injEq] at h
    rw [← h.1]
    have hstep : seenStep seen pm.name = seen := by
      simp only [seenStep, hex, true_or, if_true]
    rw [hstep]
    exact ⟨hinv, rfl⟩
  · have hne : isExcluded pm.name = false := by simpa using hex
    obtain ⟨p1, hreg, hout⟩ := CbPose_cases p p2 data data2 pm hne h
    have hinv1 : p1.registryMatches (seenStep seen pm.name) ∧
        p1.robotColors = p.robotColors := by
      rcases hreg with ⟨habs, hr⟩ | ⟨hpres, hr⟩
      · have hnotin : pm.name ∉ seen := (hinv.2.1 pm.name).mp habs
        simp only [seenStep, hex, hnotin, or_self, if_false]
        exact registerRobot_registry p p1 pm.name pm.pose seen hinv habs hr
      · have hin : pm.name ∈ seen := by
          by_contra hnot
          exact hpres ((hinv.2.1 pm.name).mpr hnot)
        simp only [seenStep, hin, or_true, if_true]
        rw [hr]
        exact ⟨hinv, rfl⟩
    rcases hout with ⟨_, hp2, _⟩ | ⟨_, hp2, _⟩
    · exact ⟨registryMatches_congr p1 p2 _ (by rw [hp2]) (by rw [hp2]) hinv1.1,
        by rw [hp2]; exact hinv1.2⟩
    · exact ⟨registryMatches_congr p1 p2 _ (by rw [hp2]) (by rw [hp2]) hinv1.1,
        by rw [hp2]; exact hinv1.2⟩

theorem CbLoop_registry (poses : List PoseMsg) :
    ∀ (p p2 : Processor) (data data2 : StdMap String (List Pose3d)) (seen : List String),
      p.registryMatches seen →
      Processor.CbLoop (p, data) poses = some (p2, data2) →
      p2.registryMatches ((poses.map (fun pm => pm.name)).foldl seenStep seen) ∧
        p2.robotColors = p.robotColors := by
  induction poses with
  | nil =>
    intro p p2 data data2 seen hinv h
    simp only [Processor.CbLoop, Option.some.injEq, Prod.mk.injEq] at h
    rw [← h.1]
    exact ⟨hinv, rfl⟩
  | cons pm rest ih =>
    intro p p2 data data2 seen hinv h
    simp only [Processor.CbLoop] at h
    cases h1 : Processor.CbPose (p, data) pm with
    | none => simp [h1] at h
    | some st1 =>
      obtain ⟨p1, data1⟩ := st1
      simp only [h1] at h
      obtain ⟨hinv1, hpal1⟩ := CbPose_registry p p1 data data1 pm seen hinv h1
      obtain ⟨hinv2, hpal2⟩ := ih p1 p2 data1 data2 _ hinv1 h
      exact ⟨by simpa using hinv2, by rw [hpal2, hpal1]⟩

theorem Cb_registry (p q : Processor) (msg : Pose_V) (seen : List String)
    (hinv : p.registryMatches seen) (h : p.Cb msg = some q) :
    q.registryMatches ((msg.pose.map (fun pm => pm.name)).foldl seenStep seen) ∧
      q.robotColors = p.robotColors := by
  unfold Processor.Cb at h
  cases hl : Processor.CbLoop (p, []) msg.pose with
  | none => simp [hl] at h
  | some st =>
    obtain ⟨p1, data⟩ := st
    simp only [hl] at h
    obtain ⟨hinv1, hpal1⟩ := CbLoop_registry msg.pose p p1 [] data seen hinv hl
    by_cases hd : data ≠ []
    · simp only [hd, if_true, ne_eq, not_false_eq_true, Option.some.injEq] at h
      rw [← h]
      exact ⟨registryMatches_congr p1 _ _ rfl rfl hinv1, hpal1⟩
    · simp only [hd, if_false, Option.some.injEq] at h
      rw [← h]
      exact ⟨hinv1, hpal1⟩

theorem capture_registry (cbs : List Callback) :
    ∀ (p q : Processor) (seen : List String), p.registryMatches seen →
      p.capture cbs = some q →
      q.registryMatches ((poseNames cbs).foldl seenStep seen) ∧
        q.robotColors = p.robotColors := by
  induction cbs with
  | nil =>
    intro p q seen hinv h
    simp only [Processor.capture, Option.some.injEq] at h
    rw [← h]
    exact ⟨hinv, rfl⟩
  | cons cb rest ih =>
    intro p q seen hinv h
    cases cb with
    | Pose m =>
      simp only [Processor.capture] at h
      cases h1 : p.Cb m with
      | none => simp [h1] at h
      | some p1 =>
        simp only [h1] at h
        obtain ⟨hinv1, hpal1⟩ := Cb_registry p p1 m seen hinv h1
        obtain ⟨hinv2, hpal2⟩ := ih p1 q _ hinv1 h
        exact ⟨by simpa [poseNames, List.foldl_append] using hinv2, by rw [hpal2, hpal1]⟩
    | Artifact m =>
      simp only [Processor.capture] at h
      obtain ⟨f1, _, _, _, f5, _⟩ := ArtifactCb_frame m p
      obtain ⟨hinv2, hpal2⟩ := ih (p.ArtifactCb m) q seen
        (registryMatches_congr p _ _ f1 f5 hinv) h
      exact ⟨by simpa [poseNames] using hinv2, by rw [hpal2, f5]⟩

theorem foldl_seenStep_extends (names : List String) :
    ∀ seen : List String, ∃ t, names.foldl seenStep seen = seen ++ t := by
  induction names with
  | nil => intro seen; exact ⟨[], by simp⟩
  | cons n rest ih =>
    intro seen
    simp only [List.foldl_cons]
    obtain ⟨t, ht⟩ := ih (seenStep seen n)
    rw [ht]
    unfold seenStep
    split
    · exact ⟨t, rfl⟩
    · exact ⟨[n] ++ t, by simp⟩

/-- C3: with the built-in palette of seven colours, the robot whose name is
the N-th (from 0) distinct non-excluded name in first-seen order has the
colour `robotColors[N mod 7]` once the callbacks that showed it are handled,
and still has it after any further callbacks. -/
theorem robot_colour_by_first_seen_order (cfg : Option Config) (cbs more : List Callback)
    (N : Nat) (name : String)
    (hcfg : cfg.bind (fun c => c.robot_colors) = none)
    (hN : (firstSeen (poseNames cbs))[N]? = some name) :
    ∃ p q c, (Processor.init cfg).ClearMarkers.capture cbs = some p ∧
      p.capture more = some q ∧
      defaultRobotColors[N % 7]? = some c ∧
      mapFind p.robots name = some c ∧ mapFind q.robots name = some c := by
  have hpal0 : (Processor.init cfg).ClearMarkers.robotColors = defaultRobotColors := by
    simp [Processor.init, Processor.ClearMarkers, Processor.emit, hcfg]
  have hne0 : (Processor.init cfg).ClearMarkers.robotColors ≠ [] := by
    rw [hpal0]; simp [defaultRobotColors]
  have hinv0 : (Processor.init cfg).ClearMarkers.registryMatches [] := by
    refine ⟨rfl, ?_, ?_⟩
    · intro x; simp [Processor.init, Processor.ClearMarkers, Processor.emit, mapFind]
    · intro i x hix; simp at hix
  obtain ⟨p, hp⟩ := capture_total cbs _ hne0
  obtain ⟨hinvp, hpalp⟩ := capture_registry cbs _ p [] hinv0 hp
  have hnep : p.robotColors ≠ [] := by rw [hpalp]; exact hne0
  obtain ⟨q, hq⟩ := capture_total more p hnep
  obtain ⟨hinvq, hpalq⟩ := capture_registry more p q _ hinvp hq
  obtain ⟨t, ht⟩ := foldl_seenStep_extends (poseNames more)
    ((poseNames cbs).foldl seenStep [])
  have hN1 : ((poseNames cbs).foldl seenStep [])[N]? = some name := hN
  have hNlt : N < ((poseNames cbs).foldl seenStep []).length :=
    (List.getElem?_eq_some.mp hN1).1
  have hN2 : ((poseNames more).foldl seenStep ((poseNames cbs).foldl seenStep []))[N]?
      = some name := by
    rw [ht, List.getElem?_append_left hNlt]
    exact hN1
  have hcp := hinvp.2.2 N name hN1
  have hcq := hinvq.2.2 N name hN2
  rw [hpalp, hpal0] at hcp
  rw [hpalq, hpalp, hpal0] at hcq
  have hlen : defaultRobotColors.length = 7 := rfl
  rw [hlen] at hcp hcq
  have hlt : N % 7 < defaultRobotColors.length := by rw [hlen]; exact Nat.mod_lt _ (by decide)
  refine ⟨p, q, defaultRobotColors[N % 7], hp, hq, List.getElem?_eq_getElem hlt, ?_, ?_⟩
  · rw [hcp, List.getElem?_eq_getElem hlt]
  · rw [hcq, List.getElem?_eq_getElem hlt]

/-! ## The movement filter -/

theorem DistanceGt1_iff_sqrt (a b : Vector3d) :
    a.DistanceGt1 b = true ↔ 1 < Real.sqrt ((a.SquaredDistance b : ℚ) : ℝ) := by
  unfold Vector3d.DistanceGt1
  rw [decide_eq_true_iff, Real.lt_sqrt (by norm_num)]
  constructor
  · intro h
    have : ((1 : ℚ) : ℝ) < ((a.SquaredDistance b : ℚ) : ℝ) := by exact_mod_cast h
    simpa using this
  · intro h
    have : ((1 : ℚ) : ℝ) < ((a.SquaredDistance b : ℚ) : ℝ) := by simpa using h
    exact_mod_cast this

theorem referencePose_append (l : List Pose3d) (x : Pose3d) :
    referencePose (l ++ [x]) =
      some (match referencePose l with
        | none => x
        | some r => referenceStep r x) := by
  cases l with
  | nil => rfl
  | cons a rest => simp [referencePose, List.foldl_append]

theorem posesOf_append_same (hist : List PoseMsg) (pm : PoseMsg) :
    posesOf pm.name (hist ++ [pm]) = posesOf pm.name hist ++ [pm.pose] := by
  simp [posesOf, List.filter_append, List.filter_cons]

theorem posesOf_append_other (hist : List PoseMsg) (pm : PoseMsg) (name : String)
    (h : pm.name ≠ name) : posesOf name (hist ++ [pm]) = posesOf name hist := by
  simp [posesOf, List.filter_append, List.filter_cons, h]

theorem mapFind_mapIndex_snd {α : Type} [Inhabited α] (m : StdMap String α)
    (k x : String) (h : x ≠ k) : mapFind (mapIndex m k).2 x = mapFind m x := by
  unfold mapIndex
  cases mapFind m k with
  | none => exact mapFind_mapSet_ne m k x default h
  | some v => rfl

/-- The value read by `prevPose[name]` in Processor::Cb is the reference
pose of the robot, which for a first sighting is the new pose itself. -/
theorem CbPose_reference (p p1 : Processor) (pm : PoseMsg) (hist : List PoseMsg)
    (hne : isExcluded pm.name = false) (hinv : p.prevPoseMatches hist)
    (hreg : (mapFind p.robots pm.name = none ∧ p.registerRobot pm.name pm.pose = some p1) ∨
        (mapFind p.robots pm.name ≠ none ∧ p1 = p)) :
    mapIndex p1.prevPose pm.name =
        ((referencePose (posesOf pm.name hist)).getD pm.pose, p1.prevPose) ∧
    mapFind p1.prevPose pm.name =
        some ((referencePose (posesOf pm.name hist)).getD pm.pose) ∧
    mapFind p1.robots pm.name ≠ none ∧
    (∀ x, x ≠ pm.name → mapFind p1.prevPose x = mapFind p.prevPose x ∧
      mapFind p1.robots x = mapFind p.robots x) := by
  obtain ⟨href, hsync⟩ := hinv pm.name hne
  rcases hreg with ⟨habs, hr⟩ | ⟨hpres, hr⟩
  · obtain ⟨c, _, hp1⟩ := registerRobot_eq p p1 pm.name pm.pose hr
    have hprev : mapFind p.prevPose pm.name = none := hsync.mp habs
    have hnone : referencePose (posesOf pm.name hist) = none := by rw [← href, hprev]
    have hpp : p1.prevPose = mapSet p.prevPose pm.name pm.pose := by rw [hp1]
    have hrr : p1.robots = mapSet p.robots pm.name c := by rw [hp1]
    have hfind : mapFind p1.prevPose pm.name = some pm.pose := by
      rw [hpp, mapFind_mapSet_self]
    refine ⟨?_, ?_, ?_, ?_⟩
    · rw [hnone, mapIndex_of_present _ _ _ hfind]
      rfl
    · rw [hnone, hfind]
      rfl
    · rw [hrr, mapFind_mapSet_self]
      simp
    · intro x hx
      rw [hpp, hrr, mapFind_mapSet_ne _ _ _ _ hx, mapFind_mapSet_ne _ _ _ _ hx]
      exact ⟨rfl, rfl⟩
  · subst hr
    have hprev : mapFind p1.prevPose pm.name ≠ none := fun h => hpres (hsync.mpr h)
    cases hf : mapFind p1.prevPose pm.name with
    | none => exact absurd hf hprev
    | some r =>
      have hr2 : referencePose (posesOf pm.name hist) = some r := by rw [← href, hf]
      refine ⟨?_, ?_, hpres, fun x _ => ⟨rfl, rfl⟩⟩
      · rw [hr2, mapIndex_of_present _ _ _ hf]
        rfl
      · rw [hr2]
        rfl

theorem CbPose_prevPose (p p2 : Processor) (data data2 : StdMap String (List Pose3d))
    (pm : PoseMsg) (hist : List PoseMsg) (hinv : p.prevPoseMatches hist)
    (h : Processor.CbPose (p, data) pm = some (p2, data2)) :
    p2.prevPoseMatches (hist ++ [pm]) := by
  by_cases hex : isExcluded pm.name = true
  · rw [CbPose_excluded (p, data) pm hex] at h
    simp only [Option.some.injEq, Prod.mk.injEq] at h
    rw [← h.1]
    intro name hname
    have hdiff : pm.name ≠ name := by
      intro heq
      rw [heq, hname] at hex
      cases hex
    rw [posesOf_append_other hist pm name hdiff]
    exact hinv name hname
  · have hne : isExcluded pm.name = false := by simpa using hex
    obtain ⟨p1, hreg, hout⟩ := CbPose_cases p p2 data data2 pm hne h
    obtain ⟨hidx, hfind, hrob, hother⟩ := CbPose_reference p p1 pm hist hne hinv hreg
    have hrefapp : referencePose (posesOf pm.name (hist ++ [pm])) =
        some (referenceStep ((referencePose (posesOf pm.name hist)).getD pm.pose) pm.pose) := by
      rw [posesOf_append_same, referencePose_append]
      cases hrp : referencePose (posesOf pm.name hist) with
      | none => simp [referenceStep, DistanceGt1_self]
      | some r => rfl
    rw [hidx] at hout
    intro name hname
    by_cases hn : name = pm.name
    · subst hn
      rw [hrefapp]
      rcases hout with ⟨hd, hp2, _⟩ | ⟨hd, hp2, _⟩
      · have hpp : p2.prevPose = mapSet p1.prevPose pm.name pm.pose := by rw [hp2]
        have hrr : p2.robots = p1.robots := by rw [hp2]
        rw [hpp, hrr, mapFind_mapSet_self]
        simp only [referenceStep, hd, if_true]
        exact ⟨trivial, by simp [hrob]⟩
      · have hpp : p2.prevPose = p1.prevPose := by rw [hp2]
        have hrr : p2.robots = p1.robots := by rw [hp2]
        rw [hpp, hrr, hfind]
        simp only [referenceStep, hd, Bool.false_eq_true, if_false]
        exact ⟨trivial, by simp [hrob]⟩
    · have hdiff : pm.name ≠ name := fun heq => hn heq.symm
      rw [posesOf_append_other hist pm name hdiff]
      obtain ⟨ho1, ho2⟩ := hother name hn
      obtain ⟨hi1, hi2⟩ := hinv name hname
      rcases hout with ⟨_, hp2, _⟩ | ⟨_, hp2, _⟩
      · have hpp : p2.prevPose = mapSet p1.prevPose pm.name pm.pose := by rw [hp2]
        have hrr : p2.robots = p1.robots := by rw [hp2]
        rw [hpp, hrr, mapFind_mapSet_ne _ _ _ _ hn, ho1, ho2]
        exact ⟨hi1, hi2⟩
      · have hpp : p2.prevPose = p1.prevPose := by rw [hp2]
        have hrr : p2.robots = p1.robots := by rw [hp2]
        rw [hpp, hrr, ho1, ho2]
        exact ⟨hi1, hi2⟩

theorem CbLoop_prevPose (poses : List PoseMsg) :
    ∀ (p p2 : Processor) (data data2 : StdMap String (List Pose3d)) (hist : List PoseMsg),
      p.prevPoseMatches hist →
      Processor.CbLoop (p, data) poses = some (p2, data2) →
      p2.prevPoseMatches (hist ++ poses) := by
  induction poses with
  | nil =>
    intro p p2 data data2 hist hinv h
    simp only [Processor.CbLoop, Option.some.injEq, Prod.mk.injEq] at h
    rw [← h.1, List.append_nil]
    exact hinv
  | cons pm rest ih =>
    intro p p2 data data2 hist hinv h
    simp only [Processor.CbLoop] at h
    cases h1 : Processor.CbPose (p, data) pm with
    | none => simp [h1] at h
    | some st1 =>
      obtain ⟨p1, data1⟩ := st1
      simp only [h1] at h
      have hinv1 := CbPose_prevPose p p1 data data1 pm hist hinv h1
      have hinv2 := ih p1 p2 data1 data2 _ hinv1 h
      simpa using hinv2

theorem Cb_prevPose (p q : Processor) (msg : Pose_V) (hist : List PoseMsg)
    (hinv : p.prevPoseMatches hist) (h : p.Cb msg = some q) :
    q.prevPoseMatches (hist ++ msg.pose) := by
  unfold Processor.Cb at h
  cases hl : Processor.CbLoop (p, []) msg.pose with
  | none => simp [hl] at h
  | some st =>
    obtain ⟨p1, data⟩ := st
    simp only [hl] at h
    have hinv1 := CbLoop_prevPose msg.pose p p1 [] data hist hinv hl
    by_cases hd : data ≠ []
    · simp only [hd, if_true, ne_eq, not_false_eq_true, Option.some.injEq] at h
      rw [← h]
      exact hinv1
    · simp only [hd, if_false, Option.some.injEq] at h
      rw [← h]
      exact hinv1

theorem capture_prevPose (cbs : List Callback) :
    ∀ (p q : Processor) (hist : List PoseMsg), p.prevPoseMatches hist →
      p.capture cbs = some q → q.prevPoseMatches (hist ++ posesDelivered cbs) := by
  induction cbs with
  | nil =>
    intro p q hist hinv h
    simp only [Processor.capture, Option.some.injEq] at h
    rw [← h]
    simpa [posesDelivered] using hinv
  | cons cb rest ih =>
    intro p q hist hinv h
    cases cb with
    | Pose m =>
      simp only [Processor.capture] at h
      cases h1 : p.Cb m with
      | none => simp [h1] at h
      | some p1 =>
        simp only [h1] at h
        have hinv2 := ih p1 q _ (Cb_prevPose p p1 m hist hinv h1) h
        simpa [posesDelivered] using hinv2
    | Artifact m =>
      simp only [Processor.capture] at h
      obtain ⟨f1, f2, _⟩ := ArtifactCb_frame m p
      have hinv1 : (p.ArtifactCb m).prevPoseMatches hist := by
        unfold Processor.prevPoseMatches
        rw [f1, f2]
        exact hinv
      have hinv2 := ih (p.ArtifactCb m) q hist hinv1 h
      simpa [posesDelivered] using hinv2

/-- C2 (amended): for a name that is not excluded, the pose is appended to the
robot's sequence in the batch of its message if and only if the Euclidean
distance between its position and the position of the robot's reference pose
is strictly greater than 1.0, where the reference pose is the robot's most
recently retained pose or, while none has been retained, its first-seen pose
(for a first sighting the pose itself, which is therefore not appended); the
reference then moves to the pose exactly when the pose was appended. -/
theorem pose_retained_iff_far_from_reference (cfg : Option Config) (cbs : List Callback)
    (pre : List PoseMsg) (pm : PoseMsg) (p0 p : Processor)
    (data : StdMap String (List Pose3d))
    (hpal : (Processor.init cfg).robotColors ≠ [])
    (hcap : (Processor.init cfg).ClearMarkers.capture cbs = some p0)
    (hloop : Processor.CbLoop (p0, []) pre = some (p, data))
    (hne : isExcluded pm.name = false) :
    ∃ p2 data2 ref,
      Processor.CbPose (p, data) pm = some (p2, data2) ∧
      ref = (referencePose (posesOf pm.name (posesDelivered cbs ++ pre))).getD pm.pose ∧
      (mapFind data2 pm.name = some ((mapFind data pm.name).getD [] ++ [pm.pose]) ↔
        1 < Real.sqrt ((ref.Pos.SquaredDistance pm.pose.Pos : ℚ) : ℝ)) ∧
      (¬ 1 < Real.sqrt ((ref.Pos.SquaredDistance pm.pose.Pos : ℚ) : ℝ) → data2 = data) ∧
      (∀ x, x ≠ pm.name → mapFind data2 x = mapFind data x) ∧
      mapFind p2.prevPose pm.name = some (referenceStep ref pm.pose) := by
  have hinv0 : (Processor.init cfg).ClearMarkers.prevPoseMatches [] := by
    intro name _
    simp [Processor.init, Processor.ClearMarkers, Processor.emit, mapFind, posesOf,
      referencePose]
  have hreg0 : (Processor.init cfg).ClearMarkers.registryMatches [] := by
    refine ⟨rfl, ?_, ?_⟩
    · intro x; simp [Processor.init, Processor.ClearMarkers, Processor.emit, mapFind]
    · intro i x hix; simp at hix
  have hinv1 := capture_prevPose cbs _ p0 [] hinv0 hcap
  rw [List.nil_append] at hinv1
  have hinv : p.prevPoseMatches (posesDelivered cbs ++ pre) :=
    CbLoop_prevPose pre p0 p [] data _ hinv1 hloop
  obtain ⟨hreg1, hpal1⟩ := capture_registry cbs _ p0 [] hreg0 hcap
  obtain ⟨_, hpal2⟩ := CbLoop_registry pre p0 p [] data _ hreg1 hloop
  have hpalp : p.robotColors ≠ [] := by
    rw [hpal2, hpal1]
    exact hpal
  obtain ⟨st2, hst2, _⟩ := CbPose_total (p, data) pm hpalp
  obtain ⟨p2, data2⟩ := st2
  obtain ⟨p1, hreg, hout⟩ := CbPose_cases p p2 data data2 pm hne hst2
  obtain ⟨hidx, hfind, _, _⟩ :=
    CbPose_reference p p1 pm (posesDelivered cbs ++ pre) hne hinv hreg
  rw [hidx] at hout
  refine ⟨p2, data2, _, hst2, rfl, ?_⟩
  rw [← DistanceGt1_iff_sqrt]
  have hseq : (mapIndex data pm.name).1 = (mapFind data pm.name).getD [] := by
    unfold mapIndex
    cases mapFind data pm.name with
    | none => rfl
    | some l => rfl
  rcases hout with ⟨hd, hp2, hd2⟩ | ⟨hd, hp2, hd2⟩
  · simp only at hd
    refine ⟨?_, ?_, ?_, ?_⟩
    · rw [hd2, mapFind_mapSet_self, hseq]
      simp [hd]
    · intro hnot
      exact absurd hd hnot
    · intro x hx
      rw [hd2, mapFind_mapSet_ne _ _ _ _ hx, mapFind_mapIndex_snd _ _ _ hx]
    · have hpp : p2.prevPose = mapSet p1.prevPose pm.name pm.pose := by rw [hp2]
      rw [hpp, mapFind_mapSet_self]
      simp [referenceStep, hd]
  · simp only at hd
    refine ⟨?_, ?_, ?_, ?_⟩
    · rw [hd2, hd]
      cases mapFind data pm.name with
      | none => simp
      | some l => simp
    · intro _
      exact hd2
    · intro x _
      rw [hd2]
    · have hpp : p2.prevPose = p1.prevPose := by rw [hp2]
      rw [hpp, hfind]
      simp [referenceStep, hd]

/-! ## Instances on the sample inputs -/

/-- Witness of C1: the wheel link of the sample playback is never stored. -/
theorem Cb_never_stores_excluded_names_witness :
    isExcluded "X1/left_wheel" = true ∧
    ∃ p, (Processor.init none).ClearMarkers.capture samplePlayback = some p ∧
      "X1/left_wheel" ∉ mapKeys p.robots ∧ "X1/left_wheel" ∉ mapKeys p.prevPose ∧
      "X1/left_wheel" ∉ mapKeys p.robotMarkers ∧
      ∀ e ∈ p.logData, ∀ poses, Data.RobotPoseData poses ∈ e.2 →
        "X1/left_wheel" ∉ mapKeys poses := by
  have h := Cb_never_stores_excluded_names none samplePlayback "X1/left_wheel" (by decide)
  obtain ⟨p, hp⟩ := h.1 (by simp [Processor.init, defaultRobotColors])
  exact ⟨by decide, p, hp, h.2 p hp⟩

/-- C2 (as stated, refuted): after the first sighting of `X1` at the origin no
pose of `X1` has been retained in any batch, yet its next pose, five units
away, is appended: there is no previously retained pose to measure from. -/
theorem first_retained_pose_has_no_retained_predecessor :
    ((Processor.init none).ClearMarkers.capture firstSighting).map
        (fun p => retainedPoses "X1" p.logData []) = some [] ∧
    ((Processor.init none).ClearMarkers.capture firstSighting).bind
        (fun p => (Processor.CbPose (p, []) ⟨"X1", poseAt 5 0 0⟩).map
          (fun st => mapFind st.2 "X1")) = some (some [poseAt 5 0 0]) := by
  constructor <;> decide!

/-- Witness of C2: the pose of `X1` five units from its first-seen pose. -/
theorem pose_retained_iff_far_from_reference_witness :
    ∃ p0 p2 data2 ref,
      (Processor.init none).ClearMarkers.capture firstSighting = some p0 ∧
      Processor.CbPose (p0, []) ⟨"X1", poseAt 5 0 0⟩ = some (p2, data2) ∧
      ref = (referencePose (posesOf "X1" (posesDelivered firstSighting ++ []))).getD
        (poseAt 5 0 0) ∧
      (mapFind data2 "X1" = some ((mapFind [] "X1").getD [] ++ [poseAt 5 0 0]) ↔
        1 < Real.sqrt ((ref.Pos.SquaredDistance (poseAt 5 0 0).Pos : ℚ) : ℝ)) := by
  obtain ⟨p0, h0⟩ := capture_total firstSighting (Processor.init none).ClearMarkers
    (by simp [Processor.init, Processor.ClearMarkers, Processor.emit, defaultRobotColors])
  obtain ⟨p2, data2, ref, h1, h2, h3, _⟩ :=
    pose_retained_iff_far_from_reference none firstSighting [] ⟨"X1", poseAt 5 0 0⟩ p0 p0 []
      (by simp [Processor.init, defaultRobotColors]) h0 rfl (by decide)
  exact ⟨p0, p2, data2, ref, h0, h1, h2, h3⟩

/-- Witness of C3: `X2` is the second distinct robot of the sample playback
and has the second colour of the built-in palette. -/
theorem robot_colour_by_first_seen_order_witness :
    (firstSeen (poseNames samplePlayback))[1]? = some "X2" ∧
    ∃ p q c, (Processor.init none).ClearMarkers.capture samplePlayback = some p ∧
      p.capture [] = some q ∧
      defaultRobotColors[1 % 7]? = some c ∧
      mapFind p.robots "X2" = some c ∧ mapFind q.robots "X2" = some c :=
  ⟨by decide,
    robot_colour_by_first_seen_order none samplePlayback [] 1 "X2" rfl (by decide)⟩

/-- Witness of C6: insertions at seconds 7, 4, 5, 4 are walked as 4, 5, 7. -/
theorem DisplayPoses_ascending_order_witness :
    mapKeys sampleInserted.logData = [4, 5, 7] ∧
    (mapKeys sampleInserted.logData).Pairwise (· < ·) ∧
    sampleInserted.logData =
      (mapKeys sampleInserted.logData).map (fun sec => (sec, eventsAt sampleInsertions sec)) := by
  have h := DisplayPoses_ascending_order sampleInserted sampleInsertions rfl
  exact ⟨by decide!, h.1, h.2.2.1⟩

/-- Witness of C7: buckets at seconds 10 and 14 with realtime factor 2. -/
theorem DisplayPoses_nominal_waits_witness :
    nominalWaits samplePacing.rtf (mapKeys samplePacing.logData) = [2000] ∧
    ∃ q, samplePacing.DisplayPoses = some q ∧
      waitsOf q.out = waitsOf samplePacing.out ++
        nominalWaits samplePacing.rtf (mapKeys samplePacing.logData) := by
  have hrtf : samplePacing.rtf = 2 := by simp [samplePacing, Processor.init]
  have hne : timelineNonempty samplePacing.logData := by
    intro e he poses hp r hr
    simp only [samplePacing, List.mem_cons, List.mem_singleton, List.not_mem_nil,
      or_false] at he
    rcases he with he | he
    · rw [he] at hp
      simp at hp
    · rw [he] at hp
      simp only [List.mem_singleton, Data.RobotPoseData.injEq] at hp
      rw [hp] at hr
      simp only [List.mem_singleton] at hr
      rw [hr]
      simp
  have h := DisplayPoses_nominal_waits samplePacing (by rw [hrtf]; norm_num)
  obtain ⟨q, hq⟩ := h.2.1 hne
  refine ⟨?_, q, hq, h.1 q hq⟩
  rw [hrtf]
  norm_num [samplePacing, mapKeys, nominalWaits, truncToInt]

/-! ## Markers with a set id, and the first batch of a second -/

/-- C11: a call of Processor::SpawnMarker with a set marker id (not negative)
sends one marker that carries exactly that id with action ADD_MODIFY, and
leaves the fresh-id counter `markerId` unchanged. -/
theorem SpawnMarker_with_set_id (p : Processor) (c : MarkerColor) (pos : Vector3d)
    (t : MarkerType) (s : Vector3d) (id : Int) (r : MarkerRot) (hid : 0 ≤ id) :
    (p.SpawnMarker c pos t s id r).2.id = id ∧
    (p.SpawnMarker c pos t s id r).2.action = MarkerAction.ADD_MODIFY ∧
    (p.SpawnMarker c pos t s id r).1.markerId = p.markerId ∧
    (p.SpawnMarker c pos t s id r).1.out =
      p.out ++ [Output.Request (p.SpawnMarker c pos t s id r).2] := by
  have hge : id ≥ 0 := hid
  simp [Processor.SpawnMarker, Processor.emit, hge]

/-- Witness of C11: moving the marker with id 3. -/
theorem SpawnMarker_with_set_id_witness :
    ((Processor.init none).SpawnMarker default Vector3d.Zero MarkerType.BOX ⟨1, 1, 1⟩ 3
      MarkerRot.Identity).2.id = 3 ∧
    ((Processor.init none).SpawnMarker default Vector3d.Zero MarkerType.BOX ⟨1, 1, 1⟩ 3
      MarkerRot.Identity).1.markerId = (Processor.init none).markerId := by
  have h := SpawnMarker_with_set_id (Processor.init none) default Vector3d.Zero
    MarkerType.BOX ⟨1, 1, 1⟩ 3 MarkerRot.Identity (by decide)
  exact ⟨h.1, h.2.2.1⟩

theorem scanBucket_first (robot : String) (pre post : List Data)
    (poses : StdMap String (List Pose3d)) (seq : List Pose3d)
    (hpre : ∀ poses0, Data.RobotPoseData poses0 ∈ pre → mapFind poses0 robot = none)
    (hseq : mapFind poses robot = some seq) :
    BreadcrumbData.scanBucket robot (pre ++ Data.RobotPoseData poses :: post) = some seq := by
  induction pre with
  | nil => simp [BreadcrumbData.scanBucket, hseq]
  | cons d rest ih =>
    have ih2 := ih (fun poses0 h0 => hpre poses0 (List.mem_cons_of_mem _ h0))
    cases d with
    | RobotPoseData poses1 =>
      have h1 := hpre poses1 (List.mem_cons_self _ _)
      simp only [List.cons_append, BreadcrumbData.scanBucket, h1]
      exact ih2
    | ReportData pos score =>
      simp only [List.cons_append, BreadcrumbData.scanBucket]
      exact ih2
    | BreadcrumbData r sec =>
      simp only [List.cons_append, BreadcrumbData.scanBucket]
      exact ih2

/-- C20: when the second resolved by BreadcrumbData::Render (the greatest
second `s` up to the deployment second that holds a batch with the robot)
holds several pose batches with the robot, exactly one marker is sent, at the
last pose of the first such batch in insertion order, whatever batches follow
it in the bucket. -/
theorem BreadcrumbData_Render_first_batch (p : Processor) (robot : String) (sec s : Int)
    (pre post : List Data) (poses : StdMap String (List Pose3d)) (seq : List Pose3d)
    (pose : Pose3d) (h0 : 0 ≤ s) (hs : s ≤ sec)
    (hb : mapFind p.logData s = some (pre ++ Data.RobotPoseData poses :: post))
    (hpre : ∀ poses0, Data.RobotPoseData poses0 ∈ pre → mapFind poses0 robot = none)
    (hseq : mapFind poses robot = some seq) (hpose : seq.getLast? = some pose)
    (hlater : ∀ t : Int, s < t → t ≤ sec → ∀ b, mapFind p.logData t = some b →
      ∀ poses0, Data.RobotPoseData poses0 ∈ b → mapFind poses0 robot = none) :
    BreadcrumbData.Render robot sec p =
      some { p with
        markerId := wrapInt32 (p.markerId + 1),
        out := p.out ++ [Output.Request
          { ns := "default", id := p.markerId, action := MarkerAction.ADD_MODIFY,
            type := MarkerType.BOX, material := p.breadcrumbColor,
            scale := Vector3d.mk 6 6 20,
            pos := Vector3d.mk pose.Pos.X pose.Pos.Y (pose.Pos.Z + 0.5),
            rot := MarkerRot.Identity }] } := by
  have hsearch : BreadcrumbData.search p.logData robot sec.toNat = some seq := by
    apply search_eq_some p.logData robot sec.toNat s.toNat seq
    · omega
    · have : ((s.toNat : Nat) : Int) = s := Int.toNat_of_nonneg h0
      rw [this]
      simp only [BreadcrumbData.scanSecond, hb]
      exact scanBucket_first robot pre post poses seq hpre hseq
    · intro t ht hts
      unfold BreadcrumbData.scanSecond
      cases hbt : mapFind p.logData (t : Int) with
      | none => rfl
      | some b =>
        simp only
        rw [scanBucket_eq_none]
        exact hlater t (by omega) (by omega) b hbt
  have hneg : ¬ sec < 0 := by omega
  unfold BreadcrumbData.Render
  simp only [hneg, if_false, hsearch, hpose, Processor.SpawnMarker, Processor.emit]
  simp
  show Vector3d.mk (pose.Pos.X + 0) (pose.Pos.Y + 0) (pose.Pos.Z + 0.5) = _
  simp

/-- Witness of C20: second 4 holds two batches with robot `A`; the box goes
to (4, 5, 6), the last pose of the earlier batch, not to (7, 8, 9). -/
theorem BreadcrumbData_Render_first_batch_witness :
    BreadcrumbData.Render "A" 6 sampleTwoBatches =
      some { sampleTwoBatches with
        markerId := wrapInt32 (sampleTwoBatches.markerId + 1),
        out := sampleTwoBatches.out ++ [Output.Request
          { ns := "default", id := sampleTwoBatches.markerId,
            action := MarkerAction.ADD_MODIFY,
            type := MarkerType.BOX, material := sampleTwoBatches.breadcrumbColor,
            scale := Vector3d.mk 6 6 20,
            pos := Vector3d.mk (poseAt 4 5 6).Pos.X (poseAt 4 5 6).Pos.Y
              ((poseAt 4 5 6).Pos.Z + 0.5),
            rot := MarkerRot.Identity }] } := by
  apply BreadcrumbData_Render_first_batch sampleTwoBatches "A" 6 4
    [Data.ReportData ⟨0, 0, 0⟩ 1, Data.RobotPoseData [("B", [poseAt 9 9 9])]]
    [Data.RobotPoseData [("A", [poseAt 7 8 9])]]
    [("A", [poseAt 1 2 3, poseAt 4 5 6])] [poseAt 1 2 3, poseAt 4 5 6] (poseAt 4 5 6)
    (by decide) (by decide)
  · decide!
  · intro poses0 h0
    simp at h0
    subst h0
    decide
  · decide
  · rfl
  · intro t h4 h6 b hb poses0 hp
    have ht : t = 5 ∨ t = 6 := by omega
    rcases ht with h | h <;> subst h <;>
      simp [sampleTwoBatches, mapFind] at hb
    subst hb
    simp at hp

/-! ## The event loop -/

theorem mapFind_insertEvents_from (m : StdMap Int (List Data)) (ins : List (Int × Data))
    (k : Int) :
    mapFind (insertEvents m ins) k =
      if mapFind m k = none ∧ eventsAt ins k = [] then none
      else some ((mapFind m k).getD [] ++ eventsAt ins k) := by
  induction ins using List.reverseRecOn generalizing k with
  | nil =>
    cases hf : mapFind m k with
    | none => simp [insertEvents, eventsAt, hf]
    | some v => simp [insertEvents, eventsAt, hf]
  | append_singleton ins e ih =>
    rw [insertEvents_append, mapFind_pushEvent, eventsAt_append]
    by_cases hk : k = e.1
    · subst hk
      simp only [if_true, ih]
      by_cases h0 : mapFind m e.1 = none ∧ eventsAt ins e.1 = []
      · simp [h0.1, h0.2]
      · simp [h0]
    · have hk2 : ¬ e.1 = k := fun h => hk h.symm
      simp only [hk, hk2, if_false, List.append_nil, ih]

theorem addEvent_logData (p : Processor) (e : EventEntry) :
    (p.addEvent e).logData = insertEvents p.logData (eventOf e).toList := by
  unfold Processor.addEvent eventOf
  by_cases h1 : e.type = "artifact_report_attempt"
  · simp [h1, insertEvents]
  · by_cases h2 : e.type = "breadcrumb_deploy"
    · simp [h1, h2, insertEvents]
    · simp [h1, h2, insertEvents]

theorem insertEvents_insertEvents (m : StdMap Int (List Data)) (a b : List (Int × Data)) :
    insertEvents (insertEvents m a) b = insertEvents m (a ++ b) := by
  simp [insertEvents, List.foldl_append]

theorem foldl_addEvent_logData (events : List EventEntry) :
    ∀ p : Processor, (events.foldl Processor.addEvent p).logData =
      insertEvents p.logData (documentEvents events) := by
  induction events with
  | nil => intro p; simp [documentEvents, insertEvents]
  | cons e rest ih =>
    intro p
    simp only [List.foldl_cons]
    rw [ih, addEvent_logData, insertEvents_insertEvents]
    congr 1
    unfold documentEvents
    cases h : eventOf e with
    | none => simp [List.filterMap_cons, h]
    | some x => simp [List.filterMap_cons, h]

theorem addEvents_logData (p : Processor) (events : List EventEntry) :
    (p.addEvents events).logData = insertEvents p.logData (documentEvents events) := by
  unfold Processor.addEvents
  simp only [Processor.emit]
  exact foldl_addEvent_logData events p

/-- C12: after the event loop of the constructor, the bucket of every second
is its former content followed by the events of the document at that second
in document order, where an `artifact_report_attempt` entry gives one
ReportData (its reported position, score = points_scored) at its time_sec, a
`breadcrumb_deploy` entry gives one BreadcrumbData (its robot, sec = time_sec)
at its time_sec, and an entry of any other type gives nothing. -/
theorem event_loop_appends_in_document_order (p : Processor) (events : List EventEntry)
    (sec : Int) :
    mapFind (p.addEvents events).logData sec =
      (if mapFind p.logData sec = none ∧ eventsAt (documentEvents events) sec = [] then none
       else some ((mapFind p.logData sec).getD [] ++ eventsAt (documentEvents events) sec)) ∧
    documentEvents events = events.filterMap (fun e =>
      if e.type = "artifact_report_attempt" then
        some (e.time_sec, Data.ReportData e.reported_pose e.points_scored)
      else if e.type = "breadcrumb_deploy" then
        some (e.time_sec, Data.BreadcrumbData e.robot e.time_sec)
      else none) := by
  refine ⟨?_, rfl⟩
  rw [addEvents_logData, mapFind_insertEvents_from]

/-! ## Keys of the timeline -/

theorem mem_mapKeys_pushEvent (m : StdMap Int (List Data)) (sec k : Int) (d : Data)
    (hk : k ∈ mapKeys (pushEvent m sec d)) : k = sec ∨ k ∈ mapKeys m := by
  unfold pushEvent mapIndex at hk
  cases hf : mapFind m sec with
  | none =>
    simp only [hf] at hk
    rcases mem_mapKeys_mapSet _ _ _ _ hk with h | h
    · exact Or.inl h
    · exact mem_mapKeys_mapSet _ _ _ _ h
  | some bucket =>
    simp only [hf] at hk
    exact mem_mapKeys_mapSet _ _ _ _ hk

theorem mem_mapKeys_insertEvents (ins : List (Int × Data)) :
    ∀ (m : StdMap Int (List Data)) (k : Int), k ∈ mapKeys (insertEvents m ins) →
      k ∈ mapKeys m ∨ ∃ d, (k, d) ∈ ins := by
  induction ins with
  | nil => intro m k hk; exact Or.inl hk
  | cons e rest ih =>
    intro m k hk
    have hk2 : k ∈ mapKeys (insertEvents (pushEvent m e.1 e.2) rest) := hk
    rcases ih _ k hk2 with h | ⟨d, hd⟩
    · rcases mem_mapKeys_pushEvent m e.1 k e.2 h with h1 | h1
      · exact Or.inr ⟨e.2, by rw [h1]; exact List.mem_cons_self _ _⟩
      · exact Or.inl h1
    · exact Or.inr ⟨d, List.mem_cons_of_mem _ hd⟩

theorem CbLoop_logData (poses : List PoseMsg) :
    ∀ (p p2 : Processor) (data data2 : StdMap String (List Pose3d)),
      Processor.CbLoop (p, data) poses = some (p2, data2) → p2.logData = p.logData := by
  induction poses with
  | nil =>
    intro p p2 data data2 h
    simp only [Processor.CbLoop, Option.some.injEq, Prod.mk.injEq] at h
    rw [← h.1]
  | cons pm rest ih =>
    intro p p2 data data2 h
    simp only [Processor.CbLoop] at h
    cases h1 : Processor.CbPose (p, data) pm with
    | none => simp [h1] at h
    | some st1 =>
      obtain ⟨p1, data1⟩ := st1
      simp only [h1] at h
      have hstep : p1.logData = p.logData := by
        by_cases hex : isExcluded pm.name = true
        · rw [CbPose_excluded (p, data) pm hex] at h1
          simp only [Option.some.injEq, Prod.mk.injEq] at h1
          rw [← h1.1]
        · have hne : isExcluded pm.name = false := by simpa using hex
          obtain ⟨p0, hreg, hout⟩ := CbPose_cases p p1 data data1 pm hne h1
          have h0 : p0.logData = p.logData := by
            rcases hreg with ⟨_, hr⟩ | ⟨_, hr⟩
            · obtain ⟨c, _, hp0⟩ := registerRobot_eq p p0 pm.name pm.pose hr
              rw [hp0]
            · rw [hr]
          rcases hout with ⟨_, hp1, _⟩ | ⟨_, hp1, _⟩
          · rw [hp1]; exact h0
          · rw [hp1]; exact h0
      rw [ih p1 p2 data1 data2 h, hstep]

theorem Cb_keys (p q : Processor) (msg : Pose_V) (h : p.Cb msg = some q) (k : Int)
    (hk : k ∈ mapKeys q.logData) : k = wrapInt32 msg.sec ∨ k ∈ mapKeys p.logData := by
  unfold Processor.Cb at h
  cases hl : Processor.CbLoop (p, []) msg.pose with
  | none => simp [hl] at h
  | some st =>
    obtain ⟨p1, data⟩ := st
    simp only [hl] at h
    have hlog := CbLoop_logData msg.pose p p1 [] data hl
    by_cases hd : data ≠ []
    · simp only [hd, if_true, ne_eq, not_false_eq_true, Option.some.injEq] at h
      rw [← h] at hk
      rw [← hlog]
      exact mem_mapKeys_pushEvent _ _ _ _ hk
    · simp only [hd, if_false, Option.some.injEq] at h
      rw [← h, hlog] at hk
      exact Or.inr hk

theorem capture_keys (cbs : List Callback) :
    ∀ (p q : Processor), p.capture cbs = some q → ∀ k ∈ mapKeys q.logData,
      k ∈ mapKeys p.logData ∨ ∃ m, Callback.Pose m ∈ cbs ∧ k = wrapInt32 m.sec := by
  induction cbs with
  | nil =>
    intro p q h k hk
    simp only [Processor.capture, Option.some.injEq] at h
    rw [← h] at hk
    exact Or.inl hk
  | cons cb rest ih =>
    intro p q h k hk
    cases cb with
    | Pose m =>
      simp only [Processor.capture] at h
      cases h1 : p.Cb m with
      | none => simp [h1] at h
      | some p1 =>
        simp only [h1] at h
        rcases ih p1 q h k hk with h2 | ⟨m2, hm2, hk2⟩
        · rcases Cb_keys p p1 m h1 k h2 with h3 | h3
          · exact Or.inr ⟨m, List.mem_cons_self _ _, h3⟩
          · exact Or.inl h3
        · exact Or.inr ⟨m2, List.mem_cons_of_mem _ hm2, hk2⟩
    | Artifact m =>
      simp only [Processor.capture] at h
      rcases ih _ q h k hk with h2 | ⟨m2, hm2, hk2⟩
      · rw [(ArtifactCb_frame m p).2.2.2.1] at h2
        exact Or.inl h2
      · exact Or.inr ⟨m2, List.mem_cons_of_mem _ hm2, hk2⟩

theorem mem_documentEvents (events : List EventEntry) (k : Int) (d : Data)
    (h : (k, d) ∈ documentEvents events) : ∃ e ∈ events, k = e.time_sec := by
  unfold documentEvents at h
  obtain ⟨e, he, hev⟩ := List.mem_filterMap.mp h
  refine ⟨e, he, ?_⟩
  unfold eventOf at hev
  by_cases h1 : e.type = "artifact_report_attempt"
  · rw [if_pos h1] at hev
    simp only [Option.some.injEq, Prod.mk.injEq] at hev
    exact hev.1.symm
  · by_cases h2 : e.type = "breadcrumb_deploy"
    · rw [if_neg h1, if_pos h2] at hev
      simp only [Option.some.injEq, Prod.mk.injEq] at hev
      exact hev.1.symm
    · rw [if_neg h1, if_neg h2] at hev
      cases hev

theorem processEvents_keys (p : Processor) (ev : EventsFile) (k : Int)
    (hk : k ∈ mapKeys (p.processEvents ev).logData) :
    k ∈ mapKeys p.logData ∨ ∃ e ∈ ev.entries, k = e.time_sec := by
  cases ev with
  | Missing => exact Or.inl hk
  | Unparsable =>
    simp only [Processor.processEvents, addEvents_logData, documentEvents,
      List.filterMap_nil, insertEvents, List.foldl_nil, Processor.emit] at hk
    exact Or.inl hk
  | Entries events =>
    simp only [Processor.processEvents, addEvents_logData] at hk
    rcases mem_mapKeys_insertEvents _ _ k hk with h | ⟨d, hd⟩
    · exact Or.inl h
    · exact Or.inr (mem_documentEvents events k d hd)

/-- C13 (as stated, refuted): two pose messages stamped -2 and -1 leave the
key -1 in the timeline. -/
theorem negative_stamp_gives_negative_key :
    ((Processor.init none).ClearMarkers.capture negativeStamps).map
      (fun p => mapKeys p.logData) = some [-1] := by
  decide!

/-- C13 (amended): every key of the timeline is the stamp second, narrowed
to 32 bits, of a pose message handled by Processor::Cb, or the time_sec of an
entry of the event document; so the keys are non-negative whenever every
stamp second lies in [0, 2^31) and every time_sec is non-negative. -/
theorem timeline_keys_come_from_stamps (cfg : Option Config) (cbs : List Callback)
    (ev : EventsFile) (p : Processor)
    (hcap : (Processor.init cfg).ClearMarkers.capture cbs = some p) :
    (∀ k ∈ mapKeys (p.processEvents ev).logData,
      (∃ m, Callback.Pose m ∈ cbs ∧ k = wrapInt32 m.sec) ∨
      (∃ e ∈ ev.entries, k = e.time_sec)) ∧
    ((∀ m, Callback.Pose m ∈ cbs → 0 ≤ m.sec ∧ m.sec < 2147483648) →
      (∀ e ∈ ev.entries, 0 ≤ e.time_sec) →
      ∀ k ∈ mapKeys (p.processEvents ev).logData, 0 ≤ k) := by
  have hkeys : ∀ k ∈ mapKeys (p.processEvents ev).logData,
      (∃ m, Callback.Pose m ∈ cbs ∧ k = wrapInt32 m.sec) ∨
      (∃ e ∈ ev.entries, k = e.time_sec) := by
    intro k hk
    rcases processEvents_keys p ev k hk with h | h
    · rcases capture_keys cbs _ p hcap k h with h2 | h2
      · simp [Processor.init, Processor.ClearMarkers, Processor.emit, mapKeys] at h2
      · exact Or.inl h2
    · exact Or.inr h
  refine ⟨hkeys, ?_⟩
  intro hstamps hsecs k hk
  rcases hkeys k hk with ⟨m, hm, hkm⟩ | ⟨e, he, hke⟩
  · obtain ⟨h0, h1⟩ := hstamps m hm
    rw [hkm, wrapInt32_of_range _ (by omega) (by omega)]
    exact h0
  · rw [hke]
    exact hsecs e he

/-- Witness of C13: the keys of the sample playback with an event at second
5 come from the stamps 0 and 1 and from the event. -/
theorem timeline_keys_come_from_stamps_witness :
    ∃ p, (Processor.init none).ClearMarkers.capture samplePlayback = some p ∧
      ∀ k ∈ mapKeys (p.processEvents sessionWithoutRobots.events).logData,
        (∃ m, Callback.Pose m ∈ samplePlayback ∧ k = wrapInt32 m.sec) ∨
        (∃ e ∈ sessionWithoutRobots.events.entries, k = e.time_sec) := by
  obtain ⟨p, hp⟩ := capture_total samplePlayback (Processor.init none).ClearMarkers
    (by simp [Processor.init, Processor.ClearMarkers, Processor.emit, defaultRobotColors])
  exact ⟨p, hp,
    (timeline_keys_come_from_stamps none samplePlayback sessionWithoutRobots.events p hp).1⟩

/-! ## Stored batches are never empty -/

theorem mapSet_mapSet_same {κ α : Type} [DecidableEq κ] [MapKey κ]
    (m : StdMap κ α) (k : κ) (d v : α) : mapSet (mapSet m k d) k v = mapSet m k v := by
  induction m with
  | nil => simp [mapSet]
  | cons e rest ih =>
    obtain ⟨k1, v1⟩ := e
    by_cases h : k = k1
    · simp [mapSet, h]
    · by_cases h2 : MapKey.keyLt k k1 = true
      · simp [mapSet, h, h2]
      · simp [mapSet, h, h2, ih]

theorem mem_mapSet_mapIndex {κ α : Type} [DecidableEq κ] [MapKey κ] [Inhabited α]
    (m : StdMap κ α) (k : κ) (v : α) (e : κ × α)
    (he : e ∈ mapSet (mapIndex m k).2 k v) : e = (k, v) ∨ e ∈ m := by
  unfold mapIndex at he
  cases hf : mapFind m k with
  | none =>
    simp only [hf] at he
    rw [mapSet_mapSet_same] at he
    exact mem_mapSet m k v e he
  | some x =>
    simp only [hf] at he
    exact mem_mapSet m k v e he

theorem CbPose_data (p p2 : Processor) (data data2 : StdMap String (List Pose3d))
    (pm : PoseMsg) (h : Processor.CbPose (p, data) pm = some (p2, data2)) :
    data2 = data ∨ (isExcluded pm.name = false ∧
      data2 = mapSet (mapIndex data pm.name).2 pm.name
        ((mapIndex data pm.name).1 ++ [pm.pose])) := by
  by_cases hex : isExcluded pm.name = true
  · rw [CbPose_excluded (p, data) pm hex] at h
    simp only [Option.some.injEq, Prod.mk.injEq] at h
    exact Or.inl h.2.symm
  · have hne : isExcluded pm.name = false := by simpa using hex
    obtain ⟨p1, _, hout⟩ := CbPose_cases p p2 data data2 pm hne h
    rcases hout with ⟨_, _, hd2⟩ | ⟨_, _, hd2⟩
    · exact Or.inr ⟨hne, hd2⟩
    · exact Or.inl hd2

theorem CbLoop_seqs_nonempty (poses : List PoseMsg) :
    ∀ (p p2 : Processor) (data data2 : StdMap String (List Pose3d)),
      (∀ r ∈ data, r.2 ≠ []) →
      Processor.CbLoop (p, data) poses = some (p2, data2) → ∀ r ∈ data2, r.2 ≠ [] := by
  induction poses with
  | nil =>
    intro p p2 data data2 hinv h
    simp only [Processor.CbLoop, Option.some.injEq, Prod.mk.injEq] at h
    rw [← h.2]
    exact hinv
  | cons pm rest ih =>
    intro p p2 data data2 hinv h
    simp only [Processor.CbLoop] at h
    cases h1 : Processor.CbPose (p, data) pm with
    | none => simp [h1] at h
    | some st1 =>
      obtain ⟨p1, data1⟩ := st1
      simp only [h1] at h
      refine ih p1 p2 data1 data2 ?_ h
      rcases CbPose_data p p1 data data1 pm h1 with hd | ⟨_, hd⟩
      · rw [hd]; exact hinv
      · intro r hr
        rw [hd] at hr
        rcases mem_mapSet_mapIndex data pm.name _ r hr with h2 | h2
        · rw [h2]; simp
        · exact hinv r h2

theorem pushEvent_batchesNonempty (m : StdMap Int (List Data)) (sec : Int) (d : Data)
    (hm : batchesNonempty m)
    (hd : ∀ poses, d = Data.RobotPoseData poses → poses ≠ [] ∧ ∀ r ∈ poses, r.2 ≠ []) :
    batchesNonempty (pushEvent m sec d) := by
  intro e he poses hp
  rcases mem_pushEvent m sec d e he _ hp with hx | ⟨e0, he0, hx⟩
  · exact hd poses hx.symm
  · exact hm e0 he0 poses hx

theorem Cb_batchesNonempty (p q : Processor) (msg : Pose_V)
    (hinv : batchesNonempty p.logData) (h : p.Cb msg = some q) :
    batchesNonempty q.logData := by
  unfold Processor.Cb at h
  cases hl : Processor.CbLoop (p, []) msg.pose with
  | none => simp [hl] at h
  | some st =>
    obtain ⟨p1, data⟩ := st
    simp only [hl] at h
    have hlog := CbLoop_logData msg.pose p p1 [] data hl
    have hseq := CbLoop_seqs_nonempty msg.pose p p1 [] data (by intro r hr; cases hr) hl
    by_cases hd : data ≠ []
    · simp only [hd, if_true, ne_eq, not_false_eq_true, Option.some.injEq] at h
      rw [← h]
      apply pushEvent_batchesNonempty
      · rw [hlog]; exact hinv
      · intro poses hposes
        cases hposes
        exact ⟨hd, hseq⟩
    · simp only [hd, if_false, Option.some.injEq] at h
      rw [← h, hlog]
      exact hinv

theorem capture_batchesNonempty (cbs : List Callback) :
    ∀ p q : Processor, batchesNonempty p.logData → p.capture cbs = some q →
      batchesNonempty q.logData := by
  induction cbs with
  | nil =>
    intro p q hinv h
    simp only [Processor.capture, Option.some.injEq] at h
    rw [← h]; exact hinv
  | cons cb rest ih =>
    intro p q hinv h
    cases cb with
    | Pose m =>
      simp only [Processor.capture] at h
      cases h1 : p.Cb m with
      | none => simp [h1] at h
      | some p1 =>
        simp only [h1] at h
        exact ih p1 q (Cb_batchesNonempty p p1 m hinv h1) h
    | Artifact m =>
      simp only [Processor.capture] at h
      refine ih (p.ArtifactCb m) q ?_ h
      rw [(ArtifactCb_frame m p).2.2.2.1]
      exact hinv

theorem insertEvents_batchesNonempty (ins : List (Int × Data)) :
    ∀ m : StdMap Int (List Data), batchesNonempty m →
      (∀ e ∈ ins, ∀ poses, e.2 ≠ Data.RobotPoseData poses) →
      batchesNonempty (insertEvents m ins) := by
  induction ins with
  | nil => intro m hm _; exact hm
  | cons e rest ih =>
    intro m hm hins
    have hstep : batchesNonempty (pushEvent m e.1 e.2) :=
      pushEvent_batchesNonempty m e.1 e.2 hm
        (fun poses hp => absurd hp (hins e (List.mem_cons_self _ _) poses))
    exact ih _ hstep (fun e2 he2 => hins e2 (List.mem_cons_of_mem _ he2))

theorem documentEvents_not_batch (events : List EventEntry) :
    ∀ e ∈ documentEvents events, ∀ poses, e.2 ≠ Data.RobotPoseData poses := by
  intro e he poses
  unfold documentEvents at he
  obtain ⟨entry, _, hev⟩ := List.mem_filterMap.mp he
  unfold eventOf at hev
  by_cases h1 : entry.type = "artifact_report_attempt"
  · rw [if_pos h1] at hev
    simp only [Option.some.injEq] at hev
    rw [← hev]
    simp
  · by_cases h2 : entry.type = "breadcrumb_deploy"
    · rw [if_neg h1, if_pos h2] at hev
      simp only [Option.some.injEq] at hev
      rw [← hev]
      simp
    · rw [if_neg h1, if_neg h2] at hev
      cases hev

theorem processEvents_logData (p : Processor) (ev : EventsFile) :
    (p.processEvents ev).logData = insertEvents p.logData (documentEvents ev.entries) := by
  cases ev with
  | Missing => simp [Processor.processEvents, Processor.emit, EventsFile.entries,
      documentEvents, insertEvents]
  | Unparsable => simp [Processor.processEvents, addEvents_logData, Processor.emit,
      EventsFile.entries]
  | Entries events => simp [Processor.processEvents, addEvents_logData, EventsFile.entries]

theorem batchesNonempty_timelineNonempty (m : StdMap Int (List Data))
    (h : batchesNonempty m) : timelineNonempty m :=
  fun e he poses hp => (h e he poses hp).2

theorem session_batchesNonempty (cfg : Option Config) (cbs : List Callback)
    (ev : EventsFile) (p : Processor)
    (hcap : (Processor.init cfg).ClearMarkers.capture cbs = some p) :
    batchesNonempty (p.processEvents ev).logData := by
  have h0 : batchesNonempty (Processor.init cfg).ClearMarkers.logData := by
    intro e he
    simp [Processor.init, Processor.ClearMarkers, Processor.emit] at he
  have h1 := capture_batchesNonempty cbs _ p h0 hcap
  rw [processEvents_logData]
  exact insertEvents_batchesNonempty _ _ h1 (documentEvents_not_batch _)

/-- C17: after the capture (and the merge of the event document), every
RobotPoseData of the timeline has a non-empty poses map whose pose sequences
are all non-empty; hence taking the last pose is defined and every event of
the timeline renders, in any processor that holds this timeline. -/
theorem stored_batches_are_nonempty (cfg : Option Config) (cbs : List Callback)
    (ev : EventsFile) (p : Processor)
    (hcap : (Processor.init cfg).ClearMarkers.capture cbs = some p) :
    (∀ e ∈ (p.processEvents ev).logData, ∀ poses, Data.RobotPoseData poses ∈ e.2 →
      poses ≠ [] ∧ ∀ r ∈ poses, r.2 ≠ [] ∧ ∃ back, r.2.getLast? = some back) ∧
    (∀ q : Processor, q.logData = (p.processEvents ev).logData →
      ∀ e ∈ q.logData, ∀ d ∈ e.2, ∃ q2, d.Render q = some q2) := by
  have hinv := session_batchesNonempty cfg cbs ev p hcap
  refine ⟨?_, ?_⟩
  · intro e he poses hp
    obtain ⟨h1, h2⟩ := hinv e he poses hp
    refine ⟨h1, fun r hr => ⟨h2 r hr, ?_⟩⟩
    cases hl : r.2.getLast? with
    | some back => exact ⟨back, rfl⟩
    | none => exact absurd (List.getLast?_eq_none_iff.mp hl) (h2 r hr)
  · intro q hq e he d hd
    have hinvq : batchesNonempty q.logData := by rw [hq]; exact hinv
    obtain ⟨q2, hq2, _⟩ := Data_Render_total d q
      (batchesNonempty_timelineNonempty _ hinvq)
      (fun poses hposes => (hinvq e he poses (by rw [← hposes]; exact hd)).2)
    exact ⟨q2, hq2⟩

/-- Witness of C17: the timeline of the sample playback. -/
theorem stored_batches_are_nonempty_witness :
    ∃ p, (Processor.init none).ClearMarkers.capture samplePlayback = some p ∧
      ∀ e ∈ (p.processEvents EventsFile.Missing).logData, ∀ poses,
        Data.RobotPoseData poses ∈ e.2 →
        poses ≠ [] ∧ ∀ r ∈ poses, r.2 ≠ [] ∧ ∃ back, r.2.getLast? = some back := by
  obtain ⟨p, hp⟩ := capture_total samplePlayback (Processor.init none).ClearMarkers
    (by simp [Processor.init, Processor.ClearMarkers, Processor.emit, defaultRobotColors])
  exact ⟨p, hp, (stored_batches_are_nonempty none samplePlayback EventsFile.Missing p hp).1⟩

/-! ## Rendering leaves the timeline and the registries alone -/

theorem sameRegistries_refl (p : Processor) : p.sameRegistries p := ⟨rfl, rfl, rfl⟩

theorem sameRegistries_trans {p q r : Processor} (h1 : p.sameRegistries q)
    (h2 : q.sameRegistries r) : p.sameRegistries r :=
  ⟨h2.1.trans h1.1, h2.2.1.trans h1.2.1, h2.2.2.trans h1.2.2⟩

theorem SpawnMarker_sameRegistries (p q : Processor) (c : MarkerColor) (pos : Vector3d)
    (t : MarkerType) (s : Vector3d) (id : Int) (r : MarkerRot)
    (hq : p.sameRegistries q) : p.sameRegistries (q.SpawnMarker c pos t s id r).1 := by
  obtain ⟨h1, h2, h3⟩ := hq
  by_cases hid : id ≥ 0 <;>
    simp [Processor.sameRegistries, Processor.SpawnMarker, Processor.emit, hid, h1, h2, h3]

theorem mapIndex_snd_of_present {κ α : Type} [DecidableEq κ] [MapKey κ] [Inhabited α]
    (m : StdMap κ α) (k : κ) (h : mapFind m k ≠ none) : (mapIndex m k).2 = m := by
  unfold mapIndex
  cases hf : mapFind m k with
  | none => exact absurd hf h
  | some v => rfl

theorem renderRobot_spheres_sameRegistries (name : String) (seq : List Pose3d) :
    ∀ p : Processor, mapFind p.robots name ≠ none →
      p.sameRegistries (seq.foldl (fun q pose =>
        ({ q with robots := (mapIndex q.robots name).2 }.SpawnMarker
          (mapIndex q.robots name).1 (pose.Pos + Vector3d.mk 0 0 0.5) MarkerType.SPHERE
          ⟨1, 1, 1⟩ (-1) MarkerRot.Identity).1) p) := by
  induction seq with
  | nil => intro p _; exact sameRegistries_refl p
  | cons pose rest ih =>
    intro p hreg
    simp only [List.foldl_cons]
    have hstep : p.sameRegistries
        ({ p with robots := (mapIndex p.robots name).2 }.SpawnMarker
          (mapIndex p.robots name).1 (pose.Pos + Vector3d.mk 0 0 0.5) MarkerType.SPHERE
          ⟨1, 1, 1⟩ (-1) MarkerRot.Identity).1 :=
      SpawnMarker_sameRegistries p _ _ _ _ _ _ _
        ⟨rfl, mapIndex_snd_of_present _ _ hreg, rfl⟩
    refine sameRegistries_trans hstep (ih _ ?_)
    rw [hstep.2.1]
    exact hreg

theorem renderRobot_sameRegistries (p q : Processor) (name : String) (seq : List Pose3d)
    (hrob : mapFind p.robots name ≠ none) (hmark : mapFind p.robotMarkers name ≠ none)
    (h : RobotPoseData.renderRobot p name seq = some q) : p.sameRegistries q := by
  unfold RobotPoseData.renderRobot at h
  cases hl : seq.getLast? with
  | none => simp [hl] at h
  | some back =>
    simp only [hl, Option.some.injEq] at h
    rw [← h]
    have hsph := renderRobot_spheres_sameRegistries name seq p hrob
    refine sameRegistries_trans hsph (SpawnMarker_sameRegistries _ _ _ _ _ _ _ _ ⟨rfl, ?_, ?_⟩)
    · exact mapIndex_snd_of_present _ _ (by rw [hsph.2.1]; exact hrob)
    · exact mapIndex_snd_of_present _ _ (by rw [hsph.2.2]; exact hmark)

theorem RobotPoseData_Render_sameRegistries (poses : StdMap String (List Pose3d)) :
    ∀ p q : Processor,
      (∀ k ∈ mapKeys poses, mapFind p.robots k ≠ none ∧ mapFind p.robotMarkers k ≠ none) →
      RobotPoseData.Render poses p = some q → p.sameRegistries q := by
  induction poses with
  | nil =>
    intro p q _ h
    simp only [RobotPoseData.Render, Option.some.injEq] at h
    rw [← h]
    exact sameRegistries_refl p
  | cons e rest ih =>
    intro p q hreg h
    obtain ⟨name, seq⟩ := e
    simp only [RobotPoseData.Render] at h
    cases h1 : RobotPoseData.renderRobot p name seq with
    | none => simp [h1] at h
    | some p1 =>
      simp only [h1] at h
      have hname := hreg name (by simp [mapKeys])
      have hs1 := renderRobot_sameRegistries p p1 name seq hname.1 hname.2 h1
      refine sameRegistries_trans hs1 (ih p1 q ?_ h)
      intro k hk
      rw [hs1.2.1, hs1.2.2]
      exact hreg k (by simp only [mapKeys, List.map_cons, List.mem_cons]; exact Or.inr hk)

theorem ReportData_Render_sameRegistries (p : Processor) (pos : Vector3d) (score : Int) :
    p.sameRegistries (ReportData.Render pos score p) := by
  unfold ReportData.Render
  by_cases h : score > 0
  · simp only [h, if_true]
    exact SpawnMarker_sameRegistries p _ _ _ _ _ _ _ ⟨rfl, rfl, rfl⟩
  · simp only [h, if_false]
    exact SpawnMarker_sameRegistries p _ _ _ _ _ _ _ ⟨rfl, rfl, rfl⟩

theorem BreadcrumbData_Render_sameRegistries (p q : Processor) (robot : String) (sec : Int)
    (h : BreadcrumbData.Render robot sec p = some q) : p.sameRegistries q := by
  have hemit : p.sameRegistries (p.emit (Output.BreadcrumbNotFound sec)) := by
    simp [Processor.sameRegistries, Processor.emit]
  unfold BreadcrumbData.Render at h
  by_cases hneg : sec < 0
  · simp only [hneg, if_true, Option.some.injEq] at h
    rw [← h]
    exact hemit
  · simp only [hneg, if_false] at h
    cases hsearch : BreadcrumbData.search p.logData robot sec.toNat with
    | none =>
      simp only [hsearch, Option.some.injEq] at h
      rw [← h]
      exact hemit
    | some seq =>
      simp only [hsearch] at h
      cases hl : seq.getLast? with
      | none => simp [hl] at h
      | some pose =>
        simp only [hl, Option.some.injEq] at h
        rw [← h]
        exact SpawnMarker_sameRegistries p _ _ _ _ _ _ _ ⟨rfl, rfl, rfl⟩

theorem Data_Render_sameRegistries (d : Data) (p q : Processor)
    (hd : ∀ poses, d = Data.RobotPoseData poses →
      ∀ k ∈ mapKeys poses, mapFind p.robots k ≠ none ∧ mapFind p.robotMarkers k ≠ none)
    (h : d.Render p = some q) : p.sameRegistries q := by
  cases d with
  | RobotPoseData poses => exact RobotPoseData_Render_sameRegistries poses p q (hd poses rfl) h
  | ReportData pos score =>
    simp only [Data.Render, Option.some.injEq] at h
    rw [← h]
    exact ReportData_Render_sameRegistries p pos score
  | BreadcrumbData robot sec => exact BreadcrumbData_Render_sameRegistries p q robot sec h

theorem batchesRegistered_names (p : Processor) (hinv : p.batchesRegistered)
    (e : Int × List Data) (he : e ∈ p.logData) (poses : StdMap String (List Pose3d))
    (hp : Data.RobotPoseData poses ∈ e.2) :
    ∀ k ∈ mapKeys poses, mapFind p.robots k ≠ none ∧ mapFind p.robotMarkers k ≠ none := by
  intro k hk
  have h1 := hinv.2 e he poses hp k hk
  exact ⟨h1, fun h2 => h1 ((hinv.1 k).mpr h2)⟩

theorem batchesRegistered_congr (p q : Processor) (h : p.sameRegistries q)
    (hinv : p.batchesRegistered) : q.batchesRegistered := by
  unfold Processor.batchesRegistered
  rw [h.1, h.2.1, h.2.2]
  exact hinv

theorem renderBucket_sameRegistries (bucket : List Data) :
    ∀ p q : Processor, p.batchesRegistered →
      (∀ poses, Data.RobotPoseData poses ∈ bucket → ∃ e ∈ p.logData,
        Data.RobotPoseData poses ∈ e.2) →
      renderBucket bucket p = some q → p.sameRegistries q := by
  induction bucket with
  | nil =>
    intro p q _ _ h
    simp only [renderBucket, Option.some.injEq] at h
    rw [← h]
    exact sameRegistries_refl p
  | cons d rest ih =>
    intro p q hinv hb h
    simp only [renderBucket] at h
    cases h1 : d.Render p with
    | none => simp [h1] at h
    | some p1 =>
      simp only [h1] at h
      have hs1 : p.sameRegistries p1 := by
        apply Data_Render_sameRegistries d p p1 _ h1
        intro poses hposes
        obtain ⟨e, he, hpe⟩ := hb poses (by rw [hposes]; exact List.mem_cons_self _ _)
        exact batchesRegistered_names p hinv e he poses hpe
      refine sameRegistries_trans hs1 (ih p1 q (batchesRegistered_congr p p1 hs1 hinv) ?_ h)
      intro poses hposes
      rw [hs1.1]
      exact hb poses (List.mem_cons_of_mem _ hposes)

theorem DisplayPosesLoop_sameRegistries (last : Int) (buckets : StdMap Int (List Data)) :
    ∀ p q : Processor, p.batchesRegistered → (∀ e ∈ buckets, e ∈ p.logData) →
      DisplayPosesLoop last buckets p = some q → p.sameRegistries q := by
  induction buckets with
  | nil =>
    intro p q _ _ h
    simp only [DisplayPosesLoop, Option.some.injEq] at h
    rw [← h]
    exact sameRegistries_refl p
  | cons e rest ih =>
    intro p q hinv hsub h
    obtain ⟨sec, bucket⟩ := e
    simp only [DisplayPosesLoop] at h
    cases hp1 : renderBucket bucket (p.emit (Output.Progress sec last)) with
    | none => simp [hp1] at h
    | some p1 =>
      simp only [hp1] at h
      have hemit : p.sameRegistries (p.emit (Output.Progress sec last)) := ⟨rfl, rfl, rfl⟩
      have hs1 : p.sameRegistries p1 := by
        refine sameRegistries_trans hemit
          (renderBucket_sameRegistries bucket _ p1
            (batchesRegistered_congr p _ hemit hinv) ?_ hp1)
        intro poses hposes
        exact ⟨(sec, bucket), hsub _ (List.mem_cons_self _ _), hposes⟩
      cases rest with
      | nil =>
        simp only [Option.some.injEq] at h
        rw [← h]
        exact hs1
      | cons e2 rest2 =>
        obtain ⟨next, bucket2⟩ := e2
        simp only at h
        cases hst : sleepTime sec next p1.rtf with
        | none => simp [hst] at h
        | some t =>
          simp only [hst] at h
          have hwait : p.sameRegistries (p1.emit (Output.Wait t)) :=
            sameRegistries_trans hs1 ⟨rfl, rfl, rfl⟩
          refine sameRegistries_trans hwait
            (ih _ q (batchesRegistered_congr p _ hwait hinv) ?_ h)
          intro e3 he3
          rw [hwait.1]
          exact hsub e3 (List.mem_cons_of_mem _ he3)

theorem DisplayPoses_sameRegistries (p q : Processor) (hinv : p.batchesRegistered)
    (h : p.DisplayPoses = some q) : p.sameRegistries q :=
  DisplayPosesLoop_sameRegistries _ p.logData p q hinv (fun _ he => he) h

theorem mapFind_mapSet_ne_none {κ α : Type} [DecidableEq κ] [MapKey κ]
    (m : StdMap κ α) (k x : κ) (v : α) (h : mapFind m x ≠ none) :
    mapFind (mapSet m k v) x ≠ none := by
  by_cases hx : x = k
  · rw [hx, mapFind_mapSet_self]
    simp
  · rw [mapFind_mapSet_ne _ _ _ _ hx]
    exact h

theorem registerRobot_registered (p p1 : Processor) (name : String) (pose : Pose3d)
    (hsync : ∀ x, mapFind p.robots x = none ↔ mapFind p.robotMarkers x = none)
    (h : p.registerRobot name pose = some p1) :
    (∀ x, mapFind p1.robots x = none ↔ mapFind p1.robotMarkers x = none) ∧
    (∀ x, mapFind p.robots x ≠ none → mapFind p1.robots x ≠ none) ∧
    mapFind p1.robots name ≠ none ∧ p1.logData = p.logData := by
  obtain ⟨c, _, hp1⟩ := registerRobot_eq p p1 name pose h
  have hrob : p1.robots = mapSet p.robots name c := by rw [hp1]
  have hmark : p1.robotMarkers = mapSet p.robotMarkers name (wrapInt32 (p.markerId + 1)) := by
    rw [hp1]
  refine ⟨?_, ?_, ?_, by rw [hp1]⟩
  · intro x
    rw [hrob, hmark]
    by_cases hx : x = name
    · rw [hx, mapFind_mapSet_self, mapFind_mapSet_self]
      simp
    · rw [mapFind_mapSet_ne _ _ _ _ hx, mapFind_mapSet_ne _ _ _ _ hx]
      exact hsync x
  · intro x hx
    rw [hrob]
    exact mapFind_mapSet_ne_none _ _ _ _ hx
  · rw [hrob, mapFind_mapSet_self]
    simp

theorem CbPose_registered (p p2 : Processor) (data data2 : StdMap String (List Pose3d))
    (pm : PoseMsg) (hinv : p.batchesRegistered)
    (hdata : ∀ k ∈ mapKeys data, mapFind p.robots k ≠ none)
    (h : Processor.CbPose (p, data) pm = some (p2, data2)) :
    p2.batchesRegistered ∧ (∀ k ∈ mapKeys data2, mapFind p2.robots k ≠ none) := by
  by_cases hex : isExcluded pm.name = true
  · rw [CbPose_excluded (p, data) pm hex] at h
    simp only [Option.some.injEq, Prod.mk.injEq] at h
    rw [← h.1, ← h.2]
    exact ⟨hinv, hdata⟩
  · have hne : isExcluded pm.name = false := by simpa using hex
    obtain ⟨p1, hreg, hout⟩ := CbPose_cases p p2 data data2 pm hne h
    have h1 : (∀ x, mapFind p1.robots x = none ↔ mapFind p1.robotMarkers x = none) ∧
        (∀ x, mapFind p.robots x ≠ none → mapFind p1.robots x ≠ none) ∧
        mapFind p1.robots pm.name ≠ none ∧ p1.logData = p.logData := by
      rcases hreg with ⟨_, hr⟩ | ⟨hpres, hr⟩
      · exact registerRobot_registered p p1 pm.name pm.pose hinv.1 hr
      · rw [hr]
        exact ⟨hinv.1, fun x hx => hx, hpres, rfl⟩
    obtain ⟨hsync1, hmono, hname, hlog⟩ := h1
    have hrob2 : p2.robots = p1.robots ∧ p2.robotMarkers = p1.robotMarkers ∧
        p2.logData = p1.logData := by
      rcases hout with ⟨_, hp2, _⟩ | ⟨_, hp2, _⟩
      · rw [hp2]; exact ⟨rfl, rfl, rfl⟩
      · rw [hp2]; exact ⟨rfl, rfl, rfl⟩
    obtain ⟨hr2, hm2, hl2⟩ := hrob2
    refine ⟨⟨?_, ?_⟩, ?_⟩
    · intro x
      rw [hr2, hm2]
      exact hsync1 x
    · intro e he poses hp k hk
      rw [hr2]
      rw [hl2, hlog] at he
      exact hmono k (hinv.2 e he poses hp k hk)
    · intro k hk
      rw [hr2]
      rcases hout with ⟨_, _, hd2⟩ | ⟨_, _, hd2⟩
      · rw [hd2] at hk
        unfold mapKeys at hk
        obtain ⟨e, he, hek⟩ := List.mem_map.mp hk
        rcases mem_mapSet_mapIndex data pm.name _ e he with h3 | h3
        · rw [← hek, h3]
          exact hname
        · exact hmono k (hdata k (List.mem_map.mpr ⟨e, h3, hek⟩))
      · rw [hd2] at hk
        exact hmono k (hdata k hk)

theorem CbLoop_registered (poses : List PoseMsg) :
    ∀ (p p2 : Processor) (data data2 : StdMap String (List Pose3d)),
      p.batchesRegistered → (∀ k ∈ mapKeys data, mapFind p.robots k ≠ none) →
      Processor.CbLoop (p, data) poses = some (p2, data2) →
      p2.batchesRegistered ∧ (∀ k ∈ mapKeys data2, mapFind p2.robots k ≠ none) := by
  induction poses with
  | nil =>
    intro p p2 data data2 hinv hdata h
    simp only [Processor.CbLoop, Option.some.injEq, Prod.mk.injEq] at h
    rw [← h.1, ← h.2]
    exact ⟨hinv, hdata⟩
  | cons pm rest ih =>
    intro p p2 data data2 hinv hdata h
    simp only [Processor.CbLoop] at h
    cases h1 : Processor.CbPose (p, data) pm with
    | none => simp [h1] at h
    | some st1 =>
      obtain ⟨p1, data1⟩ := st1
      simp only [h1] at h
      obtain ⟨hinv1, hdata1⟩ := CbPose_registered p p1 data data1 pm hinv hdata h1
      exact ih p1 p2 data1 data2 hinv1 hdata1 h

theorem Cb_registered (p q : Processor) (msg : Pose_V) (hinv : p.batchesRegistered)
    (h : p.Cb msg = some q) : q.batchesRegistered := by
  unfold Processor.Cb at h
  cases hl : Processor.CbLoop (p, []) msg.pose with
  | none => simp [hl] at h
  | some st =>
    obtain ⟨p1, data⟩ := st
    simp only [hl] at h
    obtain ⟨hinv1, hdata⟩ := CbLoop_registered msg.pose p p1 [] data hinv
      (by intro k hk; cases hk) hl
    by_cases hd : data ≠ []
    · simp only [hd, if_true, ne_eq, not_false_eq_true, Option.some.injEq] at h
      rw [← h]
      refine ⟨hinv1.1, ?_⟩
      intro e he poses hp k hk
      rcases mem_pushEvent _ _ _ e he _ hp with hx | ⟨e0, he0, hx⟩
      · cases hx
        exact hdata k hk
      · exact hinv1.2 e0 he0 poses hx k hk
    · simp only [hd, if_false, Option.some.injEq] at h
      rw [← h]
      exact hinv1

theorem capture_registered (cbs : List Callback) :
    ∀ p q : Processor, p.batchesRegistered → p.capture cbs = some q →
      q.batchesRegistered := by
  induction cbs with
  | nil =>
    intro p q hinv h
    simp only [Processor.capture, Option.some.injEq] at h
    rw [← h]; exact hinv
  | cons cb rest ih =>
    intro p q hinv h
    cases cb with
    | Pose m =>
      simp only [Processor.capture] at h
      cases h1 : p.Cb m with
      | none => simp [h1] at h
      | some p1 =>
        simp only [h1] at h
        exact ih p1 q (Cb_registered p p1 m hinv h1) h
    | Artifact m =>
      simp only [Processor.capture] at h
      obtain ⟨f1, _, f3, f4, _⟩ := ArtifactCb_frame m p
      exact ih (p.ArtifactCb m) q (batchesRegistered_congr p _ ⟨f4, f1, f3⟩ hinv) h

theorem foldl_addEvent_frame (events : List EventEntry) :
    ∀ p : Processor, (events.foldl Processor.addEvent p).robots = p.robots ∧
      (events.foldl Processor.addEvent p).robotMarkers = p.robotMarkers ∧
      (events.foldl Processor.addEvent p).markerId = p.markerId ∧
      (events.foldl Processor.addEvent p).rtf = p.rtf ∧
      (events.foldl Processor.addEvent p).out = p.out := by
  induction events with
  | nil => intro p; exact ⟨rfl, rfl, rfl, rfl, rfl⟩
  | cons e rest ih =>
    intro p
    simp only [List.foldl_cons]
    obtain ⟨h1, h2, h3, h4, h5⟩ := ih (p.addEvent e)
    have hstep : (p.addEvent e).robots = p.robots ∧
        (p.addEvent e).robotMarkers = p.robotMarkers ∧
        (p.addEvent e).markerId = p.markerId ∧ (p.addEvent e).rtf = p.rtf ∧
        (p.addEvent e).out = p.out := by
      unfold Processor.addEvent
      split
      · exact ⟨rfl, rfl, rfl, rfl, rfl⟩
      · split
        · exact ⟨rfl, rfl, rfl, rfl, rfl⟩
        · exact ⟨rfl, rfl, rfl, rfl, rfl⟩
    rw [h1, h2, h3, h4, h5]
    exact hstep

theorem processEvents_frame (p : Processor) (ev : EventsFile) :
    (p.processEvents ev).robots = p.robots ∧
    (p.processEvents ev).robotMarkers = p.robotMarkers ∧
    (p.processEvents ev).markerId = p.markerId ∧
    (p.processEvents ev).rtf = p.rtf := by
  cases ev with
  | Missing => exact ⟨rfl, rfl, rfl, rfl⟩
  | Unparsable => exact ⟨rfl, rfl, rfl, rfl⟩
  | Entries events =>
    obtain ⟨h1, h2, h3, h4, _⟩ := foldl_addEvent_frame events p
    exact ⟨h1, h2, h3, h4⟩

theorem insertEvents_registered (ins : List (Int × Data)) (robots : StdMap String MarkerColor) :
    ∀ m : StdMap Int (List Data),
      (∀ e ∈ m, ∀ poses, Data.RobotPoseData poses ∈ e.2 →
        ∀ k ∈ mapKeys poses, mapFind robots k ≠ none) →
      (∀ e ∈ ins, ∀ poses, e.2 ≠ Data.RobotPoseData poses) →
      ∀ e ∈ insertEvents m ins, ∀ poses, Data.RobotPoseData poses ∈ e.2 →
        ∀ k ∈ mapKeys poses, mapFind robots k ≠ none := by
  induction ins with
  | nil => intro m hm _; exact hm
  | cons e0 rest ih =>
    intro m hm hins
    refine ih _ ?_ (fun e2 he2 => hins e2 (List.mem_cons_of_mem _ he2))
    intro e he poses hp
    rcases mem_pushEvent m e0.1 e0.2 e he _ hp with hx | ⟨e1, he1, hx⟩
    · exact absurd hx.symm (hins e0 (List.mem_cons_self _ _) poses)
    · exact hm e1 he1 poses hx

theorem DisplayArtifacts_frame (p : Processor) :
    p.sameRegistries p.DisplayArtifacts ∧ p.DisplayArtifacts.rtf = p.rtf := by
  unfold Processor.DisplayArtifacts
  generalize p.artifacts = arts
  induction arts generalizing p with
  | nil => exact ⟨sameRegistries_refl p, rfl⟩
  | cons a rest ih =>
    simp only [List.foldl_cons]
    have hstep : p.sameRegistries
        ({ p with artifactColors := (mapIndex p.artifactColors "artifact_location_color").2
          }.SpawnMarker (mapIndex p.artifactColors "artifact_location_color").1 a.2.Pos
            MarkerType.SPHERE ⟨8, 8, 8⟩ (-1) MarkerRot.Identity).1 :=
      SpawnMarker_sameRegistries p _ _ _ _ _ _ _ ⟨rfl, rfl, rfl⟩
    have hrtf : ({ p with artifactColors := (mapIndex p.artifactColors "artifact_location_color").2
          }.SpawnMarker (mapIndex p.artifactColors "artifact_location_color").1 a.2.Pos
            MarkerType.SPHERE ⟨8, 8, 8⟩ (-1) MarkerRot.Identity).1.rtf = p.rtf := by
      simp [Processor.SpawnMarker, Processor.emit]
    obtain ⟨h1, h2⟩ := ih _
    exact ⟨sameRegistries_trans hstep h1, by rw [h2, hrtf]⟩

theorem session_batchesRegistered (cfg : Option Config) (cbs : List Callback)
    (ev : EventsFile) (p : Processor)
    (hcap : (Processor.init cfg).ClearMarkers.capture cbs = some p) :
    (p.processEvents ev).DisplayArtifacts.batchesRegistered := by
  have h0 : (Processor.init cfg).ClearMarkers.batchesRegistered := by
    refine ⟨?_, ?_⟩
    · intro name
      simp [Processor.init, Processor.ClearMarkers, Processor.emit, mapFind]
    · intro e he
      simp [Processor.init, Processor.ClearMarkers, Processor.emit] at he
  have h1 := capture_registered cbs _ p h0 hcap
  have h2 : (p.processEvents ev).batchesRegistered := by
    obtain ⟨f1, f2, _, _⟩ := processEvents_frame p ev
    unfold Processor.batchesRegistered
    rw [f1, f2, processEvents_logData]
    exact ⟨h1.1, insertEvents_registered _ _ _ h1.2 (documentEvents_not_batch _)⟩
  exact batchesRegistered_congr _ _ (DisplayArtifacts_frame _).1 h2

/-- C14: in the processor that the capture, the event loop and
Processor::DisplayArtifacts leave, and in every processor with the same
timeline and registries, rendering an event of the timeline, any report, or
any breadcrumb deployment (whatever its robot name and second) leaves
`logData`, `robots` and `robotMarkers` as they are; so does the whole of
Processor::DisplayPoses; and each of these renders returns. -/
theorem Render_leaves_timeline_and_registries (cfg : Option Config) (cbs : List Callback)
    (ev : EventsFile) (p0 : Processor)
    (hcap : (Processor.init cfg).ClearMarkers.capture cbs = some p0) :
    (∀ (q : Processor) (d : Data),
      (p0.processEvents ev).DisplayArtifacts.sameRegistries q →
      (∀ poses, d = Data.RobotPoseData poses → ∃ e ∈ q.logData, d ∈ e.2) →
      ∃ q2, d.Render q = some q2 ∧ q2.logData = q.logData ∧ q2.robots = q.robots ∧
        q2.robotMarkers = q.robotMarkers) ∧
    (∀ q, (p0.processEvents ev).DisplayArtifacts.DisplayPoses = some q →
      q.logData = (p0.processEvents ev).DisplayArtifacts.logData ∧
      q.robots = (p0.processEvents ev).DisplayArtifacts.robots ∧
      q.robotMarkers = (p0.processEvents ev).DisplayArtifacts.robotMarkers) := by
  have hinv := session_batchesRegistered cfg cbs ev p0 hcap
  have hne : batchesNonempty (p0.processEvents ev).DisplayArtifacts.logData := by
    rw [(DisplayArtifacts_frame _).1.1]
    exact session_batchesNonempty cfg cbs ev p0 hcap
  refine ⟨?_, fun q hq => DisplayPoses_sameRegistries _ q hinv hq⟩
  intro q d hsame hd
  have hinvq := batchesRegistered_congr _ q hsame hinv
  have hneq : batchesNonempty q.logData := by rw [hsame.1]; exact hne
  obtain ⟨q2, hq2, _⟩ := Data_Render_total d q (batchesNonempty_timelineNonempty _ hneq)
    (fun poses hposes => by
      obtain ⟨e, he, hde⟩ := hd poses hposes
      exact (hneq e he poses (by rw [← hposes]; exact hde)).2)
  refine ⟨q2, hq2, ?_⟩
  apply Data_Render_sameRegistries d q q2 _ hq2
  intro poses hposes
  obtain ⟨e, he, hde⟩ := hd poses hposes
  exact batchesRegistered_names q hinvq e he poses (by rw [← hposes]; exact hde)

/-- Witness of C14: rendering a breadcrumb of an unknown robot at second 99
after the sample playback. -/
theorem Render_leaves_timeline_and_registries_witness :
    ∃ p0 q2, (Processor.init none).ClearMarkers.capture samplePlayback = some p0 ∧
      (Data.BreadcrumbData "nobody" 99).Render
        (p0.processEvents EventsFile.Missing).DisplayArtifacts = some q2 ∧
      q2.logData = (p0.processEvents EventsFile.Missing).DisplayArtifacts.logData ∧
      q2.robots = (p0.processEvents EventsFile.Missing).DisplayArtifacts.robots ∧
      q2.robotMarkers =
        (p0.processEvents EventsFile.Missing).DisplayArtifacts.robotMarkers := by
  obtain ⟨p0, hp0⟩ := capture_total samplePlayback (Processor.init none).ClearMarkers
    (by simp [Processor.init, Processor.ClearMarkers, Processor.emit, defaultRobotColors])
  obtain ⟨q2, h1, h2⟩ :=
    (Render_leaves_timeline_and_registries none samplePlayback EventsFile.Missing p0 hp0).1
      _ (Data.BreadcrumbData "nobody" 99) (sameRegistries_refl _)
      (fun poses hposes => by cases hposes)
  exact ⟨p0, q2, hp0, h1, h2⟩

/-! ## The counter during the render phase -/

theorem SpawnMarker_unset_markerId (q : Processor) (c : MarkerColor) (pos : Vector3d)
    (t : MarkerType) (s : Vector3d) (id : Int) (r : MarkerRot) (hid : id < 0) :
    (q.SpawnMarker c pos t s id r).1.markerId = nextMarkerId q.markerId ∧
    (q.SpawnMarker c pos t s id r).1.robotMarkers = q.robotMarkers ∧
    (q.SpawnMarker c pos t s id r).1.logData = q.logData := by
  have hge : ¬ id ≥ 0 := by omega
  simp [Processor.SpawnMarker, Processor.emit, hge, nextMarkerId]

theorem SpawnMarker_set_markerId (q : Processor) (c : MarkerColor) (pos : Vector3d)
    (t : MarkerType) (s : Vector3d) (id : Int) (r : MarkerRot) (hid : 0 ≤ id) :
    (q.SpawnMarker c pos t s id r).1.markerId = q.markerId ∧
    (q.SpawnMarker c pos t s id r).1.robotMarkers = q.robotMarkers ∧
    (q.SpawnMarker c pos t s id r).1.logData = q.logData := by
  have hge : id ≥ 0 := hid
  simp [Processor.SpawnMarker, Processor.emit, hge]

theorem renderRobot_spheres_markerId (name : String) (seq : List Pose3d) :
    ∀ p : Processor, ∃ p1,
      seq.foldl (fun q pose =>
        ({ q with robots := (mapIndex q.robots name).2 }.SpawnMarker
          (mapIndex q.robots name).1 (pose.Pos + Vector3d.mk 0 0 0.5) MarkerType.SPHERE
          ⟨1, 1, 1⟩ (-1) MarkerRot.Identity).1) p = p1 ∧
      p1.markerId = nextMarkerId^[seq.length] p.markerId ∧
      p1.robotMarkers = p.robotMarkers ∧ p1.logData = p.logData := by
  induction seq with
  | nil => intro p; exact ⟨p, rfl, rfl, rfl, rfl⟩
  | cons pose rest ih =>
    intro p
    simp only [List.foldl_cons, List.length_cons]
    obtain ⟨p1, hp1, h1, h2, h3⟩ := ih
      ({ p with robots := (mapIndex p.robots name).2 }.SpawnMarker
          (mapIndex p.robots name).1 (pose.Pos + Vector3d.mk 0 0 0.5) MarkerType.SPHERE
          ⟨1, 1, 1⟩ (-1) MarkerRot.Identity).1
    obtain ⟨s1, s2, s3⟩ := SpawnMarker_unset_markerId
      { p with robots := (mapIndex p.robots name).2 }
      (mapIndex p.robots name).1 (pose.Pos + Vector3d.mk 0 0 0.5) MarkerType.SPHERE
      ⟨1, 1, 1⟩ (-1) MarkerRot.Identity (by decide)
    refine ⟨p1, hp1, ?_, ?_, ?_⟩
    · rw [h1, s1]
      exact (Function.iterate_succ_apply _ _ _).symm
    · rw [h2, s2]
    · rw [h3, s3]

theorem stableIdsNonneg_mapIndex (m : StdMap String Int) (k : String)
    (h : stableIdsNonneg m) :
    0 ≤ (mapIndex m k).1 ∧ stableIdsNonneg (mapIndex m k).2 := by
  unfold mapIndex
  cases hf : mapFind m k with
  | some v => exact ⟨h k v hf, h⟩
  | none =>
    refine ⟨le_refl _, ?_⟩
    intro name id hid
    by_cases hn : name = k
    · rw [hn, mapFind_mapSet_self] at hid
      simp only [Option.some.injEq] at hid
      rw [← hid]
      exact le_refl _
    · rw [mapFind_mapSet_ne _ _ _ _ hn] at hid
      exact h name id hid

theorem renderRobot_markerId (p q : Processor) (name : String) (seq : List Pose3d)
    (hst : stableIdsNonneg p.robotMarkers)
    (h : RobotPoseData.renderRobot p name seq = some q) :
    q.markerId = nextMarkerId^[seq.length] p.markerId ∧
    stableIdsNonneg q.robotMarkers ∧ q.logData = p.logData := by
  unfold RobotPoseData.renderRobot at h
  cases hl : seq.getLast? with
  | none => simp [hl] at h
  | some back =>
    simp only [hl, Option.some.injEq] at h
    obtain ⟨p1, hp1, h1, h2, h3⟩ := renderRobot_spheres_markerId name seq p
    rw [hp1] at h
    have hidx := stableIdsNonneg_mapIndex p1.robotMarkers name (by rw [h2]; exact hst)
    obtain ⟨s1, s2, s3⟩ := SpawnMarker_set_markerId
      { p1 with robots := (mapIndex p1.robots name).2,
                robotMarkers := (mapIndex p1.robotMarkers name).2 }
      (mapIndex p1.robots name).1 (back.Pos + Vector3d.mk 0 0 5) MarkerType.BOX
      ⟨(1.0 + (((back.Pos.Z + 100.0) / 200.0) - 0.5) * 1.5) * 10,
        (1.0 + (((back.Pos.Z + 100.0) / 200.0) - 0.5) * 1.5) * 5, 10⟩
      (mapIndex p1.robotMarkers name).1 (MarkerRot.YawOf back.Rot) hidx.1
    rw [← h]
    refine ⟨?_, ?_, ?_⟩
    · rw [s1]; exact h1
    · rw [s2]; exact hidx.2
    · rw [s3]; exact h3

theorem iterate_nextMarkerId_add (m n : Nat) (x : Int) :
    nextMarkerId^[n] (nextMarkerId^[m] x) = nextMarkerId^[m + n] x := by
  rw [Nat.add_comm, Function.iterate_add_apply]

theorem iterate_nextMarkerId_of_range (n : Nat) :
    ∀ x : Int, -2147483648 ≤ x → x + (n : Int) ≤ 2147483647 →
      nextMarkerId^[n] x = x + (n : Int) := by
  induction n with
  | zero => intro x _ _; simp
  | succ n ih =>
    intro x hlo hhi
    rw [Function.iterate_succ_apply]
    have hstep : nextMarkerId x = x + 1 := by
      unfold nextMarkerId
      exact wrapInt32_of_range _ (by omega) (by push_cast at hhi; omega)
    rw [hstep, ih (x + 1) (by omega) (by push_cast at hhi ⊢; omega)]
    push_cast
    omega

theorem RobotPoseData_Render_markerId (poses : StdMap String (List Pose3d)) :
    ∀ p q : Processor, stableIdsNonneg p.robotMarkers →
      RobotPoseData.Render poses p = some q →
      q.markerId = nextMarkerId^[(poses.map (fun r => r.2.length)).sum] p.markerId ∧
      stableIdsNonneg q.robotMarkers ∧ q.logData = p.logData := by
  induction poses with
  | nil =>
    intro p q hst h
    simp only [RobotPoseData.Render, Option.some.injEq] at h
    rw [← h]
    exact ⟨rfl, hst, rfl⟩
  | cons e rest ih =>
    intro p q hst h
    obtain ⟨name, seq⟩ := e
    simp only [RobotPoseData.Render] at h
    cases h1 : RobotPoseData.renderRobot p name seq with
    | none => simp [h1] at h
    | some p1 =>
      simp only [h1] at h
      obtain ⟨a1, a2, a3⟩ := renderRobot_markerId p p1 name seq hst h1
      obtain ⟨b1, b2, b3⟩ := ih p1 q a2 h
      refine ⟨?_, b2, by rw [b3, a3]⟩
      rw [b1, a1, iterate_nextMarkerId_add]
      simp

theorem Data_Render_markerId (d : Data) (p q : Processor)
    (hst : stableIdsNonneg p.robotMarkers) (h : d.Render p = some q) :
    q.markerId = nextMarkerId^[d.freshMarkers p.logData] p.markerId ∧
    stableIdsNonneg q.robotMarkers ∧ q.logData = p.logData := by
  cases d with
  | RobotPoseData poses => exact RobotPoseData_Render_markerId poses p q hst h
  | ReportData pos score =>
    simp only [Data.Render, Option.some.injEq] at h
    rw [← h]
    unfold ReportData.Render
    by_cases hs : score > 0
    · simp only [hs, if_true]
      obtain ⟨s1, s2, s3⟩ := SpawnMarker_unset_markerId
        { p with artifactColors := (mapIndex p.artifactColors "correct_report_color").2 }
        (mapIndex p.artifactColors "correct_report_color").1 pos MarkerType.SPHERE
        ⟨10, 10, 10⟩ (-1) MarkerRot.Identity (by decide)
      exact ⟨by rw [s1]; rfl, by rw [s2]; exact hst, s3⟩
    · simp only [hs, if_false]
      obtain ⟨s1, s2, s3⟩ := SpawnMarker_unset_markerId
        { p with artifactColors := (mapIndex p.artifactColors "incorrect_report_color").2 }
        (mapIndex p.artifactColors "incorrect_report_color").1 pos MarkerType.BOX
        ⟨4, 4, 4⟩ (-1) MarkerRot.Identity (by decide)
      exact ⟨by rw [s1]; rfl, by rw [s2]; exact hst, s3⟩
  | BreadcrumbData robot sec =>
    simp only [Data.Render] at h
    unfold BreadcrumbData.Render at h
    by_cases hneg : sec < 0
    · simp only [hneg, if_true, Option.some.injEq] at h
      rw [← h]
      simp only [Data.freshMarkers, hneg, if_true, Processor.emit]
      exact ⟨rfl, hst, trivial⟩
    · simp only [hneg, if_false] at h
      cases hsearch : BreadcrumbData.search p.logData robot sec.toNat with
      | none =>
        simp only [hsearch, Option.some.injEq] at h
        rw [← h]
        simp only [Data.freshMarkers, hneg, if_false, hsearch, Option.isSome_none,
          Bool.false_eq_true, Processor.emit]
        exact ⟨rfl, hst, trivial⟩
      | some seq =>
        simp only [hsearch] at h
        cases hl : seq.getLast? with
        | none => simp [hl] at h
        | some pose =>
          simp only [hl, Option.some.injEq] at h
          rw [← h]
          obtain ⟨s1, s2, s3⟩ := SpawnMarker_unset_markerId p p.breadcrumbColor
            (pose.Pos + Vector3d.mk 0 0 0.5) MarkerType.BOX ⟨6, 6, 20⟩ (-1)
            MarkerRot.Identity (by decide)
          simp only [Data.freshMarkers, hneg, if_false, hsearch, Option.isSome_some, if_true]
          exact ⟨by rw [s1]; rfl, by rw [s2]; exact hst, s3⟩

theorem renderBucket_markerId (logData : StdMap Int (List Data)) (bucket : List Data) :
    ∀ p q : Processor, p.logData = logData → stableIdsNonneg p.robotMarkers →
      renderBucket bucket p = some q →
      q.markerId = nextMarkerId^[(bucket.map (Data.freshMarkers logData)).sum] p.markerId ∧
      stableIdsNonneg q.robotMarkers ∧ q.logData = logData := by
  induction bucket with
  | nil =>
    intro p q hlog hst h
    simp only [renderBucket, Option.some.injEq] at h
    rw [← h]
    exact ⟨rfl, hst, hlog⟩
  | cons d rest ih =>
    intro p q hlog hst h
    simp only [renderBucket] at h
    cases h1 : d.Render p with
    | none => simp [h1] at h
    | some p1 =>
      simp only [h1] at h
      obtain ⟨a1, a2, a3⟩ := Data_Render_markerId d p p1 hst h1
      obtain ⟨b1, b2, b3⟩ := ih p1 q (by rw [a3, hlog]) a2 h
      refine ⟨?_, b2, b3⟩
      rw [b1, a1, hlog, iterate_nextMarkerId_add]
      simp

theorem DisplayPosesLoop_markerId (logData : StdMap Int (List Data)) (last : Int)
    (buckets : StdMap Int (List Data)) :
    ∀ p q : Processor, p.logData = logData → stableIdsNonneg p.robotMarkers →
      DisplayPosesLoop last buckets p = some q →
      q.markerId = nextMarkerId^[(buckets.map
        (fun e => (e.2.map (Data.freshMarkers logData)).sum)).sum] p.markerId := by
  induction buckets with
  | nil =>
    intro p q _ _ h
    simp only [DisplayPosesLoop, Option.some.injEq] at h
    rw [← h]
    rfl
  | cons e rest ih =>
    intro p q hlog hst h
    obtain ⟨sec, bucket⟩ := e
    simp only [DisplayPosesLoop] at h
    cases hp1 : renderBucket bucket (p.emit (Output.Progress sec last)) with
    | none => simp [hp1] at h
    | some p1 =>
      simp only [hp1] at h
      obtain ⟨a1, a2, a3⟩ := renderBucket_markerId logData bucket
        (p.emit (Output.Progress sec last)) p1 hlog hst hp1
      have a1b : p1.markerId =
          nextMarkerId^[(bucket.map (Data.freshMarkers logData)).sum] p.markerId := a1
      cases rest with
      | nil =>
        simp only [Option.some.injEq] at h
        rw [← h, a1b]
        simp
      | cons e2 rest2 =>
        obtain ⟨next, bucket2⟩ := e2
        simp only at h
        cases hst2 : sleepTime sec next p1.rtf with
        | none => simp [hst2] at h
        | some t =>
          simp only [hst2] at h
          have hrec := ih (p1.emit (Output.Wait t)) q a3 a2 h
          have hm : (p1.emit (Output.Wait t)).markerId = p1.markerId := rfl
          rw [hrec, hm, a1b, iterate_nextMarkerId_add]
          simp

/-- C15 (as stated, refuted): the walk over a timeline with one report and
one pose batch of one pose starts with the counter at 0 and ends with it
at 2. -/
theorem DisplayPoses_changes_markerId :
    samplePacing.markerId = 0 ∧
    samplePacing.DisplayPoses.map (fun q => q.markerId) = some 2 := by
  constructor <;> decide!

/-- C15 (amended): Processor::DisplayPoses increments `markerId` once for
every marker that it spawns with the id unset (one per pose of every pose
batch, one per report, one per breadcrumb whose robot position is found) and
not otherwise: the moves of the robot boxes by their non-negative stable ids
and the breadcrumbs that are not resolved leave it alone.  Absent overflow
its value after the walk is its value before plus that number. -/
theorem DisplayPoses_advances_markerId (p q : Processor)
    (hst : stableIdsNonneg p.robotMarkers) (h : p.DisplayPoses = some q) :
    q.markerId = nextMarkerId^[timelineFreshMarkers p.logData] p.markerId ∧
    (-2147483648 ≤ p.markerId →
      p.markerId + (timelineFreshMarkers p.logData : Int) ≤ 2147483647 →
      q.markerId = p.markerId + (timelineFreshMarkers p.logData : Int)) ∧
    (timelineFreshMarkers p.logData = 0 → q.markerId = p.markerId) := by
  have hmain : q.markerId = nextMarkerId^[timelineFreshMarkers p.logData] p.markerId :=
    DisplayPosesLoop_markerId p.logData _ p.logData p q rfl hst h
  refine ⟨hmain, ?_, ?_⟩
  · intro hlo hhi
    rw [hmain]
    exact iterate_nextMarkerId_of_range _ _ hlo hhi
  · intro h0
    rw [hmain, h0]
    rfl

/-- Witness of C15: the sample timeline with a report and a batch of one
pose spawns two fresh markers. -/
theorem DisplayPoses_advances_markerId_witness :
    timelineFreshMarkers samplePacing.logData = 2 ∧
    ∃ q, samplePacing.DisplayPoses = some q ∧
      q.markerId = nextMarkerId^[timelineFreshMarkers samplePacing.logData]
        samplePacing.markerId := by
  have hst : stableIdsNonneg samplePacing.robotMarkers := by
    intro name id hid
    simp [samplePacing, Processor.init, mapFind] at hid
  cases hq : samplePacing.DisplayPoses with
  | none =>
    have hbad : samplePacing.DisplayPoses.isSome = true := by decide!
    rw [hq] at hbad
    cases hbad
  | some q =>
    exact ⟨by decide, q, rfl, (DisplayPoses_advances_markerId samplePacing q hst hq).1⟩

/-! ## The palette and the edge costs -/

/-- C18 (failing input): a configuration whose `robot_colors` list is empty
leaves the palette empty, and the registration of the first robot then takes
a remainder modulo zero. -/
theorem empty_robot_colors_leaves_empty_palette :
    (Processor.init (some emptyPaletteConfig)).robotColors = [] ∧
    (Processor.init (some emptyPaletteConfig)).ClearMarkers.capture firstSighting = none ∧
    (Processor.init (some emptyPaletteConfig)).registerRobot "X1" (poseAt 0 0 0) = none := by
  refine ⟨rfl, ?_, rfl⟩
  rfl

/-- C16 (failing input): with the finals staging area at the first position
and a connected bend after it the printed cost is 3 and there is no base
station comment; with the two tiles in the other order the cost is 1. -/
theorem staging_area_first_costs_three :
    printEdges (fun _ _ => true) sampleConnectionType (fun _ => false) ""
      [stagingTile 0, bendTile 1] = [DotLine.Edge 0 1 3] ∧
    printEdges (fun _ _ => true) sampleConnectionType (fun _ => false) ""
      [bendTile 0, stagingTile 1] =
        [DotLine.BaseStationEdgeComment, DotLine.Edge 0 1 1] ∧
    printVertices [stagingTile 0, bendTile 1] =
      [DotLine.BaseStationVertexComment, DotLine.Vertex 0 "base_station" "BaseStation",
        DotLine.Vertex 1 "Urban Bend Right" "tile_1"] := by
  refine ⟨?_, ?_, ?_⟩ <;> decide

/-! ## Stable marker ids -/

theorem incrementCount_append (a b : List Output) :
    incrementCount (a ++ b) = incrementCount a + incrementCount b := by
  induction a with
  | nil => simp [incrementCount]
  | cons o rest ih =>
    cases o with
    | Request m =>
      show incrementCount (rest ++ b) + _ = incrementCount rest + _ + incrementCount b
      rw [ih]
      omega
    | RobotNr nr name c =>
      show incrementCount (rest ++ b) + 1 = incrementCount rest + 1 + incrementCount b
      rw [ih]
      omega
    | Progress cur last => exact ih
    | Wait t => exact ih
    | BreadcrumbNotFound sec => exact ih
    | Parsed a b => exact ih
    | MissingEvents => exact ih
    | EventsError => exact ih

theorem incrementCount_append_request (out : List Output) (m : Marker) :
    incrementCount (out ++ [Output.Request m]) =
      incrementCount out + (if m.isPlain then 1 else 0) := by
  rw [incrementCount_append]
  simp [incrementCount]

theorem otherFreshIds_append_request (out : List Output) (m : Marker) :
    otherFreshIds (out ++ [Output.Request m]) =
      otherFreshIds out ++ (if m.isPlain then [m.id] else []) := by
  unfold otherFreshIds
  rw [List.foldl_append]
  simp only [List.foldl_cons, List.foldl_nil, readStep]
  by_cases hm : m.isPlain = true
  · simp [flushPending, hm]
  · simp [flushPending, hm]

theorem otherFreshIds_append_registration (out : List Output) (m : Marker) (nr : Nat)
    (name : String) (c : Color) :
    otherFreshIds (out ++ [Output.Request m, Output.RobotNr nr name c]) =
      otherFreshIds out := by
  unfold otherFreshIds
  rw [List.foldl_append]
  simp [readStep, flushPending]

theorem otherFreshIds_append_other (out : List Output) (o : Output)
    (h1 : ∀ m, o ≠ Output.Request m) (h2 : ∀ nr name c, o ≠ Output.RobotNr nr name c) :
    otherFreshIds (out ++ [o]) = otherFreshIds out := by
  unfold otherFreshIds
  rw [List.foldl_append]
  cases o with
  | Request m => exact absurd rfl (h1 m)
  | RobotNr nr name c => exact absurd rfl (h2 nr name c)
  | Progress cur last => simp [readStep, flushPending]
  | Wait t => simp [readStep, flushPending]
  | BreadcrumbNotFound sec => simp [readStep, flushPending]
  | Parsed a b => simp [readStep, flushPending]
  | MissingEvents => simp [readStep, flushPending]
  | EventsError => simp [readStep, flushPending]

theorem registrationIds_append_request (out : List Output) (m : Marker) :
    registrationIds (out ++ [Output.Request m]) = registrationIds out := by
  unfold registrationIds
  rw [List.foldl_append]
  simp [registrationStep]

theorem registrationIds_append_registration (out : List Output) (m : Marker) (nr : Nat)
    (name : String) (c : Color) :
    registrationIds (out ++ [Output.Request m, Output.RobotNr nr name c]) =
      registrationIds out ++ [(name, m.id)] := by
  unfold registrationIds
  rw [List.foldl_append]
  simp [registrationStep]

theorem registrationIds_append_other (out : List Output) (o : Output)
    (h2 : ∀ nr name c, o ≠ Output.RobotNr nr name c) :
    registrationIds (out ++ [o]) = registrationIds out := by
  unfold registrationIds
  rw [List.foldl_append]
  cases o with
  | RobotNr nr name c => exact absurd rfl (h2 nr name c)
  | Request m => simp [registrationStep]
  | Progress cur last => simp [registrationStep]
  | Wait t => simp [registrationStep]
  | BreadcrumbNotFound sec => simp [registrationStep]
  | Parsed a b => simp [registrationStep]
  | MissingEvents => simp [registrationStep]
  | EventsError => simp [registrationStep]

theorem idsSoundIf_congr (p q : Processor) (h1 : q.out = p.out)
    (h2 : q.markerId = p.markerId) (h3 : q.robotMarkers = p.robotMarkers)
    (h : p.idsSoundIf) : q.idsSoundIf := by
  unfold Processor.idsSoundIf Processor.idsSound
  rw [h1, h2, h3]
  exact h

theorem idsSoundIf_emit (p : Processor) (o : Output)
    (h1 : ∀ m, o ≠ Output.Request m) (h2 : ∀ nr name c, o ≠ Output.RobotNr nr name c)
    (h : p.idsSoundIf) : (p.emit o).idsSoundIf := by
  intro hb
  have hrc : incrementCount (p.out ++ [o]) = incrementCount p.out := by
    rw [incrementCount_append]
    cases o with
    | Request m => exact absurd rfl (h1 m)
    | RobotNr nr name c => exact absurd rfl (h2 nr name c)
    | Progress cur last => rfl
    | Wait t => rfl
    | BreadcrumbNotFound sec => rfl
    | Parsed a b => rfl
    | MissingEvents => rfl
    | EventsError => rfl
  have hb0 : noOverflow p.out := by
    unfold noOverflow at hb ⊢
    simp only [Processor.emit] at hb
    rw [hrc] at hb
    exact hb
  obtain ⟨a1, a2, a3, a4, a5, a6⟩ := h hb0
  refine ⟨a1, ?_, a3, a4, ?_, ?_⟩
  · simp only [Processor.emit]
    rw [hrc]
    exact a2
  · simp only [Processor.emit]
    rw [otherFreshIds_append_other p.out o h1 h2]
    exact a5
  · simp only [Processor.emit]
    rw [registrationIds_append_other p.out o h2]
    exact a6

theorem idsSoundIf_spawn_fresh (p q : Processor) (c : MarkerColor) (pos : Vector3d)
    (t : MarkerType) (s : Vector3d) (id : Int) (hid : id < 0)
    (h1 : q.out = p.out) (h2 : q.markerId = p.markerId)
    (h3 : q.robotMarkers = p.robotMarkers) (h : p.idsSoundIf) :
    (q.SpawnMarker c pos t s id MarkerRot.Identity).1.idsSoundIf := by
  have hge : ¬ id ≥ 0 := by omega
  intro hb
  simp only [Processor.SpawnMarker, hge, if_false, Processor.emit] at hb ⊢
  have hrc : incrementCount (q.out ++ [Output.Request
      { ns := "default", id := q.markerId, action := MarkerAction.ADD_MODIFY, type := t,
        material := c, scale := s, pos := pos, rot := MarkerRot.Identity }]) =
      incrementCount p.out + 1 := by
    rw [incrementCount_append_request, h1]
    simp [Marker.isPlain]
  unfold noOverflow at hb
  rw [hrc] at hb
  push_cast at hb
  obtain ⟨a1, a2, a3, a4, a5, a6⟩ := h (by unfold noOverflow; omega)
  have hw : wrapInt32 (q.markerId + 1) = p.markerId + 1 := by
    rw [h2]
    exact wrapInt32_of_range _ (by omega) (by omega)
  refine ⟨?_, ?_, ?_, ?_, ?_, ?_⟩
  · show 0 ≤ wrapInt32 (q.markerId + 1)
    rw [hw]; omega
  · show wrapInt32 (q.markerId + 1) = (incrementCount (q.out ++ [_]) : Int)
    rw [hw, hrc]
    push_cast
    omega
  · intro name sid hs
    show 1 ≤ sid ∧ sid < wrapInt32 (q.markerId + 1)
    rw [hw]
    have := a3 name sid (by rw [← h3]; exact hs)
    omega
  · intro n1 n2 sid hs1 hs2
    exact a4 n1 n2 sid (by rw [← h3]; exact hs1) (by rw [← h3]; exact hs2)
  · intro x hx
    show x < wrapInt32 (q.markerId + 1) ∧ _
    rw [hw]
    have hx2 : x ∈ otherFreshIds (q.out ++ [Output.Request
        { ns := "default", id := q.markerId, action := MarkerAction.ADD_MODIFY, type := t,
          material := c, scale := s, pos := pos, rot := MarkerRot.Identity }]) := hx
    rw [otherFreshIds_append_request, h1, h2] at hx2
    simp only [Marker.isPlain, and_self, decide_True, if_true, List.mem_append,
      List.mem_singleton] at hx2
    rcases hx2 with hx2 | hx2
    · obtain ⟨b1, b2⟩ := a5 x hx2
      exact ⟨by omega, fun name sid hs => b2 name sid (by rw [← h3]; exact hs)⟩
    · refine ⟨by omega, ?_⟩
      intro name sid hs
      have := a3 name sid (by rw [← h3]; exact hs)
      omega
  · intro e he
    have he2 : e ∈ registrationIds (q.out ++ [Output.Request
        { ns := "default", id := q.markerId, action := MarkerAction.ADD_MODIFY, type := t,
          material := c, scale := s, pos := pos, rot := MarkerRot.Identity }]) := he
    rw [registrationIds_append_request, h1] at he2
    show mapFind q.robotMarkers e.1 = some e.2
    rw [h3]
    exact a6 e he2

theorem idsSoundIf_spawn_box (p q : Processor) (c : MarkerColor) (pos : Vector3d)
    (t : MarkerType) (s : Vector3d) (id : Int) (rot : Quaterniond) (name : String)
    (hname : mapFind p.robotMarkers name = some id)
    (h1 : q.out = p.out) (h2 : q.markerId = p.markerId)
    (h3 : q.robotMarkers = p.robotMarkers) (h : p.idsSoundIf) :
    (q.SpawnMarker c pos t s id (MarkerRot.YawOf rot)).1.idsSoundIf := by
  intro hb
  have hrc : incrementCount (q.SpawnMarker c pos t s id (MarkerRot.YawOf rot)).1.out
      = incrementCount p.out := by
    by_cases hge : id ≥ 0
    · simp [Processor.SpawnMarker, hge, Processor.emit, incrementCount_append_request,
        Marker.isPlain, h1]
    · simp [Processor.SpawnMarker, hge, Processor.emit, incrementCount_append_request,
        Marker.isPlain, h1]
  unfold noOverflow at hb
  rw [hrc] at hb
  obtain ⟨a1, a2, a3, a4, a5, a6⟩ := h (by unfold noOverflow; omega)
  have hid := a3 name id hname
  have hge : id ≥ 0 := by omega
  simp only [Processor.SpawnMarker, hge, if_true, Processor.emit]
  refine ⟨by rw [h2]; exact a1, ?_, ?_, ?_, ?_, ?_⟩
  · show q.markerId = (incrementCount (q.out ++ [Output.Request
        { ns := "default", id := id, action := MarkerAction.ADD_MODIFY, type := t,
          material := c, scale := s, pos := pos, rot := MarkerRot.YawOf rot }]) : Int)
    rw [incrementCount_append_request, h1, h2, a2]
    simp [Marker.isPlain]
  · intro n sid hs
    show 1 ≤ sid ∧ sid < q.markerId
    rw [h2]
    exact a3 n sid (by rw [← h3]; exact hs)
  · intro n1 n2 sid hs1 hs2
    exact a4 n1 n2 sid (by rw [← h3]; exact hs1) (by rw [← h3]; exact hs2)
  · intro x hx
    show x < q.markerId ∧ _
    have hx2 : x ∈ otherFreshIds (q.out ++ [Output.Request
        { ns := "default", id := id, action := MarkerAction.ADD_MODIFY, type := t,
          material := c, scale := s, pos := pos, rot := MarkerRot.YawOf rot }]) := hx
    rw [otherFreshIds_append_request, h1] at hx2
    simp only [Marker.isPlain, reduceCtorEq, and_false, decide_False, Bool.false_eq_true,
      if_false, List.append_nil] at hx2
    obtain ⟨b1, b2⟩ := a5 x hx2
    exact ⟨by rw [h2]; exact b1, fun n sid hs => b2 n sid (by rw [← h3]; exact hs)⟩
  · intro e he
    have he2 : e ∈ registrationIds (q.out ++ [Output.Request
        { ns := "default", id := id, action := MarkerAction.ADD_MODIFY, type := t,
          material := c, scale := s, pos := pos, rot := MarkerRot.YawOf rot }]) := he
    rw [registrationIds_append_request, h1] at he2
    show mapFind q.robotMarkers e.1 = some e.2
    rw [h3]
    exact a6 e he2

theorem idsSoundIf_register (p p1 : Processor) (name : String) (pose : Pose3d)
    (h : p.idsSoundIf) (habs : mapFind p.robotMarkers name = none)
    (hreg : p.registerRobot name pose = some p1) : p1.idsSoundIf := by
  obtain ⟨c, _, hp1⟩ := registerRobot_eq p p1 name pose hreg
  intro hb
  have hout : p1.out = p.out ++ [Output.Request
      { ns := "default", id := wrapInt32 (p.markerId + 1),
        action := MarkerAction.ADD_MODIFY, type := MarkerType.SPHERE,
        material := c, scale := Vector3d.mk 10 10 10, pos := Vector3d.Zero,
        rot := MarkerRot.Identity },
      Output.RobotNr (mapSet p.robots name c).length name c.ambient] := by rw [hp1]
  have hmid : p1.markerId = wrapInt32 (wrapInt32 (p.markerId + 1) + 1) := by rw [hp1]
  have hmark : p1.robotMarkers = mapSet p.robotMarkers name (wrapInt32 (p.markerId + 1)) := by
    rw [hp1]
  have hrc : incrementCount p1.out = incrementCount p.out + 2 := by
    rw [hout, incrementCount_append]
    simp [incrementCount, Marker.isPlain]
  unfold noOverflow at hb
  rw [hrc] at hb
  push_cast at hb
  obtain ⟨a1, a2, a3, a4, a5, a6⟩ := h (by unfold noOverflow; omega)
  have hw1 : wrapInt32 (p.markerId + 1) = p.markerId + 1 :=
    wrapInt32_of_range _ (by omega) (by omega)
  have hw2 : wrapInt32 (wrapInt32 (p.markerId + 1) + 1) = p.markerId + 2 := by
    rw [hw1, wrapInt32_of_range _ (by omega) (by omega)]
    omega
  have hfind : ∀ n sid, mapFind p1.robotMarkers n = some sid →
      (n = name ∧ sid = p.markerId + 1) ∨ (n ≠ name ∧ mapFind p.robotMarkers n = some sid) := by
    intro n sid hs
    rw [hmark, hw1] at hs
    by_cases hn : n = name
    · rw [hn, mapFind_mapSet_self] at hs
      simp only [Option.some.injEq] at hs
      exact Or.inl ⟨hn, hs.symm⟩
    · rw [mapFind_mapSet_ne _ _ _ _ hn] at hs
      exact Or.inr ⟨hn, hs⟩
  refine ⟨by rw [hmid, hw2]; omega, by rw [hmid, hw2, hrc]; push_cast; omega, ?_, ?_, ?_, ?_⟩
  · intro n sid hs
    rw [hmid, hw2]
    rcases hfind n sid hs with ⟨_, h2⟩ | ⟨_, h2⟩
    · omega
    · have := a3 n sid h2
      omega
  · intro n1 n2 sid hs1 hs2
    rcases hfind n1 sid hs1 with ⟨e1, v1⟩ | ⟨e1, v1⟩
    · rcases hfind n2 sid hs2 with ⟨e2, _⟩ | ⟨_, v2⟩
      · rw [e1, e2]
      · have := a3 n2 sid v2
        omega
    · rcases hfind n2 sid hs2 with ⟨_, v2⟩ | ⟨_, v2⟩
      · have := a3 n1 sid v1
        omega
      · exact a4 n1 n2 sid v1 v2
  · intro x hx
    rw [hout, otherFreshIds_append_registration] at hx
    obtain ⟨b1, b2⟩ := a5 x hx
    rw [hmid, hw2]
    refine ⟨by omega, ?_⟩
    intro n sid hs
    rcases hfind n sid hs with ⟨_, v⟩ | ⟨_, v⟩
    · omega
    · exact b2 n sid v
  · intro e he
    rw [hout, registrationIds_append_registration] at he
    rw [hmark]
    rcases List.mem_append.mp he with he1 | he1
    · have hold := a6 e he1
      have hne : e.1 ≠ name := by
        intro heq
        rw [heq, habs] at hold
        cases hold
      rw [mapFind_mapSet_ne _ _ _ _ hne]
      exact hold
    · simp only [List.mem_singleton] at he1
      rw [he1, mapFind_mapSet_self]

theorem CbPose_idsSound (p p2 : Processor) (data data2 : StdMap String (List Pose3d))
    (pm : PoseMsg) (hinv : p.idsSoundIf)
    (hsync : ∀ x, mapFind p.robots x = none ↔ mapFind p.robotMarkers x = none)
    (h : Processor.CbPose (p, data) pm = some (p2, data2)) :
    p2.idsSoundIf ∧ ∀ x, mapFind p2.robots x = none ↔ mapFind p2.robotMarkers x = none := by
  by_cases hex : isExcluded pm.name = true
  · rw [CbPose_excluded (p, data) pm hex] at h
    simp only [Option.some.injEq, Prod.mk.injEq] at h
    rw [← h.1]
    exact ⟨hinv, hsync⟩
  · have hne : isExcluded pm.name = false := by simpa using hex
    obtain ⟨p1, hreg, hout⟩ := CbPose_cases p p2 data data2 pm hne h
    have hinv1 : p1.idsSoundIf ∧
        ∀ x, mapFind p1.robots x = none ↔ mapFind p1.robotMarkers x = none := by
      rcases hreg with ⟨habs, hr⟩ | ⟨_, hr⟩
      · exact ⟨idsSoundIf_register p p1 pm.name pm.pose hinv ((hsync pm.name).mp habs) hr,
          (registerRobot_registered p p1 pm.name pm.pose hsync hr).1⟩
      · rw [hr]; exact ⟨hinv, hsync⟩
    rcases hout with ⟨_, hp2, _⟩ | ⟨_, hp2, _⟩
    · rw [hp2]
      exact ⟨idsSoundIf_congr p1 _ rfl rfl rfl hinv1.1, hinv1.2⟩
    · rw [hp2]
      exact ⟨idsSoundIf_congr p1 _ rfl rfl rfl hinv1.1, hinv1.2⟩

theorem CbLoop_idsSound (poses : List PoseMsg) :
    ∀ (p p2 : Processor) (data data2 : StdMap String (List Pose3d)),
      p.idsSoundIf →
      (∀ x, mapFind p.robots x = none ↔ mapFind p.robotMarkers x = none) →
      Processor.CbLoop (p, data) poses = some (p2, data2) →
      p2.idsSoundIf ∧
        ∀ x, mapFind p2.robots x = none ↔ mapFind p2.robotMarkers x = none := by
  induction poses with
  | nil =>
    intro p p2 data data2 hinv hsync h
    simp only [Processor.CbLoop, Option.some.injEq, Prod.mk.injEq] at h
    rw [← h.1]
    exact ⟨hinv, hsync⟩
  | cons pm rest ih =>
    intro p p2 data data2 hinv hsync h
    simp only [Processor.CbLoop] at h
    cases h1 : Processor.CbPose (p, data) pm with
    | none => simp [h1] at h
    | some st1 =>
      obtain ⟨p1, data1⟩ := st1
      simp only [h1] at h
      obtain ⟨hinv1, hsync1⟩ := CbPose_idsSound p p1 data data1 pm hinv hsync h1
      exact ih p1 p2 data1 data2 hinv1 hsync1 h

theorem Cb_idsSound (p q : Processor) (msg : Pose_V) (hinv : p.idsSoundIf)
    (hsync : ∀ x, mapFind p.robots x = none ↔ mapFind p.robotMarkers x = none)
    (h : p.Cb msg = some q) :
    q.idsSoundIf ∧ ∀ x, mapFind q.robots x = none ↔ mapFind q.robotMarkers x = none := by
  unfold Processor.Cb at h
  cases hl : Processor.CbLoop (p, []) msg.pose with
  | none => simp [hl] at h
  | some st =>
    obtain ⟨p1, data⟩ := st
    simp only [hl] at h
    obtain ⟨hinv1, hsync1⟩ := CbLoop_idsSound msg.pose p p1 [] data hinv hsync hl
    by_cases hd : data ≠ []
    · simp only [hd, if_true, ne_eq, not_false_eq_true, Option.some.injEq] at h
      rw [← h]
      exact ⟨idsSoundIf_congr p1 _ rfl rfl rfl hinv1, hsync1⟩
    · simp only [hd, if_false, Option.some.injEq] at h
      rw [← h]
      exact ⟨hinv1, hsync1⟩

theorem capture_idsSound (cbs : List Callback) :
    ∀ p q : Processor, p.idsSoundIf →
      (∀ x, mapFind p.robots x = none ↔ mapFind p.robotMarkers x = none) →
      p.capture cbs = some q → q.idsSoundIf := by
  induction cbs with
  | nil =>
    intro p q hinv _ h
    simp only [Processor.capture, Option.some.injEq] at h
    rw [← h]; exact hinv
  | cons cb rest ih =>
    intro p q hinv hsync h
    cases cb with
    | Pose m =>
      simp only [Processor.capture] at h
      cases h1 : p.Cb m with
      | none => simp [h1] at h
      | some p1 =>
        simp only [h1] at h
        obtain ⟨hinv1, hsync1⟩ := Cb_idsSound p p1 m hinv hsync h1
        exact ih p1 q hinv1 hsync1 h
    | Artifact m =>
      simp only [Processor.capture] at h
      obtain ⟨f1, _, f3, _, _, f6, f7⟩ := ArtifactCb_frame m p
      refine ih (p.ArtifactCb m) q (idsSoundIf_congr p _ f7 f6 f3 hinv) ?_ h
      rw [f1, f3]
      exact hsync

theorem processEvents_idsSound (p : Processor) (ev : EventsFile) (hinv : p.idsSoundIf) :
    (p.processEvents ev).idsSoundIf := by
  have hadd : ∀ events : List EventEntry, (p.addEvents events).idsSoundIf := by
    intro events
    unfold Processor.addEvents
    obtain ⟨_, f2, f3, _, f5⟩ := foldl_addEvent_frame events p
    exact idsSoundIf_emit _ _ (by intro m hm; cases hm) (by intro a b c hm; cases hm)
      (idsSoundIf_congr p _ f5 f3 f2 hinv)
  cases ev with
  | Missing =>
    exact idsSoundIf_emit p _ (by intro m hm; cases hm) (by intro a b c hm; cases hm) hinv
  | Unparsable =>
    have h1 : (p.emit Output.EventsError).idsSoundIf :=
      idsSoundIf_emit p _ (by intro m hm; cases hm) (by intro a b c hm; cases hm) hinv
    unfold Processor.processEvents Processor.addEvents
    exact idsSoundIf_emit _ _ (by intro m hm; cases hm) (by intro a b c hm; cases hm) h1
  | Entries events => exact hadd events

theorem DisplayArtifacts_idsSound (p : Processor) (hinv : p.idsSoundIf) :
    p.DisplayArtifacts.idsSoundIf := by
  unfold Processor.DisplayArtifacts
  generalize p.artifacts = arts
  induction arts generalizing p with
  | nil => exact hinv
  | cons a rest ih =>
    simp only [List.foldl_cons]
    exact ih _ (idsSoundIf_spawn_fresh p _ _ _ _ _ (-1) (by decide) rfl rfl rfl hinv)

theorem renderRobot_spheres_idsSound (name : String) (seq : List Pose3d) :
    ∀ p : Processor, p.idsSoundIf →
      (seq.foldl (fun q pose =>
        ({ q with robots := (mapIndex q.robots name).2 }.SpawnMarker
          (mapIndex q.robots name).1 (pose.Pos + Vector3d.mk 0 0 0.5) MarkerType.SPHERE
          ⟨1, 1, 1⟩ (-1) MarkerRot.Identity).1) p).idsSoundIf := by
  induction seq with
  | nil => intro p hinv; exact hinv
  | cons pose rest ih =>
    intro p hinv
    simp only [List.foldl_cons]
    exact ih _ (idsSoundIf_spawn_fresh p _ _ _ _ _ (-1) (by decide) rfl rfl rfl hinv)

theorem renderRobot_idsSound (p q : Processor) (name : String) (seq : List Pose3d)
    (hinv : p.idsSoundIf) (hmark : mapFind p.robotMarkers name ≠ none)
    (h : RobotPoseData.renderRobot p name seq = some q) : q.idsSoundIf := by
  unfold RobotPoseData.renderRobot at h
  cases hl : seq.getLast? with
  | none => simp [hl] at h
  | some back =>
    simp only [hl, Option.some.injEq] at h
    have hsph := renderRobot_spheres_idsSound name seq p hinv
    obtain ⟨p1, hp1, _, h2, _⟩ := renderRobot_spheres_markerId name seq p
    rw [hp1] at h hsph
    have hmark1 : mapFind p1.robotMarkers name ≠ none := by rw [h2]; exact hmark
    cases hf : mapFind p1.robotMarkers name with
    | none => exact absurd hf hmark1
    | some sid =>
      have hidx : mapIndex p1.robotMarkers name = (sid, p1.robotMarkers) :=
        mapIndex_of_present _ _ _ hf
      rw [hidx] at h
      rw [← h]
      exact idsSoundIf_spawn_box p1 _ _ _ _ _ sid back.Rot name hf rfl rfl rfl hsph

theorem RobotPoseData_Render_idsSound (poses : StdMap String (List Pose3d)) :
    ∀ p q : Processor, p.idsSoundIf →
      (∀ k ∈ mapKeys poses, mapFind p.robots k ≠ none ∧ mapFind p.robotMarkers k ≠ none) →
      RobotPoseData.Render poses p = some q → q.idsSoundIf := by
  induction poses with
  | nil =>
    intro p q hinv _ h
    simp only [RobotPoseData.Render, Option.some.injEq] at h
    rw [← h]
    exact hinv
  | cons e rest ih =>
    intro p q hinv hreg h
    obtain ⟨name, seq⟩ := e
    simp only [RobotPoseData.Render] at h
    cases h1 : RobotPoseData.renderRobot p name seq with
    | none => simp [h1] at h
    | some p1 =>
      simp only [h1] at h
      have hname := hreg name (by simp [mapKeys])
      have hs1 := renderRobot_sameRegistries p p1 name seq hname.1 hname.2 h1
      refine ih p1 q (renderRobot_idsSound p p1 name seq hinv hname.2 h1) ?_ h
      intro k hk
      rw [hs1.2.1, hs1.2.2]
      exact hreg k (by simp only [mapKeys, List.map_cons, List.mem_cons]; exact Or.inr hk)

theorem Data_Render_idsSound (d : Data) (p q : Processor) (hinv : p.idsSoundIf)
    (hd : ∀ poses, d = Data.RobotPoseData poses →
      ∀ k ∈ mapKeys poses, mapFind p.robots k ≠ none ∧ mapFind p.robotMarkers k ≠ none)
    (h : d.Render p = some q) : q.idsSoundIf := by
  cases d with
  | RobotPoseData poses => exact RobotPoseData_Render_idsSound poses p q hinv (hd poses rfl) h
  | ReportData pos score =>
    simp only [Data.Render, Option.some.injEq] at h
    rw [← h]
    unfold ReportData.Render
    by_cases hs : score > 0
    · simp only [hs, if_true]
      exact idsSoundIf_spawn_fresh p _ _ _ _ _ (-1) (by decide) rfl rfl rfl hinv
    · simp only [hs, if_false]
      exact idsSoundIf_spawn_fresh p _ _ _ _ _ (-1) (by decide) rfl rfl rfl hinv
  | BreadcrumbData robot sec =>
    have hemit : (p.emit (Output.BreadcrumbNotFound sec)).idsSoundIf :=
      idsSoundIf_emit p _ (by intro m hm; cases hm) (by intro a b c hm; cases hm) hinv
    simp only [Data.Render] at h
    unfold BreadcrumbData.Render at h
    by_cases hneg : sec < 0
    · simp only [hneg, if_true, Option.some.injEq] at h
      rw [← h]
      exact hemit
    · simp only [hneg, if_false] at h
      cases hsearch : BreadcrumbData.search p.logData robot sec.toNat with
      | none =>
        simp only [hsearch, Option.some.injEq] at h
        rw [← h]
        exact hemit
      | some seq =>
        simp only [hsearch] at h
        cases hl : seq.getLast? with
        | none => simp [hl] at h
        | some pose =>
          simp only [hl, Option.some.injEq] at h
          rw [← h]
          exact idsSoundIf_spawn_fresh p p _ _ _ _ (-1) (by decide) rfl rfl rfl hinv

theorem renderBucket_idsSound (bucket : List Data) :
    ∀ p q : Processor, p.idsSoundIf → p.batchesRegistered →
      (∀ poses, Data.RobotPoseData poses ∈ bucket → ∃ e ∈ p.logData,
        Data.RobotPoseData poses ∈ e.2) →
      renderBucket bucket p = some q → q.idsSoundIf := by
  induction bucket with
  | nil =>
    intro p q hinv _ _ h
    simp only [renderBucket, Option.some.injEq] at h
    rw [← h]
    exact hinv
  | cons d rest ih =>
    intro p q hinv hreg hb h
    simp only [renderBucket] at h
    cases h1 : d.Render p with
    | none => simp [h1] at h
    | some p1 =>
      simp only [h1] at h
      have hnames : ∀ poses, d = Data.RobotPoseData poses →
          ∀ k ∈ mapKeys poses, mapFind p.robots k ≠ none ∧ mapFind p.robotMarkers k ≠ none := by
        intro poses hposes
        obtain ⟨e, he, hpe⟩ := hb poses (by rw [hposes]; exact List.mem_cons_self _ _)
        exact batchesRegistered_names p hreg e he poses hpe
      have hs1 := Data_Render_sameRegistries d p p1 hnames h1
      refine ih p1 q (Data_Render_idsSound d p p1 hinv hnames h1)
        (batchesRegistered_congr p p1 hs1 hreg) ?_ h
      intro poses hposes
      rw [hs1.1]
      exact hb poses (List.mem_cons_of_mem _ hposes)

theorem DisplayPosesLoop_idsSound (last : Int) (buckets : StdMap Int (List Data)) :
    ∀ p q : Processor, p.idsSoundIf → p.batchesRegistered →
      (∀ e ∈ buckets, e ∈ p.logData) →
      DisplayPosesLoop last buckets p = some q → q.idsSoundIf := by
  induction buckets with
  | nil =>
    intro p q hinv _ _ h
    simp only [DisplayPosesLoop, Option.some.injEq] at h
    rw [← h]
    exact hinv
  | cons e rest ih =>
    intro p q hinv hreg hsub h
    obtain ⟨sec, bucket⟩ := e
    simp only [DisplayPosesLoop] at h
    cases hp1 : renderBucket bucket (p.emit (Output.Progress sec last)) with
    | none => simp [hp1] at h
    | some p1 =>
      simp only [hp1] at h
      have hemit : p.sameRegistries (p.emit (Output.Progress sec last)) := ⟨rfl, rfl, rfl⟩
      have hreg0 := batchesRegistered_congr p _ hemit hreg
      have hinb : ∀ poses, Data.RobotPoseData poses ∈ bucket →
          ∃ e ∈ (p.emit (Output.Progress sec last)).logData,
            Data.RobotPoseData poses ∈ e.2 :=
        fun poses hposes => ⟨(sec, bucket), hsub _ (List.mem_cons_self _ _), hposes⟩
      have hinv1 : p1.idsSoundIf :=
        renderBucket_idsSound bucket _ p1
          (idsSoundIf_emit p _ (by intro m hm; cases hm) (by intro a b c hm; cases hm) hinv)
          hreg0 hinb hp1
      have hs1 : p.sameRegistries p1 :=
        sameRegistries_trans hemit (renderBucket_sameRegistries bucket _ p1 hreg0 hinb hp1)
      cases rest with
      | nil =>
        simp only [Option.some.injEq] at h
        rw [← h]
        exact hinv1
      | cons e2 rest2 =>
        obtain ⟨next, bucket2⟩ := e2
        simp only at h
        cases hst : sleepTime sec next p1.rtf with
        | none => simp [hst] at h
        | some t =>
          simp only [hst] at h
          have hwait : p.sameRegistries (p1.emit (Output.Wait t)) :=
            sameRegistries_trans hs1 ⟨rfl, rfl, rfl⟩
          refine ih _ q
            (idsSoundIf_emit p1 _ (by intro m hm; cases hm) (by intro a b c hm; cases hm)
              hinv1)
            (batchesRegistered_congr p _ hwait hreg) ?_ h
          intro e3 he3
          rw [hwait.1]
          exact hsub e3 (List.mem_cons_of_mem _ he3)

theorem init_idsSound (cfg : Option Config) : (Processor.init cfg).ClearMarkers.idsSoundIf := by
  intro _
  refine ⟨le_refl _, ?_, ?_, ?_, ?_, ?_⟩
  · simp [Processor.init, Processor.ClearMarkers, Processor.emit, incrementCount,
      Marker.isPlain]
  · intro name sid hs
    simp [Processor.init, Processor.ClearMarkers, Processor.emit, mapFind] at hs
  · intro n1 n2 sid hs
    simp [Processor.init, Processor.ClearMarkers, Processor.emit, mapFind] at hs
  · intro x hx
    simp [Processor.init, Processor.ClearMarkers, Processor.emit, otherFreshIds, readStep,
      flushPending, Marker.isPlain] at hx
  · intro e he
    simp [Processor.init, Processor.ClearMarkers, Processor.emit, registrationIds,
      registrationStep] at he

/-- C19: in every session that runs to its end without an overflow of the
counter (the trace shows at most 2^31 - 1 increments, and the counter equals
that number), the stable ids in `robotMarkers` are pairwise distinct across
robots, the sphere spawned at a registration carries the stable id of its
robot, no other plain marker of the trace (path sphere, report, breadcrumb,
artifact location) carries a stable id, and the registration sphere of a
robot does not carry the stable id of another robot. -/
theorem stable_ids_never_reused (s : Session) (q : Processor)
    (hrun : Processor.construct s = some q) (hno : noOverflow q.out) :
    q.markerId = (incrementCount q.out : Int) ∧
    (∀ n1 n2 sid, mapFind q.robotMarkers n1 = some sid →
      mapFind q.robotMarkers n2 = some sid → n1 = n2) ∧
    (∀ e ∈ registrationIds q.out, mapFind q.robotMarkers e.1 = some e.2) ∧
    (∀ id ∈ otherFreshIds q.out, ∀ name sid,
      mapFind q.robotMarkers name = some sid → id ≠ sid) ∧
    (∀ e ∈ registrationIds q.out, ∀ name sid,
      mapFind q.robotMarkers name = some sid → name ≠ e.1 → e.2 ≠ sid) := by
  unfold Processor.construct at hrun
  cases hcap : (Processor.init s.config).ClearMarkers.capture s.playback with
  | none => simp [hcap] at hrun
  | some p =>
    simp only [hcap] at hrun
    have h0 : (Processor.init s.config).ClearMarkers.idsSoundIf := init_idsSound s.config
    have hsync0 : ∀ x, mapFind (Processor.init s.config).ClearMarkers.robots x = none ↔
        mapFind (Processor.init s.config).ClearMarkers.robotMarkers x = none := by
      intro x
      simp [Processor.init, Processor.ClearMarkers, Processor.emit, mapFind]
    have h1 := capture_idsSound s.playback _ p h0 hsync0 hcap
    have h2 := processEvents_idsSound p s.events h1
    have h3 := DisplayArtifacts_idsSound (p.processEvents s.events) h2
    have hreg := session_batchesRegistered s.config s.playback s.events p hcap
    have h4 := DisplayPosesLoop_idsSound _ _ _ q h3 hreg (fun _ he => he) hrun
    obtain ⟨_, a2, _, a4, a5, a6⟩ := h4 hno
    refine ⟨a2, a4, a6, fun id hid => (a5 id hid).2, ?_⟩
    intro e he name sid hs hne heq
    have h5 := a6 e he
    rw [heq] at h5
    exact hne (a4 name e.1 sid hs h5)

/-- Witness of C19: the sample session has two robots, whose registration
spheres carry their stable ids 1 and 3. -/
theorem stable_ids_never_reused_witness :
    ∃ q, Processor.construct sampleSession = some q ∧ noOverflow q.out ∧
      q.markerId = (incrementCount q.out : Int) ∧
      (∀ n1 n2 sid, mapFind q.robotMarkers n1 = some sid →
        mapFind q.robotMarkers n2 = some sid → n1 = n2) ∧
      (∀ e ∈ registrationIds q.out, mapFind q.robotMarkers e.1 = some e.2) ∧
      (∀ id ∈ otherFreshIds q.out, ∀ name sid,
        mapFind q.robotMarkers name = some sid → id ≠ sid) ∧
      (∀ e ∈ registrationIds q.out, ∀ name sid,
        mapFind q.robotMarkers name = some sid → name ≠ e.1 → e.2 ≠ sid) := by
  cases hq : Processor.construct sampleSession with
  | none =>
    have hbad : (Processor.construct sampleSession).isSome = true := by decide!
    rw [hq] at hbad
    cases hbad
  | some q =>
    have hcount : (Processor.construct sampleSession).all
        (fun p => decide (incrementCount p.out ≤ 100)) = true := by decide!
    rw [hq] at hcount
    simp only [Option.all_some, decide_eq_true_eq] at hcount
    have hno : noOverflow q.out := by
      unfold noOverflow
      omega
    exact ⟨q, rfl, hno, stable_ids_never_reused sampleSession q hq hno⟩

end PathTracer
